import Mathlib

/-!
Verification of the neural-network layer kernels in `assignment2/utils/layers.py`,
`assignment2/utils/cnn.py` and `assignment3/utils/rnn_layers.py`.

Arrays are shallowly embedded as functions from natural-number indices to real
numbers; an array of shape `(N, D)` is a function `ℕ → ℕ → ℝ` whose meaningful
entries are the indices below the bounds, and every reduction over an axis is a
`Finset.range` sum over that bound.  Gradients are formalised through
one-variable calculus: the gradient of a scalar loss with respect to an entry of
an input array is the derivative, at `0`, of the map sending a perturbation `ε`
to the loss evaluated with `ε` added to that single entry.
-/

open Real Finset

/-- Add `ε` to the single entry `i0` of a rank-1 array. -/
def upd1 (v : ℕ → ℝ) (i0 : ℕ) (ε : ℝ) : ℕ → ℝ :=
  fun i => if i = i0 then v i + ε else v i

/-- Add `ε` to the single entry `(i0, j0)` of a rank-2 array. -/
def upd2 (v : ℕ → ℕ → ℝ) (i0 j0 : ℕ) (ε : ℝ) : ℕ → ℕ → ℝ :=
  fun i j => if i = i0 ∧ j = j0 then v i j + ε else v i j

/-- Add `ε` to the single entry `(i0, j0, k0, l0)` of a rank-4 array. -/
def upd4 (v : ℕ → ℕ → ℕ → ℕ → ℝ) (i0 j0 k0 l0 : ℕ) (ε : ℝ) :
    ℕ → ℕ → ℕ → ℕ → ℝ :=
  fun i j k l => if i = i0 ∧ j = j0 ∧ k = k0 ∧ l = l0 then v i j k l + ε else v i j k l

theorem upd1_zero (v : ℕ → ℝ) (i0 : ℕ) : upd1 v i0 0 = v := by
  funext i; simp [upd1]

theorem upd2_zero (v : ℕ → ℕ → ℝ) (i0 j0 : ℕ) : upd2 v i0 j0 0 = v := by
  funext i j; unfold upd2; split <;> simp

theorem upd4_zero (v : ℕ → ℕ → ℕ → ℕ → ℝ) (i0 j0 k0 l0 : ℕ) :
    upd4 v i0 j0 k0 l0 0 = v := by
  funext i j k l; unfold upd4; split <;> simp

/-- A function that is affine in the perturbation has the linear coefficient as
its derivative at `0`. -/
theorem hasDerivAt_of_affine {F : ℝ → ℝ} {c a : ℝ} (h : ∀ ε, F ε = c + a * ε) :
    HasDerivAt F a 0 := by
  have h1 : HasDerivAt (fun ε : ℝ => c + a * ε) a 0 := by
    simpa using ((hasDerivAt_id (0 : ℝ)).const_mul a).const_add c
  have h2 : F = fun ε => c + a * ε := funext h
  rw [h2]; exact h1

/-- Summing a rank-1 update against weights splits off the perturbed entry. -/
theorem sum_upd_mul {D d0 : ℕ} (hd0 : d0 < D) (f g : ℕ → ℝ) (ε : ℝ) :
    ∑ d ∈ Finset.range D, (if d = d0 then f d + ε else f d) * g d
      = (∑ d ∈ Finset.range D, f d * g d) + ε * g d0 := by
  have h : ∀ d, (if d = d0 then f d + ε else f d) * g d
      = f d * g d + (if d = d0 then ε * g d0 else 0) := by
    intro d
    by_cases hd : d = d0
    · subst hd; simp [add_mul]
    · simp [hd]
  calc ∑ d ∈ Finset.range D, (if d = d0 then f d + ε else f d) * g d
      = ∑ d ∈ Finset.range D, (f d * g d + (if d = d0 then ε * g d0 else 0)) := by
        exact Finset.sum_congr rfl (fun d _ => h d)
    _ = (∑ d ∈ Finset.range D, f d * g d) + ε * g d0 := by
        rw [Finset.sum_add_distrib, Finset.sum_ite_eq' (Finset.range D) d0 (fun _ => ε * g d0)]
        simp [Finset.mem_range.mpr hd0]

/-- Derivative of the real hyperbolic tangent. -/
theorem hasDerivAt_tanh (x : ℝ) :
    HasDerivAt Real.tanh (1 - Real.tanh x ^ 2) x := by
  have hc : Real.cosh x ≠ 0 := (Real.cosh_pos x).ne'
  have h : HasDerivAt (fun y => Real.sinh y / Real.cosh y)
      ((Real.cosh x * Real.cosh x - Real.sinh x * Real.sinh x) / Real.cosh x ^ 2) x :=
    (Real.hasDerivAt_sinh x).div (Real.hasDerivAt_cosh x) hc
  have he : Real.tanh = fun y => Real.sinh y / Real.cosh y :=
    funext fun y => Real.tanh_eq_sinh_div_cosh y
  rw [he]
  convert h using 1
  show 1 - (Real.sinh x / Real.cosh x) ^ 2
      = (Real.cosh x * Real.cosh x - Real.sinh x * Real.sinh x) / Real.cosh x ^ 2
  have hs : Real.cosh x ^ 2 - Real.sinh x ^ 2 = 1 := Real.cosh_sq_sub_sinh_sq x
  field_simp
  nlinarith [hs]

/-- Numerically stable logistic sigmoid, from `rnn_layers.py` (`sigmoid`): for a
nonnegative argument it computes `1 / (1 + exp (-x))` and otherwise
`exp x / (1 + exp x)`. -/
noncomputable def sigmoid (x : ℝ) : ℝ :=
  if 0 ≤ x then 1 / (1 + Real.exp (-x)) else Real.exp x / (1 + Real.exp x)

/-- Both branches of the stable sigmoid agree with the textbook formula. -/
theorem sigmoid_eq (x : ℝ) : sigmoid x = 1 / (1 + Real.exp (-x)) := by
  unfold sigmoid
  split
  · rfl
  · have h1 : Real.exp (-x) = (Real.exp x)⁻¹ := Real.exp_neg x
    have h2 : Real.exp x ≠ 0 := (Real.exp_pos x).ne'
    have h3 : 1 + Real.exp x ≠ 0 := by positivity
    have h4 : 1 + (Real.exp x)⁻¹ ≠ 0 := by positivity
    rw [h1]
    field_simp
    ring

/-- Derivative of the sigmoid: `σ x * (1 - σ x)`. -/
theorem hasDerivAt_sigmoid (x : ℝ) :
    HasDerivAt sigmoid (sigmoid x * (1 - sigmoid x)) x := by
  have he : sigmoid = fun y => 1 / (1 + Real.exp (-y)) := funext sigmoid_eq
  have hpos : (0 : ℝ) < 1 + Real.exp (-x) := by positivity
  have h1 : HasDerivAt (fun y : ℝ => -y) (-1) x := (hasDerivAt_id x).neg
  have h2 : HasDerivAt (fun y : ℝ => Real.exp (-y)) (Real.exp (-x) * (-1)) x := h1.exp
  have h3 : HasDerivAt (fun y : ℝ => 1 + Real.exp (-y)) (Real.exp (-x) * (-1)) x :=
    h2.const_add 1
  have h4 : HasDerivAt (fun y : ℝ => (1 + Real.exp (-y))⁻¹)
      (-(Real.exp (-x) * (-1)) / (1 + Real.exp (-x)) ^ 2) x := h3.inv hpos.ne'
  rw [he]
  have h5 : HasDerivAt (fun y : ℝ => 1 / (1 + Real.exp (-y)))
      (-(Real.exp (-x) * (-1)) / (1 + Real.exp (-x)) ^ 2) x := by
    simpa [one_div] using h4
  convert h5 using 1
  show 1 / (1 + Real.exp (-x)) * (1 - 1 / (1 + Real.exp (-x)))
      = -(Real.exp (-x) * (-1)) / (1 + Real.exp (-x)) ^ 2
  field_simp
  ring

/-! ## Affine layer (`layers.py`, `affine_forward` / `affine_backward`)

The source reshapes `x` of shape `(N, d_1, ..., d_k)` to `(N, D)` with
`D = d_1 * ... * d_k` before multiplying; the embedding works directly with the
row-major flattened view, over which the reshapes in both passes are the
identity re-indexing. -/

/-- Output of `affine_forward`: `out = x.reshape(n, -1).dot(w) + b`. -/
noncomputable def affine_forward (D : ℕ) (x w : ℕ → ℕ → ℝ) (b : ℕ → ℝ) :
    ℕ → ℕ → ℝ :=
  fun n m => (∑ d ∈ Finset.range D, x n d * w d m) + b m

/-- Gradient `dx = dout.dot(w.T)` from `affine_backward` (flattened view). -/
noncomputable def affine_backward_dx (M : ℕ) (dout w : ℕ → ℕ → ℝ) : ℕ → ℕ → ℝ :=
  fun n d => ∑ m ∈ Finset.range M, dout n m * w d m

/-- Gradient `dw = x.reshape(N, -1).T.dot(dout)` from `affine_backward`. -/
noncomputable def affine_backward_dw (N : ℕ) (x dout : ℕ → ℕ → ℝ) : ℕ → ℕ → ℝ :=
  fun d m => ∑ n ∈ Finset.range N, x n d * dout n m

/-- Gradient `db = np.sum(dout, axis=0)` from `affine_backward`. -/
noncomputable def affine_backward_db (N : ℕ) (dout : ℕ → ℕ → ℝ) : ℕ → ℝ :=
  fun m => ∑ n ∈ Finset.range N, dout n m

/-- Scalar loss `∑ dout * out` used to state the gradient claims for the
affine layer. -/
noncomputable def affineLoss (N M D : ℕ) (dout x w : ℕ → ℕ → ℝ) (b : ℕ → ℝ) : ℝ :=
  ∑ n ∈ Finset.range N, ∑ m ∈ Finset.range M,
    dout n m * affine_forward D x w b n m

/-- Summing weights against a rank-1 update splits off the perturbed entry. -/
theorem sum_mul_upd {D d0 : ℕ} (hd0 : d0 < D) (f g : ℕ → ℝ) (ε : ℝ) :
    ∑ d ∈ Finset.range D, f d * (if d = d0 then g d + ε else g d)
      = (∑ d ∈ Finset.range D, f d * g d) + ε * f d0 := by
  have h : ∀ d ∈ Finset.range D,
      f d * (if d = d0 then g d + ε else g d) = (if d = d0 then g d + ε else g d) * f d :=
    fun d _ => mul_comm _ _
  rw [Finset.sum_congr rfl h, sum_upd_mul hd0 g f ε]
  exact congrArg (· + ε * f d0) (Finset.sum_congr rfl fun d _ => mul_comm _ _)

/-- Pulling an index-independent condition out of a sum. -/
theorem sum_ite_const {α : Type} (s : Finset α) (c : Prop) [Decidable c] (f : α → ℝ) :
    ∑ a ∈ s, (if c then f a else 0) = if c then ∑ a ∈ s, f a else 0 := by
  split <;> simp

theorem affineLoss_upd_x {N M D n0 d0 : ℕ} (hn0 : n0 < N) (hd0 : d0 < D)
    (dout x w : ℕ → ℕ → ℝ) (b : ℕ → ℝ) (ε : ℝ) :
    affineLoss N M D dout (upd2 x n0 d0 ε) w b
      = affineLoss N M D dout x w b + affine_backward_dx M dout w n0 d0 * ε := by
  unfold affineLoss affine_forward affine_backward_dx upd2
  have key : ∀ n m, (∑ d ∈ Finset.range D,
        (if n = n0 ∧ d = d0 then x n d + ε else x n d) * w d m)
      = (∑ d ∈ Finset.range D, x n d * w d m) + (if n = n0 then ε * w d0 m else 0) := by
    intro n m
    by_cases hn : n = n0
    · subst hn
      simp only [true_and, if_pos rfl]
      exact sum_upd_mul hd0 (fun d => x n d) (fun d => w d m) ε
    · simp [hn]
  calc ∑ n ∈ Finset.range N, ∑ m ∈ Finset.range M,
        dout n m * ((∑ d ∈ Finset.range D,
          (if n = n0 ∧ d = d0 then x n d + ε else x n d) * w d m) + b m)
      = ∑ n ∈ Finset.range N, ∑ m ∈ Finset.range M,
          (dout n m * ((∑ d ∈ Finset.range D, x n d * w d m) + b m)
            + (if n = n0 then dout n m * w d0 m * ε else 0)) := by
        refine Finset.sum_congr rfl fun n _ => Finset.sum_congr rfl fun m _ => ?_
        rw [key n m]
        by_cases hn : n = n0 <;> simp [hn] <;> ring
    _ = (∑ n ∈ Finset.range N, ∑ m ∈ Finset.range M,
          dout n m * ((∑ d ∈ Finset.range D, x n d * w d m) + b m))
        + (∑ m ∈ Finset.range M, dout n0 m * w d0 m) * ε := by
        simp only [Finset.sum_add_distrib]
        congr 1
        have h2 : ∀ n, ∑ m ∈ Finset.range M,
            (if n = n0 then dout n m * w d0 m * ε else 0)
            = (if n = n0 then ∑ m ∈ Finset.range M, dout n m * w d0 m * ε else 0) :=
          fun n => sum_ite_const (Finset.range M) (n = n0) _
        rw [Finset.sum_congr rfl fun n _ => h2 n,
          Finset.sum_ite_eq' (Finset.range N) n0
            (fun n => ∑ m ∈ Finset.range M, dout n m * w d0 m * ε)]
        simp only [Finset.mem_range.mpr hn0, if_pos]
        rw [← Finset.sum_mul]

theorem affineLoss_upd_w {N M D d0 m0 : ℕ} (hd0 : d0 < D) (hm0 : m0 < M)
    (dout x w : ℕ → ℕ → ℝ) (b : ℕ → ℝ) (ε : ℝ) :
    affineLoss N M D dout x (upd2 w d0 m0 ε) b
      = affineLoss N M D dout x w b + affine_backward_dw N x dout d0 m0 * ε := by
  unfold affineLoss affine_forward affine_backward_dw upd2
  have key : ∀ n m, (∑ d ∈ Finset.range D,
        x n d * (if d = d0 ∧ m = m0 then w d m + ε else w d m))
      = (∑ d ∈ Finset.range D, x n d * w d m) + (if m = m0 then ε * x n d0 else 0) := by
    intro n m
    by_cases hm : m = m0
    · subst hm
      simp only [and_true, if_pos rfl]
      exact sum_mul_upd hd0 (fun d => x n d) (fun d => w d m) ε
    · simp [hm]
  calc ∑ n ∈ Finset.range N, ∑ m ∈ Finset.range M,
        dout n m * ((∑ d ∈ Finset.range D,
          x n d * (if d = d0 ∧ m = m0 then w d m + ε else w d m)) + b m)
      = ∑ n ∈ Finset.range N, ∑ m ∈ Finset.range M,
          (dout n m * ((∑ d ∈ Finset.range D, x n d * w d m) + b m)
            + (if m = m0 then dout n m * x n d0 * ε else 0)) := by
        refine Finset.sum_congr rfl fun n _ => Finset.sum_congr rfl fun m _ => ?_
        rw [key n m]
        by_cases hm : m = m0 <;> simp [hm] <;> ring
    _ = (∑ n ∈ Finset.range N, ∑ m ∈ Finset.range M,
          dout n m * ((∑ d ∈ Finset.range D, x n d * w d m) + b m))
        + (∑ n ∈ Finset.range N, x n d0 * dout n m0) * ε := by
        simp only [Finset.sum_add_distrib]
        congr 1
        have h2 : ∀ n, ∑ m ∈ Finset.range M,
            (if m = m0 then dout n m * x n d0 * ε else 0)
            = dout n m0 * x n d0 * ε := by
          intro n
          rw [Finset.sum_ite_eq' (Finset.range M) m0 (fun m => dout n m * x n d0 * ε)]
          simp [Finset.mem_range.mpr hm0]
        rw [Finset.sum_congr rfl fun n _ => h2 n, Finset.sum_mul]
        exact Finset.sum_congr rfl fun n _ => by ring

theorem affineLoss_upd_b {N M D m0 : ℕ} (hm0 : m0 < M)
    (dout x w : ℕ → ℕ → ℝ) (b : ℕ → ℝ) (ε : ℝ) :
    affineLoss N M D dout x w (upd1 b m0 ε)
      = affineLoss N M D dout x w b + affine_backward_db N dout m0 * ε := by
  unfold affineLoss affine_forward affine_backward_db upd1
  calc ∑ n ∈ Finset.range N, ∑ m ∈ Finset.range M,
        dout n m * ((∑ d ∈ Finset.range D, x n d * w d m)
          + (if m = m0 then b m + ε else b m))
      = ∑ n ∈ Finset.range N, ∑ m ∈ Finset.range M,
          (dout n m * ((∑ d ∈ Finset.range D, x n d * w d m) + b m)
            + (if m = m0 then dout n m * ε else 0)) := by
        refine Finset.sum_congr rfl fun n _ => Finset.sum_congr rfl fun m _ => ?_
        by_cases hm : m = m0 <;> simp [hm] <;> ring
    _ = (∑ n ∈ Finset.range N, ∑ m ∈ Finset.range M,
          dout n m * ((∑ d ∈ Finset.range D, x n d * w d m) + b m))
        + (∑ n ∈ Finset.range N, dout n m0) * ε := by
        simp only [Finset.sum_add_distrib]
        congr 1
        have h2 : ∀ n, ∑ m ∈ Finset.range M, (if m = m0 then dout n m * ε else 0)
            = dout n m0 * ε := by
          intro n
          rw [Finset.sum_ite_eq' (Finset.range M) m0 (fun m => dout n m * ε)]
          simp [Finset.mem_range.mpr hm0]
        rw [Finset.sum_congr rfl fun n _ => h2 n, Finset.sum_mul]

/-- Claim C4: `affine_forward` computes `out = reshape(x, (N, D)).w + b` on the
flattened view of `x`, and `affine_backward` returns `dx = dout.wᵀ` (reshaped),
`dw = reshape(x)ᵀ.dout` and `db` the column sums of `dout`, which are the exact
gradients of `∑ dout * out` with respect to `x`, `w` and `b`. -/
theorem affine_forward_backward_correct (N M D : ℕ)
    (x w dout : ℕ → ℕ → ℝ) (b : ℕ → ℝ) :
    (∀ n m, affine_forward D x w b n m = (∑ d ∈ Finset.range D, x n d * w d m) + b m)
    ∧ (∀ n d, affine_backward_dx M dout w n d = ∑ m ∈ Finset.range M, dout n m * w d m)
    ∧ (∀ d m, affine_backward_dw N x dout d m = ∑ n ∈ Finset.range N, x n d * dout n m)
    ∧ (∀ m, affine_backward_db N dout m = ∑ n ∈ Finset.range N, dout n m)
    ∧ (∀ n0 d0, n0 < N → d0 < D →
        HasDerivAt (fun ε => affineLoss N M D dout (upd2 x n0 d0 ε) w b)
          (affine_backward_dx M dout w n0 d0) 0)
    ∧ (∀ d0 m0, d0 < D → m0 < M →
        HasDerivAt (fun ε => affineLoss N M D dout x (upd2 w d0 m0 ε) b)
          (affine_backward_dw N x dout d0 m0) 0)
    ∧ (∀ m0, m0 < M →
        HasDerivAt (fun ε => affineLoss N M D dout x w (upd1 b m0 ε))
          (affine_backward_db N dout m0) 0) := by
  refine ⟨fun n m => rfl, fun n d => rfl, fun d m => rfl, fun m => rfl, ?_, ?_, ?_⟩
  · intro n0 d0 hn0 hd0
    exact hasDerivAt_of_affine fun ε => affineLoss_upd_x hn0 hd0 dout x w b ε
  · intro d0 m0 hd0 hm0
    exact hasDerivAt_of_affine fun ε => affineLoss_upd_w hd0 hm0 dout x w b ε
  · intro m0 hm0
    exact hasDerivAt_of_affine fun ε => affineLoss_upd_b hm0 dout x w b ε

/-- Witness for C4 at `N = M = D = 1` with constant arrays: the derivative of
the perturbed loss in the input entry `(0,0)` is `dout * w = 2 * 5 = 10`. -/
theorem affine_forward_backward_correct_witness :
    HasDerivAt
      (fun ε => affineLoss 1 1 1 (fun _ _ => 2) (upd2 (fun _ _ => 3) 0 0 ε)
        (fun _ _ => 5) (fun _ => 7)) 10 0 := by
  have h := (affine_forward_backward_correct 1 1 1 (fun _ _ => 3) (fun _ _ => 5)
    (fun _ _ => 2) (fun _ => 7)).2.2.2.2.1 0 0 (by decide) (by decide)
  have hval : affine_backward_dx 1 (fun _ _ => (2 : ℝ)) (fun _ _ => 5) 0 0 = 10 := by
    simp [affine_backward_dx]
    norm_num
  rwa [hval] at h

/-! ## Batch normalization (`layers.py`, `batchnorm_forward` and friends)

The `bn_param` dictionary is embedded as a structure whose optional fields model
keys that may be absent (the source fetches them with `dict.get` and a default).
The source mutates `bn_param` in place (it stores the running mean and variance
back into the dictionary) and raises `ValueError` on an unknown mode, so the
embedding passes the dictionary state explicitly and returns through `Except`. -/

structure BNParam where
  mode : String
  eps : Option ℝ
  momentum : Option ℝ
  running_mean : Option (ℕ → ℝ)
  running_var : Option (ℕ → ℝ)

structure BNCache where
  x : ℕ → ℕ → ℝ
  std : Option (ℕ → ℝ)
  mean : Option (ℕ → ℝ)
  beta : ℕ → ℝ
  gamma : ℕ → ℝ

/-- Per-feature minibatch mean, `np.mean(x, axis=0)`. -/
noncomputable def bnMean (N : ℕ) (x : ℕ → ℕ → ℝ) : ℕ → ℝ :=
  fun d => (∑ n ∈ Finset.range N, x n d) / (N : ℝ)

/-- Per-feature minibatch standard deviation, `np.std(x, axis=0)` (uncorrected). -/
noncomputable def bnStd (N : ℕ) (x : ℕ → ℕ → ℝ) : ℕ → ℝ :=
  fun d => Real.sqrt ((∑ n ∈ Finset.range N, (x n d - bnMean N x d) ^ 2) / (N : ℝ))

/-- Forward pass of `batchnorm_forward`, with the mutation of `bn_param`
returned as the third component and the `ValueError` on an unknown mode as an
`Except.error`.  In train mode the running statistics are updated with the
momentum-weighted average before `eps` is folded into the standard deviation,
exactly as in the source (the running variance uses the pre-`eps` `std ** 2`). -/
noncomputable def batchnorm_forward (N : ℕ) (x : ℕ → ℕ → ℝ) (gamma beta : ℕ → ℝ)
    (p : BNParam) : Except String ((ℕ → ℕ → ℝ) × BNCache × BNParam) :=
  let eps := p.eps.getD (1 / 100000)
  let momentum := p.momentum.getD (9 / 10)
  let running_mean := p.running_mean.getD (fun _ => 0)
  let running_var := p.running_var.getD (fun _ => 0)
  if p.mode = "train" then
    let mean := bnMean N x
    let std0 := bnStd N x
    let rm : ℕ → ℝ := fun d => momentum * running_mean d + (1 - momentum) * mean d
    let rv : ℕ → ℝ := fun d => momentum * running_var d + (1 - momentum) * std0 d ^ 2
    let std : ℕ → ℝ := fun d => Real.sqrt (std0 d ^ 2 + eps)
    let out : ℕ → ℕ → ℝ := fun n d => gamma d * (x n d - mean d) / std d + beta d
    Except.ok (out, ⟨x, some std, some mean, beta, gamma⟩,
      ⟨p.mode, p.eps, p.momentum, some rm, some rv⟩)
  else if p.mode = "test" then
    let out : ℕ → ℕ → ℝ := fun n d =>
      gamma d * (x n d - running_mean d) / Real.sqrt (running_var d + eps) + beta d
    Except.ok (out, ⟨x, none, none, beta, gamma⟩,
      ⟨p.mode, p.eps, p.momentum, some running_mean, some running_var⟩)
  else
    Except.error ("Invalid forward batchnorm mode \"" ++ p.mode ++ "\"")

/-- Body of `batchnorm_backward_alt`: the TODO block was never filled in, so the
initial `None, None, None` triple is returned unchanged. -/
def batchnorm_backward_alt (dout : ℕ → ℕ → ℝ) (cache : BNCache) :
    Option (ℕ → ℕ → ℝ) × Option (ℕ → ℝ) × Option (ℕ → ℝ) :=
  (none, none, none)

/-- Claim C9: `batchnorm_backward_alt` is an unimplemented stub that returns
`(None, None, None)` for every upstream derivative and cache. -/
theorem batchnorm_backward_alt_stub (dout : ℕ → ℕ → ℝ) (cache : BNCache) :
    batchnorm_backward_alt dout cache = (none, none, none) := rfl

/-- Concrete `bn_param` used to exhibit the mutation of the dictionary. -/
noncomputable def pC5 : BNParam :=
  ⟨"train", none, some (1 / 2), some (fun _ => 0), some (fun _ => 0)⟩

/-- Running mean stored in the `bn_param` returned by a `batchnorm_forward`
call, sampled at feature `0` (projection used by the C5 counterexample). -/
noncomputable def bnNewRM (r : Except String ((ℕ → ℕ → ℝ) × BNCache × BNParam)) : ℝ :=
  match r with
  | Except.ok t => (t.2.2.running_mean.getD (fun _ => 0)) 0
  | Except.error _ => 0

/-- Counterexample to C5 as stated: calling `batchnorm_forward` in train mode on
`x = [[2]]` with momentum `1/2` and stored running mean `0` hands back a
`bn_param` whose running mean is `1`, so the argument dictionary does not hold
the same contents after the call. -/
theorem batchnorm_mutates_bn_param :
    bnNewRM (batchnorm_forward 1 (fun _ _ => 2) (fun _ => 1) (fun _ => 1) pC5) = 1
    ∧ (pC5.running_mean.getD (fun _ => 0)) 0 = 0 := by
  constructor
  · simp only [batchnorm_forward, pC5, bnNewRM, bnMean]
    norm_num
  · simp [pC5]

/-- Claim C5 (amended): the layer functions leave their array arguments
unchanged, but `batchnorm_forward` writes into `bn_param`: the returned
dictionary keeps `mode`, `eps` and `momentum`, while `running_mean` and
`running_var` are set to the momentum-decayed averages of the fetched running
statistics and the minibatch mean and (uncorrected) variance. -/
theorem batchnorm_updates_running_stats (N : ℕ) (x : ℕ → ℕ → ℝ)
    (gamma beta : ℕ → ℝ) (p : BNParam) (h : p.mode = "train") :
    ∀ out cache p', batchnorm_forward N x gamma beta p = Except.ok (out, cache, p') →
      p'.mode = p.mode ∧ p'.eps = p.eps ∧ p'.momentum = p.momentum
      ∧ p'.running_mean = some (fun d =>
          p.momentum.getD (9 / 10) * (p.running_mean.getD (fun _ => 0)) d
            + (1 - p.momentum.getD (9 / 10)) * bnMean N x d)
      ∧ p'.running_var = some (fun d =>
          p.momentum.getD (9 / 10) * (p.running_var.getD (fun _ => 0)) d
            + (1 - p.momentum.getD (9 / 10)) * bnStd N x d ^ 2) := by
  intro out cache p' hcall
  rw [batchnorm_forward, if_pos h] at hcall
  injection hcall with h1
  have hp := congrArg (fun t => t.2.2) h1
  simp only at hp
  rw [← hp]
  exact ⟨rfl, rfl, rfl, rfl, rfl⟩

/-- Witness for C5 (amended) at the concrete train-mode dictionary `pC5`. -/
theorem batchnorm_updates_running_stats_witness :
    pC5.mode = "train"
    ∧ ∀ out cache p',
        batchnorm_forward 1 (fun _ _ => 2) (fun _ => 1) (fun _ => 1) pC5
          = Except.ok (out, cache, p') →
        p'.mode = pC5.mode ∧ p'.eps = pC5.eps ∧ p'.momentum = pC5.momentum
        ∧ p'.running_mean = some (fun d =>
            pC5.momentum.getD (9 / 10) * (pC5.running_mean.getD (fun _ => 0)) d
              + (1 - pC5.momentum.getD (9 / 10)) * bnMean 1 (fun _ _ => 2) d)
        ∧ p'.running_var = some (fun d =>
            pC5.momentum.getD (9 / 10) * (pC5.running_var.getD (fun _ => 0)) d
              + (1 - pC5.momentum.getD (9 / 10)) * bnStd 1 (fun _ _ => 2) d ^ 2) :=
  ⟨rfl, batchnorm_updates_running_stats 1 (fun _ _ => 2) (fun _ => 1) (fun _ => 1) pC5 rfl⟩

/-- Concrete `bn_param` with an invalid mode. -/
def pFoo : BNParam := ⟨"foo", none, none, none, none⟩

/-- Counterexample to C7 as stated: `batchnorm_forward` does not return
normally for every value of `bn_param['mode']` — mode `"foo"` raises
`ValueError`. -/
theorem batchnorm_invalid_mode_raises :
    batchnorm_forward 1 (fun _ _ => 0) (fun _ => 1) (fun _ => 0) pFoo
      = Except.error "Invalid forward batchnorm mode \"foo\"" := by
  rfl

/-- Claim C7 (amended): `batchnorm_forward` returns normally when
`bn_param['mode']` is `'train'` or `'test'`, and raises `ValueError` for every
other mode. -/
theorem batchnorm_mode_error_handling (N : ℕ) (x : ℕ → ℕ → ℝ)
    (gamma beta : ℕ → ℝ) (p : BNParam) :
    ((p.mode = "train" ∨ p.mode = "test") →
      (batchnorm_forward N x gamma beta p).isOk = true)
    ∧ (p.mode ≠ "train" → p.mode ≠ "test" →
      batchnorm_forward N x gamma beta p
        = Except.error ("Invalid forward batchnorm mode \"" ++ p.mode ++ "\"")) := by
  constructor
  · rintro (h | h) <;> rw [batchnorm_forward]
    · rw [if_pos h]; rfl
    · by_cases h' : p.mode = "train"
      · rw [if_pos h']; rfl
      · rw [if_neg h', if_pos h]; rfl
  · intro h1 h2
    rw [batchnorm_forward, if_neg h1, if_neg h2]

/-- Witness for C7 (amended): train mode succeeds and mode `"bar"` errors. -/
theorem batchnorm_mode_error_handling_witness :
    (batchnorm_forward 1 (fun _ _ => 0) (fun _ => 1) (fun _ => 0)
      ⟨"train", none, none, none, none⟩).isOk = true
    ∧ batchnorm_forward 1 (fun _ _ => 0) (fun _ => 1) (fun _ => 0)
        ⟨"bar", none, none, none, none⟩
      = Except.error ("Invalid forward batchnorm mode \"" ++ "bar" ++ "\"") :=
  ⟨(batchnorm_mode_error_handling 1 (fun _ _ => 0) (fun _ => 1) (fun _ => 0)
      ⟨"train", none, none, none, none⟩).1 (Or.inl rfl),
   (batchnorm_mode_error_handling 1 (fun _ _ => 0) (fun _ => 1) (fun _ => 0)
      ⟨"bar", none, none, none, none⟩).2 (by decide) (by decide)⟩

/-! ## Dropout (`layers.py`, `dropout_forward`)

The numpy global random generator is made explicit: `rng` is the array that
`np.random.rand(*x.shape)` would return in the current generator state, and
`seedf` models the library fact that `np.random.seed(s)` makes the next draw a
fixed function of `s` alone.  In train mode the mask is
`(np.random.rand(*x.shape) > p) / (1 - p)` and the output `x * mask`; in test
mode the input is returned unchanged with a `None` mask; any other mode leaves
`out = None` and the final `out.astype` raises. -/

noncomputable def dropout_forward (seedf : ℕ → ℕ → ℕ → ℝ) (p : ℝ) (mode : String)
    (seed : Option ℕ) (x : ℕ → ℕ → ℝ) (rng : ℕ → ℕ → ℝ) :
    Except String ((ℕ → ℕ → ℝ) × Option (ℕ → ℕ → ℝ)) :=
  let r : ℕ → ℕ → ℝ := match seed with
    | some s => seedf s
    | none => rng
  if mode = "train" then
    let mask : ℕ → ℕ → ℝ := fun i j => (if p < r i j then 1 else 0) / (1 - p)
    Except.ok (fun i j => x i j * mask i j, some mask)
  else if mode = "test" then
    Except.ok (x, none)
  else
    Except.error "out is None and out.astype raises AttributeError"

/-- Output entry `(0,0)` of a `dropout_forward` call (projection used by the C6
counterexample). -/
noncomputable def dropOut00 (r : Except String ((ℕ → ℕ → ℝ) × Option (ℕ → ℕ → ℝ))) : ℝ :=
  match r with
  | Except.ok t => t.1 0 0
  | Except.error _ => 0

/-- Counterexample to C6 as stated: two train-mode `dropout_forward` calls with
identical Python arguments (`p = 1/2`, no seed, `x = 1`) but different hidden
generator states return different outputs (`2` versus `0`), so the operation is
not deterministic in its arguments alone. -/
theorem dropout_unseeded_rng_dependent :
    dropOut00 (dropout_forward (fun _ _ _ => 0) (1 / 2) "train" none
      (fun _ _ => 1) (fun _ _ => 1)) = 2
    ∧ dropOut00 (dropout_forward (fun _ _ _ => 0) (1 / 2) "train" none
      (fun _ _ => 1) (fun _ _ => 0)) = 0 := by
  constructor
  · simp only [dropout_forward, dropOut00]
    norm_num
  · simp only [dropout_forward, dropOut00]
    norm_num

/-- Claim C6 (amended): every layer kernel is deterministic as a function of its
explicit arguments together with the numpy generator state, and a seeded
`dropout_forward` is deterministic in its Python arguments alone: when
`dropout_param` contains a seed, the result does not depend on the incoming
generator state. -/
theorem dropout_seeded_deterministic (seedf : ℕ → ℕ → ℕ → ℝ) (p : ℝ)
    (mode : String) (s : ℕ) (x : ℕ → ℕ → ℝ) (rng1 rng2 : ℕ → ℕ → ℝ) :
    dropout_forward seedf p mode (some s) x rng1
      = dropout_forward seedf p mode (some s) x rng2 := rfl

/-! ## Three-layer CNN initialisation (`cnn.py`, `ThreeLayerConvNet.__init__`)

The draws of `np.random.randn` for `W1`, `W2` and `W3` are passed in explicitly
as `randnW1`, `randnW2`, `randnW3`.  The `dtype` cast is dropped (all scalars
are real).  The body binds `hdn = 100` and `cls = 10` and uses those local
constants, not the `hidden_dim` and `num_classes` parameters, when shaping
`W2`, `b2`, `W3`, `b3`. -/

structure ConvNetParams where
  W1 : ℕ → ℕ → ℕ → ℕ → ℝ
  b1 : ℕ → ℝ
  W2 : ℕ → ℕ → ℝ
  b2 : ℕ → ℝ
  W3 : ℕ → ℕ → ℝ
  b3 : ℕ → ℝ
  W1shape : ℕ × ℕ × ℕ × ℕ
  b1shape : ℕ
  W2shape : ℕ × ℕ
  b2shape : ℕ
  W3shape : ℕ × ℕ
  b3shape : ℕ

noncomputable def ThreeLayerConvNet_init (input_dim : ℕ × ℕ × ℕ)
    (num_filters filter_size hidden_dim num_classes : ℕ)
    (weight_scale reg : ℝ) (randnW1 : ℕ → ℕ → ℕ → ℕ → ℝ)
    (randnW2 randnW3 : ℕ → ℕ → ℝ) : ConvNetParams :=
  let C := input_dim.1
  let H := input_dim.2.1
  let F := num_filters
  let HH := filter_size
  let hdn := 100
  let cls := 10
  ⟨fun a b c d => randnW1 a b c d * weight_scale,
   fun _ => 0,
   fun a b => randnW2 a b * weight_scale,
   fun _ => 0,
   fun a b => randnW3 a b * weight_scale,
   fun _ => 0,
   (F, C, HH, HH), F, (F * (H / 2) ^ 2, hdn), hdn, (hdn, cls), cls⟩

/-- Claim C8: `ThreeLayerConvNet.__init__` ignores `hidden_dim` and
`num_classes`: whatever is passed, `W2` has shape
`(num_filters * (H/2)^2, 100)`, `b2` has shape `(100,)`, `W3` has shape
`(100, 10)` and `b3` has shape `(10,)`, and the whole parameter set equals the
one produced with `hidden_dim = 100` and `num_classes = 10`. -/
theorem convnet_init_ignores_hidden_dim_num_classes (input_dim : ℕ × ℕ × ℕ)
    (num_filters filter_size hidden_dim num_classes : ℕ)
    (weight_scale reg : ℝ) (randnW1 : ℕ → ℕ → ℕ → ℕ → ℝ)
    (randnW2 randnW3 : ℕ → ℕ → ℝ) :
    (ThreeLayerConvNet_init input_dim num_filters filter_size hidden_dim
        num_classes weight_scale reg randnW1 randnW2 randnW3).W2shape
      = (num_filters * (input_dim.2.1 / 2) ^ 2, 100)
    ∧ (ThreeLayerConvNet_init input_dim num_filters filter_size hidden_dim
        num_classes weight_scale reg randnW1 randnW2 randnW3).b2shape = 100
    ∧ (ThreeLayerConvNet_init input_dim num_filters filter_size hidden_dim
        num_classes weight_scale reg randnW1 randnW2 randnW3).W3shape = (100, 10)
    ∧ (ThreeLayerConvNet_init input_dim num_filters filter_size hidden_dim
        num_classes weight_scale reg randnW1 randnW2 randnW3).b3shape = 10
    ∧ ThreeLayerConvNet_init input_dim num_filters filter_size hidden_dim
        num_classes weight_scale reg randnW1 randnW2 randnW3
      = ThreeLayerConvNet_init input_dim num_filters filter_size 100 10
        weight_scale reg randnW1 randnW2 randnW3 :=
  ⟨rfl, rfl, rfl, rfl, rfl⟩

/-! ## Max pooling (`layers.py`, `max_pool_forward_naive` / `max_pool_backward_naive`) -/

/-- Maximum of `f 0, ..., f n` (the reduction behind `np.max`). -/
noncomputable def rangeMax : ℕ → (ℕ → ℝ) → ℝ
  | 0, f => f 0
  | n + 1, f => max (rangeMax n f) (f (n + 1))

/-- Output of `max_pool_forward_naive`:
`out[:,:,i,j] = np.max(x[:,:,S*i:S*i+h,S*j:S*j+w], axis=(2,3))`. -/
noncomputable def max_pool_forward_naive (ph pw S : ℕ) (x : ℕ → ℕ → ℕ → ℕ → ℝ) :
    ℕ → ℕ → ℕ → ℕ → ℝ :=
  fun n c i j => rangeMax (ph - 1) (fun p => rangeMax (pw - 1) (fun q =>
    x n c (S * i + p) (S * j + q)))

/-- Output of `max_pool_backward_naive`: starting from zeros, every pooling
window `(i, j)` adds `(a == np.max(a)) * dout[:,:,i:i+1,j:j+1]` into its slice
of `dx`, so entry `(r, s)` accumulates, over the windows covering it, the
upstream gradient whenever it ties the window maximum. -/
noncomputable def max_pool_backward_naive (ph pw S H W : ℕ) (x dout : ℕ → ℕ → ℕ → ℕ → ℝ) :
    ℕ → ℕ → ℕ → ℕ → ℝ :=
  fun n c r s =>
    ∑ i ∈ Finset.range ((H - ph) / S + 1), ∑ j ∈ Finset.range ((W - pw) / S + 1),
      if S * i ≤ r ∧ r < S * i + ph ∧ S * j ≤ s ∧ s < S * j + pw then
        (if x n c r s = max_pool_forward_naive ph pw S x n c i j
          then dout n c i j else 0)
      else 0

/-- The running maximum is attained at some index. -/
theorem rangeMax_attained (n : ℕ) (f : ℕ → ℝ) :
    ∃ p, p ≤ n ∧ rangeMax n f = f p := by
  induction n with
  | zero => exact ⟨0, le_rfl, rfl⟩
  | succ n ih =>
    obtain ⟨p, hp, hval⟩ := ih
    rcases le_total (rangeMax n f) (f (n + 1)) with h | h
    · exact ⟨n + 1, le_rfl, max_eq_right h⟩
    · exact ⟨p, hp.trans (Nat.le_succ n), (max_eq_left h).trans hval⟩

/-- Summing a constant over the entries satisfying a condition counts them. -/
theorem sum_indicator_card {α : Type} (s : Finset α) (p : α → Prop)
    [DecidablePred p] (v : ℝ) :
    ∑ a ∈ s, (if p a then v else 0) = ((s.filter p).card : ℝ) * v := by
  rw [← Finset.sum_filter, Finset.sum_const, nsmul_eq_mul]

/-- Claim C10: `max_pool_backward_naive` routes gradient to all tied maxima.
Entry `(r, s)` of `dx` accumulates, over every window covering it, the full
upstream gradient whenever it ties that window maximum; within one window the
routed amounts therefore total `k * dout[n,c,i,j]` where `k` counts the window
entries equal to the window maximum, and `k ≥ 1` always holds. -/
theorem max_pool_backward_ties_full_gradient (ph pw S H W : ℕ)
    (x dout : ℕ → ℕ → ℕ → ℕ → ℝ) (n c i j : ℕ) (hph : 0 < ph) (hpw : 0 < pw) :
    (∀ r s, max_pool_backward_naive ph pw S H W x dout n c r s
      = ∑ i' ∈ Finset.range ((H - ph) / S + 1),
          ∑ j' ∈ Finset.range ((W - pw) / S + 1),
          if S * i' ≤ r ∧ r < S * i' + ph ∧ S * j' ≤ s ∧ s < S * j' + pw then
            (if x n c r s = max_pool_forward_naive ph pw S x n c i' j'
              then dout n c i' j' else 0)
          else 0)
    ∧ (∀ p q, p < ph → q < pw →
        x n c (S * i + p) (S * j + q) = max_pool_forward_naive ph pw S x n c i j →
        (if x n c (S * i + p) (S * j + q) = max_pool_forward_naive ph pw S x n c i j
          then dout n c i j else 0) = dout n c i j)
    ∧ (∑ p ∈ Finset.range ph, ∑ q ∈ Finset.range pw,
        (if x n c (S * i + p) (S * j + q) = max_pool_forward_naive ph pw S x n c i j
          then dout n c i j else 0)
      = (((Finset.range ph ×ˢ Finset.range pw).filter (fun pq =>
          x n c (S * i + pq.1) (S * j + pq.2)
            = max_pool_forward_naive ph pw S x n c i j)).card : ℝ) * dout n c i j)
    ∧ 1 ≤ ((Finset.range ph ×ˢ Finset.range pw).filter (fun pq =>
        x n c (S * i + pq.1) (S * j + pq.2)
          = max_pool_forward_naive ph pw S x n c i j)).card := by
  refine ⟨fun r s => rfl, fun p q _ _ htie => if_pos htie, ?_, ?_⟩
  · rw [← Finset.sum_product', sum_indicator_card]
  · obtain ⟨p, hp, hvp⟩ := rangeMax_attained (ph - 1) (fun p => rangeMax (pw - 1)
      (fun q => x n c (S * i + p) (S * j + q)))
    obtain ⟨q, hq, hvq⟩ := rangeMax_attained (pw - 1)
      (fun q => x n c (S * i + p) (S * j + q))
    have hmem : (p, q) ∈ (Finset.range ph ×ˢ Finset.range pw).filter (fun pq =>
        x n c (S * i + pq.1) (S * j + pq.2)
          = max_pool_forward_naive ph pw S x n c i j) := by
      rw [Finset.mem_filter, Finset.mem_product, Finset.mem_range, Finset.mem_range]
      refine ⟨⟨by omega, by omega⟩, ?_⟩
      show x n c (S * i + p) (S * j + q) = max_pool_forward_naive ph pw S x n c i j
      rw [max_pool_forward_naive]
      rw [hvp, hvq]
    exact Finset.card_pos.mpr ⟨(p, q), hmem⟩

/-- Constant test input for the C10 witness. -/
noncomputable def xC10 : ℕ → ℕ → ℕ → ℕ → ℝ := fun _ _ _ _ => 5

/-- Constant upstream gradient for the C10 witness. -/
noncomputable def dC10 : ℕ → ℕ → ℕ → ℕ → ℝ := fun _ _ _ _ => 3

/-- Witness for C10: in a `2 x 2` window of a constant input every entry ties
the maximum, so the window routes `4 * 3 = 12` in total. -/
theorem max_pool_backward_ties_full_gradient_witness :
    ∑ p ∈ Finset.range 2, ∑ q ∈ Finset.range 2,
      (if xC10 0 0 (2 * 0 + p) (2 * 0 + q)
          = max_pool_forward_naive 2 2 2 xC10 0 0 0 0
        then dC10 0 0 0 0 else 0) = 12 := by
  have h := (max_pool_backward_ties_full_gradient 2 2 2 2 2 xC10 dC10 0 0 0 0
    (by decide) (by decide)).2.2.1
  rw [h]
  have hcard : ((Finset.range 2 ×ˢ Finset.range 2).filter (fun pq =>
      xC10 0 0 (2 * 0 + pq.1) (2 * 0 + pq.2)
        = max_pool_forward_naive 2 2 2 xC10 0 0 0 0)).card = 4 := by
    rw [Finset.filter_true_of_mem]
    · decide
    · intro pq _
      simp [xC10, max_pool_forward_naive, rangeMax]
  rw [hcard]
  norm_num [dC10]

/-! ## LSTM step (`rnn_layers.py`, `lstm_step_forward` / `lstm_step_backward`)

The pre-activation `A = x.dot(Wx) + prev_h.dot(Wh) + b` has `4H` columns; the
gates read the four column blocks `[0,H)`, `[H,2H)`, `[2H,3H)`, `[3H,4H)`.
The backward pass recomputes `A` and the gates from the cache and stacks the
four per-gate factors into `dW` with `np.hstack`, so column `j` of `dW` holds
the gate factor of block `j / H` at offset `j % H`. -/

noncomputable def lstmA (D H : ℕ) (x prevh Wx Wh : ℕ → ℕ → ℝ) (b : ℕ → ℝ) :
    ℕ → ℕ → ℝ :=
  fun n j => (∑ d ∈ Finset.range D, x n d * Wx d j)
    + (∑ k ∈ Finset.range H, prevh n k * Wh k j) + b j

noncomputable def lstm_i (D H : ℕ) (x prevh Wx Wh : ℕ → ℕ → ℝ) (b : ℕ → ℝ) :
    ℕ → ℕ → ℝ :=
  fun n h => sigmoid (lstmA D H x prevh Wx Wh b n h)

noncomputable def lstm_f (D H : ℕ) (x prevh Wx Wh : ℕ → ℕ → ℝ) (b : ℕ → ℝ) :
    ℕ → ℕ → ℝ :=
  fun n h => sigmoid (lstmA D H x prevh Wx Wh b n (H + h))

noncomputable def lstm_o (D H : ℕ) (x prevh Wx Wh : ℕ → ℕ → ℝ) (b : ℕ → ℝ) :
    ℕ → ℕ → ℝ :=
  fun n h => sigmoid (lstmA D H x prevh Wx Wh b n (2 * H + h))

noncomputable def lstm_g (D H : ℕ) (x prevh Wx Wh : ℕ → ℕ → ℝ) (b : ℕ → ℝ) :
    ℕ → ℕ → ℝ :=
  fun n h => Real.tanh (lstmA D H x prevh Wx Wh b n (3 * H + h))

noncomputable def lstm_next_c (D H : ℕ) (x prevh prevc Wx Wh : ℕ → ℕ → ℝ)
    (b : ℕ → ℝ) : ℕ → ℕ → ℝ :=
  fun n h => lstm_f D H x prevh Wx Wh b n h * prevc n h
    + lstm_i D H x prevh Wx Wh b n h * lstm_g D H x prevh Wx Wh b n h

noncomputable def lstm_next_h (D H : ℕ) (x prevh prevc Wx Wh : ℕ → ℕ → ℝ)
    (b : ℕ → ℝ) : ℕ → ℕ → ℝ :=
  fun n h => lstm_o D H x prevh Wx Wh b n h
    * Real.tanh (lstm_next_c D H x prevh prevc Wx Wh b n h)

/-- Total upstream cell gradient `dnext_c + dnext_h * o * (1 - tanh(next_c)^2)`
from `lstm_step_backward`, evaluated on the forward cache. -/
noncomputable def lstm_dct (D H : ℕ) (x prevh prevc Wx Wh dnh dnc : ℕ → ℕ → ℝ)
    (b : ℕ → ℝ) : ℕ → ℕ → ℝ :=
  fun n h => dnc n h + dnh n h * lstm_o D H x prevh Wx Wh b n h
    * (1 - Real.tanh (lstm_next_c D H x prevh prevc Wx Wh b n h) ^ 2)

noncomputable def lstm_do (D H : ℕ) (x prevh prevc Wx Wh dnh dnc : ℕ → ℕ → ℝ)
    (b : ℕ → ℝ) : ℕ → ℕ → ℝ :=
  fun n h => dnh n h * Real.tanh (lstm_next_c D H x prevh prevc Wx Wh b n h)

noncomputable def lstm_di (D H : ℕ) (x prevh prevc Wx Wh dnh dnc : ℕ → ℕ → ℝ)
    (b : ℕ → ℝ) : ℕ → ℕ → ℝ :=
  fun n h => lstm_dct D H x prevh prevc Wx Wh dnh dnc b n h
    * lstm_g D H x prevh Wx Wh b n h

noncomputable def lstm_df (D H : ℕ) (x prevh prevc Wx Wh dnh dnc : ℕ → ℕ → ℝ)
    (b : ℕ → ℝ) : ℕ → ℕ → ℝ :=
  fun n h => lstm_dct D H x prevh prevc Wx Wh dnh dnc b n h * prevc n h

noncomputable def lstm_dg (D H : ℕ) (x prevh prevc Wx Wh dnh dnc : ℕ → ℕ → ℝ)
    (b : ℕ → ℝ) : ℕ → ℕ → ℝ :=
  fun n h => lstm_dct D H x prevh prevc Wx Wh dnh dnc b n h
    * lstm_i D H x prevh Wx Wh b n h

/-- The matrix `np.hstack([di*i*(1-i), df*f*(1-f), do*o*(1-o), dg*(1-g**2)])`. -/
noncomputable def lstm_dW (D H : ℕ) (x prevh prevc Wx Wh dnh dnc : ℕ → ℕ → ℝ)
    (b : ℕ → ℝ) : ℕ → ℕ → ℝ :=
  fun n j =>
    if j < H then
      lstm_di D H x prevh prevc Wx Wh dnh dnc b n j
        * lstm_i D H x prevh Wx Wh b n j * (1 - lstm_i D H x prevh Wx Wh b n j)
    else if j < 2 * H then
      lstm_df D H x prevh prevc Wx Wh dnh dnc b n (j - H)
        * lstm_f D H x prevh Wx Wh b n (j - H)
        * (1 - lstm_f D H x prevh Wx Wh b n (j - H))
    else if j < 3 * H then
      lstm_do D H x prevh prevc Wx Wh dnh dnc b n (j - 2 * H)
        * lstm_o D H x prevh Wx Wh b n (j - 2 * H)
        * (1 - lstm_o D H x prevh Wx Wh b n (j - 2 * H))
    else
      lstm_dg D H x prevh prevc Wx Wh dnh dnc b n (j - 3 * H)
        * (1 - lstm_g D H x prevh Wx Wh b n (j - 3 * H) ^ 2)

/-- Gradient `dx = dW.dot(Wx.T)` from `lstm_step_backward`. -/
noncomputable def lstm_dx (D H : ℕ) (x prevh prevc Wx Wh dnh dnc : ℕ → ℕ → ℝ)
    (b : ℕ → ℝ) : ℕ → ℕ → ℝ :=
  fun n d => ∑ j ∈ Finset.range (4 * H),
    lstm_dW D H x prevh prevc Wx Wh dnh dnc b n j * Wx d j

/-- Gradient `dprev_h = dW.dot(Wh.T)` from `lstm_step_backward`. -/
noncomputable def lstm_dprev_h (D H : ℕ) (x prevh prevc Wx Wh dnh dnc : ℕ → ℕ → ℝ)
    (b : ℕ → ℝ) : ℕ → ℕ → ℝ :=
  fun n k => ∑ j ∈ Finset.range (4 * H),
    lstm_dW D H x prevh prevc Wx Wh dnh dnc b n j * Wh k j

/-- Gradient `dprev_c = dnext_c_total * f` from `lstm_step_backward`. -/
noncomputable def lstm_dprev_c (D H : ℕ) (x prevh prevc Wx Wh dnh dnc : ℕ → ℕ → ℝ)
    (b : ℕ → ℝ) : ℕ → ℕ → ℝ :=
  fun n h => lstm_dct D H x prevh prevc Wx Wh dnh dnc b n h
    * lstm_f D H x prevh Wx Wh b n h

/-- Gradient `dWx = x.T.dot(dW)` from `lstm_step_backward`. -/
noncomputable def lstm_dWx (N D H : ℕ) (x prevh prevc Wx Wh dnh dnc : ℕ → ℕ → ℝ)
    (b : ℕ → ℝ) : ℕ → ℕ → ℝ :=
  fun d j => ∑ n ∈ Finset.range N,
    x n d * lstm_dW D H x prevh prevc Wx Wh dnh dnc b n j

/-- Gradient `dWh = prev_h.T.dot(dW)` from `lstm_step_backward`. -/
noncomputable def lstm_dWh (N D H : ℕ) (x prevh prevc Wx Wh dnh dnc : ℕ → ℕ → ℝ)
    (b : ℕ → ℝ) : ℕ → ℕ → ℝ :=
  fun k j => ∑ n ∈ Finset.range N,
    prevh n k * lstm_dW D H x prevh prevc Wx Wh dnh dnc b n j

/-- Gradient `db = np.sum(dW, axis=0)` from `lstm_step_backward`. -/
noncomputable def lstm_db (N D H : ℕ) (x prevh prevc Wx Wh dnh dnc : ℕ → ℕ → ℝ)
    (b : ℕ → ℝ) : ℕ → ℝ :=
  fun j => ∑ n ∈ Finset.range N,
    lstm_dW D H x prevh prevc Wx Wh dnh dnc b n j

/-- Scalar loss `∑ dnext_h * next_h + dnext_c * next_c` for the LSTM step. -/
noncomputable def lstmLoss (N D H : ℕ) (x prevh prevc Wx Wh dnh dnc : ℕ → ℕ → ℝ)
    (b : ℕ → ℝ) : ℝ :=
  ∑ n ∈ Finset.range N, ∑ h ∈ Finset.range H,
    (dnh n h * lstm_next_h D H x prevh prevc Wx Wh b n h
      + dnc n h * lstm_next_c D H x prevh prevc Wx Wh b n h)

/-- Cell state as a function of the pre-activation matrix alone. -/
noncomputable def lstmCtA (H : ℕ) (prevc A : ℕ → ℕ → ℝ) : ℕ → ℕ → ℝ :=
  fun n h => sigmoid (A n (H + h)) * prevc n h
    + sigmoid (A n h) * Real.tanh (A n (3 * H + h))

/-- Hidden state as a function of the pre-activation matrix alone. -/
noncomputable def lstmHtA (H : ℕ) (prevc A : ℕ → ℕ → ℝ) : ℕ → ℕ → ℝ :=
  fun n h => sigmoid (A n (2 * H + h)) * Real.tanh (lstmCtA H prevc A n h)

/-- LSTM step loss as a function of the pre-activation matrix alone. -/
noncomputable def lstmLossA (N H : ℕ) (dnh dnc prevc A : ℕ → ℕ → ℝ) : ℝ :=
  ∑ n ∈ Finset.range N, ∑ h ∈ Finset.range H,
    (dnh n h * lstmHtA H prevc A n h + dnc n h * lstmCtA H prevc A n h)

/-- Total cell gradient as a function of the pre-activation matrix alone. -/
noncomputable def lstmDctA (H : ℕ) (dnh dnc prevc A : ℕ → ℕ → ℝ) : ℕ → ℕ → ℝ :=
  fun n h => dnc n h + dnh n h * sigmoid (A n (2 * H + h))
    * (1 - Real.tanh (lstmCtA H prevc A n h) ^ 2)

/-- Contribution of entry `(n, h)` to the derivative of the step loss along a
perturbation `v` of the pre-activation matrix. -/
noncomputable def lstmBlockA (H : ℕ) (dnh dnc prevc A v : ℕ → ℕ → ℝ) : ℕ → ℕ → ℝ :=
  fun n h =>
    lstmDctA H dnh dnc prevc A n h * Real.tanh (A n (3 * H + h))
      * sigmoid (A n h) * (1 - sigmoid (A n h)) * v n h
    + lstmDctA H dnh dnc prevc A n h * prevc n h
      * sigmoid (A n (H + h)) * (1 - sigmoid (A n (H + h))) * v n (H + h)
    + dnh n h * Real.tanh (lstmCtA H prevc A n h)
      * sigmoid (A n (2 * H + h)) * (1 - sigmoid (A n (2 * H + h))) * v n (2 * H + h)
    + lstmDctA H dnh dnc prevc A n h * sigmoid (A n h)
      * (1 - Real.tanh (A n (3 * H + h)) ^ 2) * v n (3 * H + h)

theorem lstmLoss_eq_A (N D H : ℕ) (x prevh prevc Wx Wh dnh dnc : ℕ → ℕ → ℝ)
    (b : ℕ → ℝ) :
    lstmLoss N D H x prevh prevc Wx Wh dnh dnc b
      = lstmLossA N H dnh dnc prevc (lstmA D H x prevh Wx Wh b) := rfl

theorem hasDerivAt_linear (a v : ℝ) : HasDerivAt (fun ε : ℝ => a + ε * v) v 0 := by
  simpa using ((hasDerivAt_id (0 : ℝ)).mul_const v).const_add a

theorem hasDerivAt_sigmoid_linear (a v : ℝ) :
    HasDerivAt (fun ε : ℝ => sigmoid (a + ε * v))
      (sigmoid a * (1 - sigmoid a) * v) 0 := by
  have h1 := hasDerivAt_linear a v
  have h2 : HasDerivAt sigmoid (sigmoid a * (1 - sigmoid a))
      ((fun ε : ℝ => a + ε * v) 0) := by
    simpa using hasDerivAt_sigmoid a
  simpa [Function.comp] using h2.comp 0 h1

theorem hasDerivAt_tanh_linear (a v : ℝ) :
    HasDerivAt (fun ε : ℝ => Real.tanh (a + ε * v))
      ((1 - Real.tanh a ^ 2) * v) 0 := by
  have h1 := hasDerivAt_linear a v
  have h2 : HasDerivAt Real.tanh (1 - Real.tanh a ^ 2)
      ((fun ε : ℝ => a + ε * v) 0) := by
    simpa using hasDerivAt_tanh a
  simpa [Function.comp] using h2.comp 0 h1

/-- Derivative of one `(n, h)` summand of the LSTM step loss along a linear
perturbation of the four pre-activation entries feeding that summand. -/
theorem lstm_term_hasDeriv (a0 a1 a2 a3 v0 v1 v2 v3 pc dh dc : ℝ) :
    HasDerivAt (fun ε : ℝ =>
        dh * (sigmoid (a2 + ε * v2)
            * Real.tanh (sigmoid (a1 + ε * v1) * pc
              + sigmoid (a0 + ε * v0) * Real.tanh (a3 + ε * v3)))
          + dc * (sigmoid (a1 + ε * v1) * pc
              + sigmoid (a0 + ε * v0) * Real.tanh (a3 + ε * v3)))
      ((dc + dh * sigmoid a2
          * (1 - Real.tanh (sigmoid a1 * pc + sigmoid a0 * Real.tanh a3) ^ 2))
          * Real.tanh a3 * sigmoid a0 * (1 - sigmoid a0) * v0
        + (dc + dh * sigmoid a2
          * (1 - Real.tanh (sigmoid a1 * pc + sigmoid a0 * Real.tanh a3) ^ 2))
          * pc * sigmoid a1 * (1 - sigmoid a1) * v1
        + dh * Real.tanh (sigmoid a1 * pc + sigmoid a0 * Real.tanh a3)
          * sigmoid a2 * (1 - sigmoid a2) * v2
        + (dc + dh * sigmoid a2
          * (1 - Real.tanh (sigmoid a1 * pc + sigmoid a0 * Real.tanh a3) ^ 2))
          * sigmoid a0 * (1 - Real.tanh a3 ^ 2) * v3) 0 := by
  have h0 := hasDerivAt_sigmoid_linear a0 v0
  have h1 := hasDerivAt_sigmoid_linear a1 v1
  have h2 := hasDerivAt_sigmoid_linear a2 v2
  have h3 := hasDerivAt_tanh_linear a3 v3
  have hc : HasDerivAt (fun ε : ℝ => sigmoid (a1 + ε * v1) * pc
        + sigmoid (a0 + ε * v0) * Real.tanh (a3 + ε * v3))
      (sigmoid a1 * (1 - sigmoid a1) * v1 * pc
        + (sigmoid a0 * (1 - sigmoid a0) * v0 * Real.tanh a3
          + sigmoid a0 * ((1 - Real.tanh a3 ^ 2) * v3))) 0 := by
    have ha := h1.mul_const pc
    have hb := h0.mul h3
    simpa using ha.add hb
  have htanc : HasDerivAt (fun ε : ℝ => Real.tanh (sigmoid (a1 + ε * v1) * pc
        + sigmoid (a0 + ε * v0) * Real.tanh (a3 + ε * v3)))
      ((1 - Real.tanh (sigmoid a1 * pc + sigmoid a0 * Real.tanh a3) ^ 2)
        * (sigmoid a1 * (1 - sigmoid a1) * v1 * pc
          + (sigmoid a0 * (1 - sigmoid a0) * v0 * Real.tanh a3
            + sigmoid a0 * ((1 - Real.tanh a3 ^ 2) * v3)))) 0 := by
    have ht : HasDerivAt Real.tanh
        (1 - Real.tanh (sigmoid a1 * pc + sigmoid a0 * Real.tanh a3) ^ 2)
        ((fun ε : ℝ => sigmoid (a1 + ε * v1) * pc
          + sigmoid (a0 + ε * v0) * Real.tanh (a3 + ε * v3)) 0) := by
      have hv : (fun ε : ℝ => sigmoid (a1 + ε * v1) * pc
          + sigmoid (a0 + ε * v0) * Real.tanh (a3 + ε * v3)) 0
          = sigmoid a1 * pc + sigmoid a0 * Real.tanh a3 := by norm_num
      rw [hv]
      exact hasDerivAt_tanh _
    simpa [Function.comp] using ht.comp 0 hc
  have hoc := h2.mul htanc
  have hfinal := (hoc.const_mul dh).add (hc.const_mul dc)
  convert hfinal using 1
  simp only [zero_mul, add_zero]
  ring

/-- Derivative of the LSTM step loss along a linear perturbation `v` of the
whole pre-activation matrix. -/
theorem lstmLossA_hasDeriv (N H : ℕ) (dnh dnc prevc A v : ℕ → ℕ → ℝ) :
    HasDerivAt (fun ε => lstmLossA N H dnh dnc prevc
        (fun m jj => A m jj + ε * v m jj))
      (∑ n ∈ Finset.range N, ∑ h ∈ Finset.range H,
        lstmBlockA H dnh dnc prevc A v n h) 0 := by
  have hterm : ∀ n ∈ Finset.range N, ∀ h ∈ Finset.range H,
      HasDerivAt (fun ε =>
          dnh n h * lstmHtA H prevc (fun m jj => A m jj + ε * v m jj) n h
            + dnc n h * lstmCtA H prevc (fun m jj => A m jj + ε * v m jj) n h)
        (lstmBlockA H dnh dnc prevc A v n h) 0 := by
    intro n _ h _
    have hkey := lstm_term_hasDeriv (A n h) (A n (H + h)) (A n (2 * H + h))
      (A n (3 * H + h)) (v n h) (v n (H + h)) (v n (2 * H + h)) (v n (3 * H + h))
      (prevc n h) (dnh n h) (dnc n h)
    simpa [lstmHtA, lstmCtA, lstmBlockA, lstmDctA] using hkey
  have hinner : ∀ n ∈ Finset.range N,
      HasDerivAt (fun ε => ∑ h ∈ Finset.range H,
          (dnh n h * lstmHtA H prevc (fun m jj => A m jj + ε * v m jj) n h
            + dnc n h * lstmCtA H prevc (fun m jj => A m jj + ε * v m jj) n h))
        (∑ h ∈ Finset.range H, lstmBlockA H dnh dnc prevc A v n h) 0 :=
    fun n hn => HasDerivAt.sum (fun h hh => hterm n hn h hh)
  have houter := HasDerivAt.sum hinner
  simpa [lstmLossA] using houter

/-- Splitting a sum over `4 * H` columns into the four gate blocks. -/
theorem sum_range_four_blocks (H : ℕ) (F : ℕ → ℝ) :
    ∑ j ∈ Finset.range (4 * H), F j
      = ∑ h ∈ Finset.range H, (F h + F (H + h) + F (2 * H + h) + F (3 * H + h)) := by
  have h12 : ∑ j ∈ Finset.Ico H (2 * H), F j
      = ∑ h ∈ Finset.range H, F (H + h) := by
    rw [Finset.sum_Ico_eq_sum_range]
    have e : 2 * H - H = H := by omega
    rw [e]
  have h23 : ∑ j ∈ Finset.Ico (2 * H) (3 * H), F j
      = ∑ h ∈ Finset.range H, F (2 * H + h) := by
    rw [Finset.sum_Ico_eq_sum_range]
    have e : 3 * H - 2 * H = H := by omega
    rw [e]
  have h34 : ∑ j ∈ Finset.Ico (3 * H) (4 * H), F j
      = ∑ h ∈ Finset.range H, F (3 * H + h) := by
    rw [Finset.sum_Ico_eq_sum_range]
    have e : 4 * H - 3 * H = H := by omega
    rw [e]
  calc ∑ j ∈ Finset.range (4 * H), F j
      = ∑ j ∈ Finset.Ico 0 (4 * H), F j := by rw [Finset.range_eq_Ico]
    _ = (∑ j ∈ Finset.Ico 0 H, F j) + ∑ j ∈ Finset.Ico H (4 * H), F j :=
        (Finset.sum_Ico_consecutive F (by omega) (by omega)).symm
    _ = (∑ j ∈ Finset.Ico 0 H, F j) + ((∑ j ∈ Finset.Ico H (2 * H), F j)
          + ∑ j ∈ Finset.Ico (2 * H) (4 * H), F j) := by
        rw [Finset.sum_Ico_consecutive F (show H ≤ 2 * H by omega)
          (show 2 * H ≤ 4 * H by omega)]
    _ = (∑ j ∈ Finset.Ico 0 H, F j) + ((∑ j ∈ Finset.Ico H (2 * H), F j)
          + ((∑ j ∈ Finset.Ico (2 * H) (3 * H), F j)
            + ∑ j ∈ Finset.Ico (3 * H) (4 * H), F j)) := by
        rw [Finset.sum_Ico_consecutive F (show 2 * H ≤ 3 * H by omega)
          (show 3 * H ≤ 4 * H by omega)]
    _ = (∑ h ∈ Finset.range H, F h) + ((∑ h ∈ Finset.range H, F (H + h))
          + ((∑ h ∈ Finset.range H, F (2 * H + h))
            + ∑ h ∈ Finset.range H, F (3 * H + h))) := by
        rw [← Finset.range_eq_Ico, h12, h23, h34]
    _ = ∑ h ∈ Finset.range H, (F h + F (H + h) + F (2 * H + h) + F (3 * H + h)) := by
        rw [← Finset.sum_add_distrib, ← Finset.sum_add_distrib, ← Finset.sum_add_distrib]
        exact Finset.sum_congr rfl fun h _ => by ring

/-- The per-entry derivative contributions along a perturbation `v` total the
code gradient `∑ dW * v`. -/
theorem sum_blockA_eq_dW (N D H : ℕ) (x prevh prevc Wx Wh dnh dnc : ℕ → ℕ → ℝ)
    (b : ℕ → ℝ) (v : ℕ → ℕ → ℝ) :
    ∑ n ∈ Finset.range N, ∑ h ∈ Finset.range H,
      lstmBlockA H dnh dnc prevc (lstmA D H x prevh Wx Wh b) v n h
    = ∑ n ∈ Finset.range N, ∑ j ∈ Finset.range (4 * H),
        lstm_dW D H x prevh prevc Wx Wh dnh dnc b n j * v n j := by
  refine Finset.sum_congr rfl fun n _ => ?_
  rw [sum_range_four_blocks H
    (fun j => lstm_dW D H x prevh prevc Wx Wh dnh dnc b n j * v n j)]
  refine Finset.sum_congr rfl fun h hh => ?_
  have hhH : h < H := Finset.mem_range.mp hh
  have e0 : lstm_dW D H x prevh prevc Wx Wh dnh dnc b n h
      = lstm_di D H x prevh prevc Wx Wh dnh dnc b n h
        * lstm_i D H x prevh Wx Wh b n h
        * (1 - lstm_i D H x prevh Wx Wh b n h) := by
    simp only [lstm_dW]
    rw [if_pos hhH]
  have e1 : lstm_dW D H x prevh prevc Wx Wh dnh dnc b n (H + h)
      = lstm_df D H x prevh prevc Wx Wh dnh dnc b n h
        * lstm_f D H x prevh Wx Wh b n h
        * (1 - lstm_f D H x prevh Wx Wh b n h) := by
    simp only [lstm_dW]
    rw [if_neg (by omega : ¬ (H + h < H)), if_pos (by omega : H + h < 2 * H)]
    simp only [Nat.add_sub_cancel_left]
  have e2 : lstm_dW D H x prevh prevc Wx Wh dnh dnc b n (2 * H + h)
      = lstm_do D H x prevh prevc Wx Wh dnh dnc b n h
        * lstm_o D H x prevh Wx Wh b n h
        * (1 - lstm_o D H x prevh Wx Wh b n h) := by
    simp only [lstm_dW]
    rw [if_neg (by omega : ¬ (2 * H + h < H)),
      if_neg (by omega : ¬ (2 * H + h < 2 * H)),
      if_pos (by omega : 2 * H + h < 3 * H)]
    simp only [Nat.add_sub_cancel_left]
  have e3 : lstm_dW D H x prevh prevc Wx Wh dnh dnc b n (3 * H + h)
      = lstm_dg D H x prevh prevc Wx Wh dnh dnc b n h
        * (1 - lstm_g D H x prevh Wx Wh b n h ^ 2) := by
    simp only [lstm_dW]
    rw [if_neg (by omega : ¬ (3 * H + h < H)),
      if_neg (by omega : ¬ (3 * H + h < 2 * H)),
      if_neg (by omega : ¬ (3 * H + h < 3 * H))]
    simp only [Nat.add_sub_cancel_left]
  rw [e0, e1, e2, e3]
  simp only [lstmBlockA, lstmDctA, lstmCtA, lstm_di, lstm_df, lstm_do, lstm_dg,
    lstm_dct, lstm_next_c, lstm_i, lstm_f, lstm_o, lstm_g]

/-- Collapsing a row-indicator perturbation in the gradient pairing. -/
theorem sum_mul_ite_row (N C : ℕ) {n0 : ℕ} (hn0 : n0 < N) (dW : ℕ → ℕ → ℝ)
    (wv : ℕ → ℝ) :
    ∑ n ∈ Finset.range N, ∑ j ∈ Finset.range C,
      dW n j * (if n = n0 then wv j else 0)
    = ∑ j ∈ Finset.range C, dW n0 j * wv j := by
  have h1 : ∀ n, ∑ j ∈ Finset.range C, dW n j * (if n = n0 then wv j else 0)
      = if n = n0 then ∑ j ∈ Finset.range C, dW n j * wv j else 0 := by
    intro n
    by_cases hn : n = n0
    · subst hn; simp
    · simp [hn]
  rw [Finset.sum_congr rfl fun n _ => h1 n,
    Finset.sum_ite_eq' (Finset.range N) n0
    (fun n => ∑ j ∈ Finset.range C, dW n j * wv j)]
  simp [Finset.mem_range.mpr hn0]

/-- Collapsing a column-indicator perturbation in the gradient pairing. -/
theorem sum_mul_ite_col (N C : ℕ) {j0 : ℕ} (hj0 : j0 < C) (dW : ℕ → ℕ → ℝ)
    (cv : ℕ → ℝ) :
    ∑ n ∈ Finset.range N, ∑ j ∈ Finset.range C,
      dW n j * (if j = j0 then cv n else 0)
    = ∑ n ∈ Finset.range N, dW n j0 * cv n := by
  refine Finset.sum_congr rfl fun n _ => ?_
  have h1 : ∀ j, dW n j * (if j = j0 then cv n else 0)
      = if j = j0 then dW n j0 * cv n else 0 := by
    intro j
    by_cases hj : j = j0
    · subst hj; simp
    · simp [hj]
  rw [Finset.sum_congr rfl fun j _ => h1 j,
    Finset.sum_ite_eq' (Finset.range C) j0 (fun _ => dW n j0 * cv n)]
  simp [Finset.mem_range.mpr hj0]

theorem lstmA_upd_x (D H : ℕ) {d0 : ℕ} (hd0 : d0 < D)
    (x prevh Wx Wh : ℕ → ℕ → ℝ) (b : ℕ → ℝ) (n0 : ℕ) (ε : ℝ) :
    lstmA D H (upd2 x n0 d0 ε) prevh Wx Wh b
      = fun m jj => lstmA D H x prevh Wx Wh b m jj
        + ε * (if m = n0 then Wx d0 jj else 0) := by
  funext m jj
  simp only [lstmA, upd2]
  by_cases hm : m = n0
  · subst hm
    simp only [eq_self_iff_true, true_and, if_true]
    rw [sum_upd_mul hd0 (fun d => x m d) (fun d => Wx d jj) ε]
    ring
  · simp [hm]

theorem lstmA_upd_prevh (D H : ℕ) {k0 : ℕ} (hk0 : k0 < H)
    (x prevh Wx Wh : ℕ → ℕ → ℝ) (b : ℕ → ℝ) (n0 : ℕ) (ε : ℝ) :
    lstmA D H x (upd2 prevh n0 k0 ε) Wx Wh b
      = fun m jj => lstmA D H x prevh Wx Wh b m jj
        + ε * (if m = n0 then Wh k0 jj else 0) := by
  funext m jj
  simp only [lstmA, upd2]
  by_cases hm : m = n0
  · subst hm
    simp only [eq_self_iff_true, true_and, if_true]
    rw [sum_upd_mul hk0 (fun k => prevh m k) (fun k => Wh k jj) ε]
    ring
  · simp [hm]

theorem lstmA_upd_Wx (D H : ℕ) {d0 : ℕ} (hd0 : d0 < D)
    (x prevh Wx Wh : ℕ → ℕ → ℝ) (b : ℕ → ℝ) (j0 : ℕ) (ε : ℝ) :
    lstmA D H x prevh (upd2 Wx d0 j0 ε) Wh b
      = fun m jj => lstmA D H x prevh Wx Wh b m jj
        + ε * (if jj = j0 then x m d0 else 0) := by
  funext m jj
  simp only [lstmA, upd2]
  by_cases hj : jj = j0
  · subst hj
    simp only [and_true, if_true]
    rw [sum_mul_upd hd0 (fun d => x m d) (fun d => Wx d jj) ε]
    ring
  · simp [hj]

theorem lstmA_upd_Wh (D H : ℕ) {k0 : ℕ} (hk0 : k0 < H)
    (x prevh Wx Wh : ℕ → ℕ → ℝ) (b : ℕ → ℝ) (j0 : ℕ) (ε : ℝ) :
    lstmA D H x prevh Wx (upd2 Wh k0 j0 ε) b
      = fun m jj => lstmA D H x prevh Wx Wh b m jj
        + ε * (if jj = j0 then prevh m k0 else 0) := by
  funext m jj
  simp only [lstmA, upd2]
  by_cases hj : jj = j0
  · subst hj
    simp only [and_true, if_true]
    rw [sum_mul_upd hk0 (fun k => prevh m k) (fun k => Wh k jj) ε]
    ring
  · simp [hj]

theorem lstmA_upd_b (D H : ℕ) (x prevh Wx Wh : ℕ → ℕ → ℝ) (b : ℕ → ℝ)
    (j0 : ℕ) (ε : ℝ) :
    lstmA D H x prevh Wx Wh (upd1 b j0 ε)
      = fun m jj => lstmA D H x prevh Wx Wh b m jj
        + ε * (if jj = j0 then 1 else 0) := by
  funext m jj
  simp only [lstmA, upd1]
  by_cases hj : jj = j0
  · subst hj
    simp
    ring
  · simp [hj]

/-- Derivative of the step loss summand fed by a perturbed previous cell. -/
theorem lstm_pc_term_hasDeriv (o f i g pc dh dc : ℝ) :
    HasDerivAt (fun ε : ℝ =>
        dh * (o * Real.tanh (f * (pc + ε) + i * g)) + dc * (f * (pc + ε) + i * g))
      ((dc + dh * o * (1 - Real.tanh (f * pc + i * g) ^ 2)) * f) 0 := by
  have hlin : HasDerivAt (fun ε : ℝ => f * (pc + ε) + i * g) f 0 := by
    simpa using (((hasDerivAt_id (0 : ℝ)).const_add pc).const_mul f).add_const (i * g)
  have htan : HasDerivAt (fun ε : ℝ => Real.tanh (f * (pc + ε) + i * g))
      ((1 - Real.tanh (f * pc + i * g) ^ 2) * f) 0 := by
    have ht : HasDerivAt Real.tanh (1 - Real.tanh (f * pc + i * g) ^ 2)
        ((fun ε : ℝ => f * (pc + ε) + i * g) 0) := by
      have hv : (fun ε : ℝ => f * (pc + ε) + i * g) 0 = f * pc + i * g := by norm_num
      rw [hv]
      exact hasDerivAt_tanh _
    simpa [Function.comp] using ht.comp 0 hlin
  have h1 := (htan.const_mul o).const_mul dh
  have h2 := hlin.const_mul dc
  have h3 := h1.add h2
  convert h3 using 1
  ring

/-- Collapsing a double sum of a doubly-indexed indicator. -/
theorem sum_ite_pair (N H : ℕ) {n0 h0 : ℕ} (hn0 : n0 < N) (hh0 : h0 < H)
    (val : ℝ) :
    ∑ n ∈ Finset.range N, ∑ h ∈ Finset.range H,
      (if n = n0 ∧ h = h0 then val else 0) = val := by
  have h1 : ∀ n, ∑ h ∈ Finset.range H, (if n = n0 ∧ h = h0 then val else 0)
      = if n = n0 then val else 0 := by
    intro n
    by_cases hn : n = n0
    · subst hn
      simp only [eq_self_iff_true, true_and, if_true]
      rw [Finset.sum_ite_eq' (Finset.range H) h0 (fun _ => val)]
      simp [Finset.mem_range.mpr hh0]
    · simp [hn]
  rw [Finset.sum_congr rfl fun n _ => h1 n,
    Finset.sum_ite_eq' (Finset.range N) n0 (fun _ => val)]
  simp [Finset.mem_range.mpr hn0]

/-- Exactness of `dprev_c = dnext_c_total * f` for the LSTM step loss. -/
theorem lstmLoss_pc_hasDeriv (N D H : ℕ) (x prevh prevc Wx Wh dnh dnc : ℕ → ℕ → ℝ)
    (b : ℕ → ℝ) {n0 h0 : ℕ} (hn0 : n0 < N) (hh0 : h0 < H) :
    HasDerivAt (fun ε => lstmLoss N D H x prevh (upd2 prevc n0 h0 ε) Wx Wh dnh dnc b)
      (lstm_dprev_c D H x prevh prevc Wx Wh dnh dnc b n0 h0) 0 := by
  have hterm : ∀ n ∈ Finset.range N, ∀ h ∈ Finset.range H,
      HasDerivAt (fun ε =>
          dnh n h * lstm_next_h D H x prevh (upd2 prevc n0 h0 ε) Wx Wh b n h
            + dnc n h * lstm_next_c D H x prevh (upd2 prevc n0 h0 ε) Wx Wh b n h)
        (if n = n0 ∧ h = h0 then
          lstm_dprev_c D H x prevh prevc Wx Wh dnh dnc b n0 h0 else 0) 0 := by
    intro n _ h _
    by_cases hcase : n = n0 ∧ h = h0
    · obtain ⟨hn, hh⟩ := hcase
      subst hn
      subst hh
      rw [if_pos ⟨rfl, rfl⟩]
      have hfun : (fun ε =>
          dnh n h * lstm_next_h D H x prevh (upd2 prevc n h ε) Wx Wh b n h
            + dnc n h * lstm_next_c D H x prevh (upd2 prevc n h ε) Wx Wh b n h)
          = (fun ε =>
            dnh n h * (lstm_o D H x prevh Wx Wh b n h
              * Real.tanh (lstm_f D H x prevh Wx Wh b n h * (prevc n h + ε)
                + lstm_i D H x prevh Wx Wh b n h * lstm_g D H x prevh Wx Wh b n h))
            + dnc n h * (lstm_f D H x prevh Wx Wh b n h * (prevc n h + ε)
                + lstm_i D H x prevh Wx Wh b n h * lstm_g D H x prevh Wx Wh b n h)) := by
        funext ε
        simp [lstm_next_h, lstm_next_c, upd2]
      rw [hfun]
      have hkey := lstm_pc_term_hasDeriv (lstm_o D H x prevh Wx Wh b n h)
        (lstm_f D H x prevh Wx Wh b n h) (lstm_i D H x prevh Wx Wh b n h)
        (lstm_g D H x prevh Wx Wh b n h) (prevc n h) (dnh n h) (dnc n h)
      simpa [lstm_dprev_c, lstm_dct, lstm_next_c] using hkey
    · rw [if_neg hcase]
      have hupd : ∀ ε : ℝ, upd2 prevc n0 h0 ε n h = prevc n h := by
        intro ε
        simp [upd2, hcase]
      have hfun : (fun ε =>
          dnh n h * lstm_next_h D H x prevh (upd2 prevc n0 h0 ε) Wx Wh b n h
            + dnc n h * lstm_next_c D H x prevh (upd2 prevc n0 h0 ε) Wx Wh b n h)
          = (fun _ : ℝ =>
            dnh n h * lstm_next_h D H x prevh prevc Wx Wh b n h
              + dnc n h * lstm_next_c D H x prevh prevc Wx Wh b n h) := by
        funext ε
        simp [lstm_next_h, lstm_next_c, hupd ε]
      rw [hfun]
      exact hasDerivAt_const 0 _
  have hsum := HasDerivAt.sum (fun n hn =>
    HasDerivAt.sum (fun h hh => hterm n hn h hh))
  rw [sum_ite_pair N H hn0 hh0
    (lstm_dprev_c D H x prevh prevc Wx Wh dnh dnc b n0 h0)] at hsum
  simpa [lstmLoss] using hsum

/-- Claim C2: `lstm_step_forward` computes `A = x.Wx + prev_h.Wh + b`, the
gates `i, f, o, g` from the four column blocks of `A`, and returns
`next_c = f * prev_c + i * g` and `next_h = o * tanh next_c`; and
`lstm_step_backward`, applied to the forward cache, returns
`(dx, dprev_h, dprev_c, dWx, dWh, db)` equal to the exact gradients of
`∑ dnext_h * next_h + dnext_c * next_c` with respect to `x`, `prev_h`,
`prev_c`, `Wx`, `Wh` and `b`. -/
theorem lstm_step_forward_backward_correct (N D H : ℕ)
    (x prevh prevc Wx Wh dnh dnc : ℕ → ℕ → ℝ) (b : ℕ → ℝ) :
    (∀ n j, lstmA D H x prevh Wx Wh b n j
      = (∑ d ∈ Finset.range D, x n d * Wx d j)
        + (∑ k ∈ Finset.range H, prevh n k * Wh k j) + b j)
    ∧ (∀ n h, lstm_i D H x prevh Wx Wh b n h
        = sigmoid (lstmA D H x prevh Wx Wh b n h)
      ∧ lstm_f D H x prevh Wx Wh b n h
        = sigmoid (lstmA D H x prevh Wx Wh b n (H + h))
      ∧ lstm_o D H x prevh Wx Wh b n h
        = sigmoid (lstmA D H x prevh Wx Wh b n (2 * H + h))
      ∧ lstm_g D H x prevh Wx Wh b n h
        = Real.tanh (lstmA D H x prevh Wx Wh b n (3 * H + h)))
    ∧ (∀ n h, lstm_next_c D H x prevh prevc Wx Wh b n h
        = lstm_f D H x prevh Wx Wh b n h * prevc n h
          + lstm_i D H x prevh Wx Wh b n h * lstm_g D H x prevh Wx Wh b n h
      ∧ lstm_next_h D H x prevh prevc Wx Wh b n h
        = lstm_o D H x prevh Wx Wh b n h
          * Real.tanh (lstm_next_c D H x prevh prevc Wx Wh b n h))
    ∧ (∀ n0 d0, n0 < N → d0 < D →
        HasDerivAt
          (fun ε => lstmLoss N D H (upd2 x n0 d0 ε) prevh prevc Wx Wh dnh dnc b)
          (lstm_dx D H x prevh prevc Wx Wh dnh dnc b n0 d0) 0)
    ∧ (∀ n0 k0, n0 < N → k0 < H →
        HasDerivAt
          (fun ε => lstmLoss N D H x (upd2 prevh n0 k0 ε) prevc Wx Wh dnh dnc b)
          (lstm_dprev_h D H x prevh prevc Wx Wh dnh dnc b n0 k0) 0)
    ∧ (∀ n0 h0, n0 < N → h0 < H →
        HasDerivAt
          (fun ε => lstmLoss N D H x prevh (upd2 prevc n0 h0 ε) Wx Wh dnh dnc b)
          (lstm_dprev_c D H x prevh prevc Wx Wh dnh dnc b n0 h0) 0)
    ∧ (∀ d0 j0, d0 < D → j0 < 4 * H →
        HasDerivAt
          (fun ε => lstmLoss N D H x prevh prevc (upd2 Wx d0 j0 ε) Wh dnh dnc b)
          (lstm_dWx N D H x prevh prevc Wx Wh dnh dnc b d0 j0) 0)
    ∧ (∀ k0 j0, k0 < H → j0 < 4 * H →
        HasDerivAt
          (fun ε => lstmLoss N D H x prevh prevc Wx (upd2 Wh k0 j0 ε) dnh dnc b)
          (lstm_dWh N D H x prevh prevc Wx Wh dnh dnc b k0 j0) 0)
    ∧ (∀ j0, j0 < 4 * H →
        HasDerivAt
          (fun ε => lstmLoss N D H x prevh prevc Wx Wh dnh dnc (upd1 b j0 ε))
          (lstm_db N D H x prevh prevc Wx Wh dnh dnc b j0) 0) := by
  refine ⟨fun n j => rfl, fun n h => ⟨rfl, rfl, rfl, rfl⟩, fun n h => ⟨rfl, rfl⟩,
    ?_, ?_, ?_, ?_, ?_, ?_⟩
  · intro n0 d0 hn0 hd0
    have hL : (fun ε => lstmLoss N D H (upd2 x n0 d0 ε) prevh prevc Wx Wh dnh dnc b)
        = fun ε => lstmLossA N H dnh dnc prevc
          (fun m jj => lstmA D H x prevh Wx Wh b m jj
            + ε * (if m = n0 then Wx d0 jj else 0)) := by
      funext ε
      rw [lstmLoss_eq_A, lstmA_upd_x D H hd0 x prevh Wx Wh b n0 ε]
    rw [hL]
    have hM := lstmLossA_hasDeriv N H dnh dnc prevc (lstmA D H x prevh Wx Wh b)
      (fun m jj => if m = n0 then Wx d0 jj else 0)
    have hv : (∑ n ∈ Finset.range N, ∑ h ∈ Finset.range H,
        lstmBlockA H dnh dnc prevc (lstmA D H x prevh Wx Wh b)
          (fun m jj => if m = n0 then Wx d0 jj else 0) n h)
        = lstm_dx D H x prevh prevc Wx Wh dnh dnc b n0 d0 := by
      rw [sum_blockA_eq_dW N D H x prevh prevc Wx Wh dnh dnc b
        (fun m jj => if m = n0 then Wx d0 jj else 0)]
      rw [sum_mul_ite_row N (4 * H) hn0
        (lstm_dW D H x prevh prevc Wx Wh dnh dnc b) (fun j => Wx d0 j)]
      rfl
    exact hv ▸ hM
  · intro n0 k0 hn0 hk0
    have hL : (fun ε => lstmLoss N D H x (upd2 prevh n0 k0 ε) prevc Wx Wh dnh dnc b)
        = fun ε => lstmLossA N H dnh dnc prevc
          (fun m jj => lstmA D H x prevh Wx Wh b m jj
            + ε * (if m = n0 then Wh k0 jj else 0)) := by
      funext ε
      rw [lstmLoss_eq_A, lstmA_upd_prevh D H hk0 x prevh Wx Wh b n0 ε]
    rw [hL]
    have hM := lstmLossA_hasDeriv N H dnh dnc prevc (lstmA D H x prevh Wx Wh b)
      (fun m jj => if m = n0 then Wh k0 jj else 0)
    have hv : (∑ n ∈ Finset.range N, ∑ h ∈ Finset.range H,
        lstmBlockA H dnh dnc prevc (lstmA D H x prevh Wx Wh b)
          (fun m jj => if m = n0 then Wh k0 jj else 0) n h)
        = lstm_dprev_h D H x prevh prevc Wx Wh dnh dnc b n0 k0 := by
      rw [sum_blockA_eq_dW N D H x prevh prevc Wx Wh dnh dnc b
        (fun m jj => if m = n0 then Wh k0 jj else 0)]
      rw [sum_mul_ite_row N (4 * H) hn0
        (lstm_dW D H x prevh prevc Wx Wh dnh dnc b) (fun j => Wh k0 j)]
      rfl
    exact hv ▸ hM
  · intro n0 h0 hn0 hh0
    exact lstmLoss_pc_hasDeriv N D H x prevh prevc Wx Wh dnh dnc b hn0 hh0
  · intro d0 j0 hd0 hj0
    have hL : (fun ε => lstmLoss N D H x prevh prevc (upd2 Wx d0 j0 ε) Wh dnh dnc b)
        = fun ε => lstmLossA N H dnh dnc prevc
          (fun m jj => lstmA D H x prevh Wx Wh b m jj
            + ε * (if jj = j0 then x m d0 else 0)) := by
      funext ε
      rw [lstmLoss_eq_A, lstmA_upd_Wx D H hd0 x prevh Wx Wh b j0 ε]
    rw [hL]
    have hM := lstmLossA_hasDeriv N H dnh dnc prevc (lstmA D H x prevh Wx Wh b)
      (fun m jj => if jj = j0 then x m d0 else 0)
    have hv : (∑ n ∈ Finset.range N, ∑ h ∈ Finset.range H,
        lstmBlockA H dnh dnc prevc (lstmA D H x prevh Wx Wh b)
          (fun m jj => if jj = j0 then x m d0 else 0) n h)
        = lstm_dWx N D H x prevh prevc Wx Wh dnh dnc b d0 j0 := by
      rw [sum_blockA_eq_dW N D H x prevh prevc Wx Wh dnh dnc b
        (fun m jj => if jj = j0 then x m d0 else 0)]
      rw [sum_mul_ite_col N (4 * H) hj0
        (lstm_dW D H x prevh prevc Wx Wh dnh dnc b) (fun n => x n d0)]
      exact Finset.sum_congr rfl fun n _ => mul_comm _ _
    exact hv ▸ hM
  · intro k0 j0 hk0 hj0
    have hL : (fun ε => lstmLoss N D H x prevh prevc Wx (upd2 Wh k0 j0 ε) dnh dnc b)
        = fun ε => lstmLossA N H dnh dnc prevc
          (fun m jj => lstmA D H x prevh Wx Wh b m jj
            + ε * (if jj = j0 then prevh m k0 else 0)) := by
      funext ε
      rw [lstmLoss_eq_A, lstmA_upd_Wh D H hk0 x prevh Wx Wh b j0 ε]
    rw [hL]
    have hM := lstmLossA_hasDeriv N H dnh dnc prevc (lstmA D H x prevh Wx Wh b)
      (fun m jj => if jj = j0 then prevh m k0 else 0)
    have hv : (∑ n ∈ Finset.range N, ∑ h ∈ Finset.range H,
        lstmBlockA H dnh dnc prevc (lstmA D H x prevh Wx Wh b)
          (fun m jj => if jj = j0 then prevh m k0 else 0) n h)
        = lstm_dWh N D H x prevh prevc Wx Wh dnh dnc b k0 j0 := by
      rw [sum_blockA_eq_dW N D H x prevh prevc Wx Wh dnh dnc b
        (fun m jj => if jj = j0 then prevh m k0 else 0)]
      rw [sum_mul_ite_col N (4 * H) hj0
        (lstm_dW D H x prevh prevc Wx Wh dnh dnc b) (fun n => prevh n k0)]
      exact Finset.sum_congr rfl fun n _ => mul_comm _ _
    exact hv ▸ hM
  · intro j0 hj0
    have hL : (fun ε => lstmLoss N D H x prevh prevc Wx Wh dnh dnc (upd1 b j0 ε))
        = fun ε => lstmLossA N H dnh dnc prevc
          (fun m jj => lstmA D H x prevh Wx Wh b m jj
            + ε * (if jj = j0 then 1 else 0)) := by
      funext ε
      rw [lstmLoss_eq_A, lstmA_upd_b D H x prevh Wx Wh b j0 ε]
    rw [hL]
    have hM := lstmLossA_hasDeriv N H dnh dnc prevc (lstmA D H x prevh Wx Wh b)
      (fun m jj => if jj = j0 then (1 : ℝ) else 0)
    have hv : (∑ n ∈ Finset.range N, ∑ h ∈ Finset.range H,
        lstmBlockA H dnh dnc prevc (lstmA D H x prevh Wx Wh b)
          (fun m jj => if jj = j0 then (1 : ℝ) else 0) n h)
        = lstm_db N D H x prevh prevc Wx Wh dnh dnc b j0 := by
      rw [sum_blockA_eq_dW N D H x prevh prevc Wx Wh dnh dnc b
        (fun m jj => if jj = j0 then (1 : ℝ) else 0)]
      rw [sum_mul_ite_col N (4 * H) hj0
        (lstm_dW D H x prevh prevc Wx Wh dnh dnc b) (fun _ => (1 : ℝ))]
      simp [lstm_db]
    exact hv ▸ hM

/-- Witness for C2 at `N = D = H = 1` with constant inputs: the derivative of
the loss in `x[0,0]` is the returned `dx[0,0]`. -/
theorem lstm_step_forward_backward_correct_witness :
    HasDerivAt
      (fun ε => lstmLoss 1 1 1 (upd2 (fun _ _ => 1) 0 0 ε) (fun _ _ => 1)
        (fun _ _ => 1) (fun _ _ => 1) (fun _ _ => 1) (fun _ _ => 1)
        (fun _ _ => 1) (fun _ => 1))
      (lstm_dx 1 1 (fun _ _ => 1) (fun _ _ => 1) (fun _ _ => 1) (fun _ _ => 1)
        (fun _ _ => 1) (fun _ _ => 1) (fun _ _ => 1) (fun _ => 1) 0 0) 0 :=
  (lstm_step_forward_backward_correct 1 1 1 (fun _ _ => 1) (fun _ _ => 1)
    (fun _ _ => 1) (fun _ _ => 1) (fun _ _ => 1) (fun _ _ => 1) (fun _ _ => 1)
    (fun _ => 1)).2.2.2.1 0 0 (by decide) (by decide)

/-! ## Convolution (`layers.py`, `conv_forward_naive` / `conv_backward_naive`)

`np.lib.pad` with `P` zeros on each spatial side becomes `xpad`; the vectorised
slice products become index sums.  In the backward pass the source computes the
valid kernel offsets for `dx[n,c,i,j]` with Python floor division
(`(i+P-HH)//S+1` up to `(i+P)//S`), clipped to `[0, H1)`; floor division on
integers is `Int.fdiv`. -/

noncomputable def xpad (H W P : ℕ) (x : ℕ → ℕ → ℕ → ℕ → ℝ) :
    ℕ → ℕ → ℕ → ℕ → ℝ :=
  fun n c r s =>
    if P ≤ r ∧ r < H + P ∧ P ≤ s ∧ s < W + P then x n c (r - P) (s - P) else 0

/-- Output spatial extent `1 + (H + 2 * pad - HH) / stride` (exact under the
divisibility hypothesis of the claim). -/
def convH1 (H HH P S : ℕ) : ℕ := (H + 2 * P - HH) / S + 1

/-- Output of `conv_forward_naive`:
`out[n,f,i,j] = sum over c,p,q of x_pad[n,c,i*S+p,j*S+q] * w[f,c,p,q] + b[f]`. -/
noncomputable def conv_forward_naive (C HH WW S P H W : ℕ)
    (x w : ℕ → ℕ → ℕ → ℕ → ℝ) (b : ℕ → ℝ) : ℕ → ℕ → ℕ → ℕ → ℝ :=
  fun n f i j =>
    (∑ c ∈ Finset.range C, ∑ p ∈ Finset.range HH, ∑ q ∈ Finset.range WW,
      xpad H W P x n c (i * S + p) (j * S + q) * w f c p q) + b f

/-- Gradient `db = np.sum(dout, axis=(0,2,3))` from `conv_backward_naive`. -/
noncomputable def conv_db (N H1 W1 : ℕ) (dout : ℕ → ℕ → ℕ → ℕ → ℝ) : ℕ → ℝ :=
  fun f => ∑ n ∈ Finset.range N, ∑ i ∈ Finset.range H1, ∑ j ∈ Finset.range W1,
    dout n f i j

/-- Gradient `dw[f,c,p,q] = sum over n,k1,k2 of x_pad[n,c,k1*S+p,k2*S+q] *
dout[n,f,k1,k2]` from `conv_backward_naive`. -/
noncomputable def conv_dw (N H1 W1 H W S P : ℕ) (x dout : ℕ → ℕ → ℕ → ℕ → ℝ) :
    ℕ → ℕ → ℕ → ℕ → ℝ :=
  fun f c p q => ∑ n ∈ Finset.range N, ∑ k1 ∈ Finset.range H1,
    ∑ k2 ∈ Finset.range W1,
      xpad H W P x n c (k1 * S + p) (k2 * S + q) * dout n f k1 k2

/-- Gradient `dx[n,c,i,j]` from `conv_backward_naive`: the kernel offsets `k`
run over `range(max(0, (i+P-HH)//S+1), min(H1, (i+P)//S+1))` and the summand is
`w[f,c,i+P-S*k1,j+P-S*k2] * dout[n,f,k1,k2]`, summed over `f` as well. -/
noncomputable def conv_dx (F HH WW S P : ℕ) (H1 W1 : ℕ)
    (w dout : ℕ → ℕ → ℕ → ℕ → ℝ) : ℕ → ℕ → ℕ → ℕ → ℝ :=
  fun n c i j =>
    ∑ f ∈ Finset.range F,
      ∑ k1 ∈ Finset.Ico (max 0 (((i : ℤ) + P - HH).fdiv S + 1)).toNat
          (min (H1 : ℤ) (((i : ℤ) + P).fdiv S + 1)).toNat,
        ∑ k2 ∈ Finset.Ico (max 0 (((j : ℤ) + P - WW).fdiv S + 1)).toNat
            (min (W1 : ℤ) (((j : ℤ) + P).fdiv S + 1)).toNat,
          w f c ((i : ℤ) + P - S * k1).toNat ((j : ℤ) + P - S * k2).toNat
            * dout n f k1 k2

/-- Scalar loss `∑ dout * out` for the convolutional layer. -/
noncomputable def convLoss (N F H1 W1 C HH WW S P H W : ℕ)
    (dout x w : ℕ → ℕ → ℕ → ℕ → ℝ) (b : ℕ → ℝ) : ℝ :=
  ∑ n ∈ Finset.range N, ∑ f ∈ Finset.range F, ∑ i ∈ Finset.range H1,
    ∑ j ∈ Finset.range W1,
      dout n f i j * conv_forward_naive C HH WW S P H W x w b n f i j

/-- Collapsing a single-indicator sum at an in-range index. -/
theorem sum_ite_single {C c0 : ℕ} (hc0 : c0 < C) (f : ℕ → ℝ) :
    ∑ c ∈ Finset.range C, (if c = c0 then f c else 0) = f c0 := by
  rw [Finset.sum_ite_eq' (Finset.range C) c0 f]
  simp [Finset.mem_range.mpr hc0]

/-- Pulling an index-independent condition out of a double sum. -/
theorem sum2_ite_const (H1 W1 : ℕ) (c : Prop) [Decidable c] (f : ℕ → ℕ → ℝ) :
    ∑ i ∈ Finset.range H1, ∑ j ∈ Finset.range W1, (if c then f i j else 0)
      = if c then ∑ i ∈ Finset.range H1, ∑ j ∈ Finset.range W1, f i j else 0 := by
  rw [Finset.sum_congr rfl fun i _ => sum_ite_const (Finset.range W1) c (f i),
    sum_ite_const (Finset.range H1) c _]

/-- Collapsing a triple-indicator sum at an in-range index triple. -/
theorem sum_ite_triple (C HH WW : ℕ) {c0 p0 q0 : ℕ} (hc0 : c0 < C)
    (hp0 : p0 < HH) (hq0 : q0 < WW) (val : ℝ) :
    ∑ c ∈ Finset.range C, ∑ p ∈ Finset.range HH, ∑ q ∈ Finset.range WW,
      (if c = c0 ∧ p = p0 ∧ q = q0 then val else 0) = val := by
  have h1 : ∀ c, (∑ p ∈ Finset.range HH, ∑ q ∈ Finset.range WW,
      (if c = c0 ∧ p = p0 ∧ q = q0 then val else 0))
      = if c = c0 then val else 0 := by
    intro c
    by_cases hc : c = c0
    · subst hc
      rw [if_pos rfl]
      calc ∑ p ∈ Finset.range HH, ∑ q ∈ Finset.range WW,
            (if c = c ∧ p = p0 ∧ q = q0 then val else 0)
          = ∑ p ∈ Finset.range HH, ∑ q ∈ Finset.range WW,
            (if p = p0 ∧ q = q0 then val else 0) := by
            refine Finset.sum_congr rfl fun p _ => Finset.sum_congr rfl fun q _ => ?_
            simp
        _ = val := sum_ite_pair HH WW hp0 hq0 val
    · simp [hc]
  rw [Finset.sum_congr rfl fun c _ => h1 c]
  exact sum_ite_single hc0 _

/-- Splitting a triple sum against an update of the weight tensor. -/
theorem sum3_mul_upd (C HH WW : ℕ) {c0 p0 q0 : ℕ} (hc0 : c0 < C)
    (hp0 : p0 < HH) (hq0 : q0 < WW) (Xf Wf : ℕ → ℕ → ℕ → ℝ) (ε : ℝ) :
    ∑ c ∈ Finset.range C, ∑ p ∈ Finset.range HH, ∑ q ∈ Finset.range WW,
      Xf c p q * (if c = c0 ∧ p = p0 ∧ q = q0 then Wf c p q + ε else Wf c p q)
    = (∑ c ∈ Finset.range C, ∑ p ∈ Finset.range HH, ∑ q ∈ Finset.range WW,
        Xf c p q * Wf c p q) + ε * Xf c0 p0 q0 := by
  have key : ∀ c p q, Xf c p q
        * (if c = c0 ∧ p = p0 ∧ q = q0 then Wf c p q + ε else Wf c p q)
      = Xf c p q * Wf c p q
        + (if c = c0 ∧ p = p0 ∧ q = q0 then ε * Xf c0 p0 q0 else 0) := by
    intro c p q
    by_cases hcpq : c = c0 ∧ p = p0 ∧ q = q0
    · obtain ⟨h1, h2, h3⟩ := hcpq
      subst h1; subst h2; subst h3
      simp
      ring
    · simp [hcpq]
  calc ∑ c ∈ Finset.range C, ∑ p ∈ Finset.range HH, ∑ q ∈ Finset.range WW,
        Xf c p q * (if c = c0 ∧ p = p0 ∧ q = q0 then Wf c p q + ε else Wf c p q)
      = ∑ c ∈ Finset.range C, ∑ p ∈ Finset.range HH, ∑ q ∈ Finset.range WW,
        (Xf c p q * Wf c p q
          + (if c = c0 ∧ p = p0 ∧ q = q0 then ε * Xf c0 p0 q0 else 0)) := by
        refine Finset.sum_congr rfl fun c _ => Finset.sum_congr rfl fun p _ =>
          Finset.sum_congr rfl fun q _ => key c p q
    _ = (∑ c ∈ Finset.range C, ∑ p ∈ Finset.range HH, ∑ q ∈ Finset.range WW,
          Xf c p q * Wf c p q) + ε * Xf c0 p0 q0 := by
        simp only [Finset.sum_add_distrib]
        rw [sum_ite_triple C HH WW hc0 hp0 hq0 (ε * Xf c0 p0 q0)]

theorem conv_forward_upd_b (C HH WW S P H W : ℕ) (x w : ℕ → ℕ → ℕ → ℕ → ℝ)
    (b : ℕ → ℝ) (f0 : ℕ) (ε : ℝ) :
    conv_forward_naive C HH WW S P H W x w (upd1 b f0 ε)
      = fun n f i j => conv_forward_naive C HH WW S P H W x w b n f i j
        + ε * (if f = f0 then 1 else 0) := by
  funext n f i j
  simp only [conv_forward_naive, upd1]
  by_cases hf : f = f0
  · simp [hf]
    ring
  · simp [hf]

theorem conv_forward_upd_w (C HH WW S P H W : ℕ) (x w : ℕ → ℕ → ℕ → ℕ → ℝ)
    (b : ℕ → ℝ) {c0 p0 q0 : ℕ} (hc0 : c0 < C) (hp0 : p0 < HH) (hq0 : q0 < WW)
    (f0 : ℕ) (ε : ℝ) :
    conv_forward_naive C HH WW S P H W x (upd4 w f0 c0 p0 q0 ε) b
      = fun n f i j => conv_forward_naive C HH WW S P H W x w b n f i j
        + ε * (if f = f0 then xpad H W P x n c0 (i * S + p0) (j * S + q0) else 0) := by
  funext n f i j
  simp only [conv_forward_naive, upd4]
  by_cases hf : f = f0
  · subst hf
    simp only [eq_self_iff_true, true_and, if_true]
    rw [sum3_mul_upd C HH WW hc0 hp0 hq0
      (fun c p q => xpad H W P x n c (i * S + p) (j * S + q))
      (fun c p q => w f c p q) ε]
    ring
  · simp [hf]

/-- Pulling an index-independent condition out of a triple sum. -/
theorem sum3_ite_const (F H1 W1 : ℕ) (c : Prop) [Decidable c]
    (f : ℕ → ℕ → ℕ → ℝ) :
    ∑ g ∈ Finset.range F, ∑ i ∈ Finset.range H1, ∑ j ∈ Finset.range W1,
      (if c then f g i j else 0)
    = if c then ∑ g ∈ Finset.range F, ∑ i ∈ Finset.range H1,
        ∑ j ∈ Finset.range W1, f g i j else 0 := by
  rw [Finset.sum_congr rfl fun g _ => sum2_ite_const H1 W1 c (f g),
    sum_ite_const (Finset.range F) c _]

/-- Splitting the convolution loss over a perturbation tagged by the filter
index. -/
theorem convLoss_split_f (N F H1 W1 : ℕ) {f0 : ℕ} (hf0 : f0 < F) (ε : ℝ)
    {dout base : ℕ → ℕ → ℕ → ℕ → ℝ} {T : ℕ → ℕ → ℕ → ℝ} :
    ∑ n ∈ Finset.range N, ∑ f ∈ Finset.range F, ∑ i ∈ Finset.range H1,
      ∑ j ∈ Finset.range W1,
        dout n f i j * (base n f i j + ε * (if f = f0 then T n i j else 0))
    = (∑ n ∈ Finset.range N, ∑ f ∈ Finset.range F, ∑ i ∈ Finset.range H1,
        ∑ j ∈ Finset.range W1, dout n f i j * base n f i j)
      + (∑ n ∈ Finset.range N, ∑ i ∈ Finset.range H1, ∑ j ∈ Finset.range W1,
          dout n f0 i j * T n i j) * ε := by
  have key : ∀ n f i j, dout n f i j
        * (base n f i j + ε * (if f = f0 then T n i j else 0))
      = dout n f i j * base n f i j
        + (if f = f0 then dout n f i j * T n i j * ε else 0) := by
    intro n f i j
    by_cases hf : f = f0
    · simp only [hf, eq_self_iff_true, if_true]
      ring
    · simp [hf]
  calc ∑ n ∈ Finset.range N, ∑ f ∈ Finset.range F, ∑ i ∈ Finset.range H1,
      ∑ j ∈ Finset.range W1,
        dout n f i j * (base n f i j + ε * (if f = f0 then T n i j else 0))
      = ∑ n ∈ Finset.range N, ∑ f ∈ Finset.range F, ∑ i ∈ Finset.range H1,
        ∑ j ∈ Finset.range W1,
          (dout n f i j * base n f i j
            + (if f = f0 then dout n f i j * T n i j * ε else 0)) := by
        refine Finset.sum_congr rfl fun n _ => Finset.sum_congr rfl fun f _ =>
          Finset.sum_congr rfl fun i _ => Finset.sum_congr rfl fun j _ => key n f i j
    _ = (∑ n ∈ Finset.range N, ∑ f ∈ Finset.range F, ∑ i ∈ Finset.range H1,
          ∑ j ∈ Finset.range W1, dout n f i j * base n f i j)
        + ∑ n ∈ Finset.range N, ∑ f ∈ Finset.range F, ∑ i ∈ Finset.range H1,
          ∑ j ∈ Finset.range W1,
            (if f = f0 then dout n f i j * T n i j * ε else 0) := by
        simp only [Finset.sum_add_distrib]
    _ = (∑ n ∈ Finset.range N, ∑ f ∈ Finset.range F, ∑ i ∈ Finset.range H1,
          ∑ j ∈ Finset.range W1, dout n f i j * base n f i j)
        + (∑ n ∈ Finset.range N, ∑ i ∈ Finset.range H1, ∑ j ∈ Finset.range W1,
            dout n f0 i j * T n i j) * ε := by
        congr 1
        have hn : ∀ n, ∑ f ∈ Finset.range F, ∑ i ∈ Finset.range H1,
            ∑ j ∈ Finset.range W1,
              (if f = f0 then dout n f i j * T n i j * ε else 0)
            = ∑ i ∈ Finset.range H1, ∑ j ∈ Finset.range W1,
              dout n f0 i j * T n i j * ε := by
          intro n
          rw [Finset.sum_congr rfl fun f _ => sum2_ite_const H1 W1 (f = f0)
            (fun i j => dout n f i j * T n i j * ε)]
          exact sum_ite_single hf0 _
        rw [Finset.sum_congr rfl fun n _ => hn n]
        simp only [← Finset.sum_mul]

/-- Splitting the convolution loss over a perturbation tagged by the batch
index. -/
theorem convLoss_split_n (N F H1 W1 : ℕ) {n0 : ℕ} (hn0 : n0 < N) (ε : ℝ)
    {dout base : ℕ → ℕ → ℕ → ℕ → ℝ} {U : ℕ → ℕ → ℕ → ℝ} :
    ∑ n ∈ Finset.range N, ∑ f ∈ Finset.range F, ∑ i ∈ Finset.range H1,
      ∑ j ∈ Finset.range W1,
        dout n f i j * (base n f i j + ε * (if n = n0 then U f i j else 0))
    = (∑ n ∈ Finset.range N, ∑ f ∈ Finset.range F, ∑ i ∈ Finset.range H1,
        ∑ j ∈ Finset.range W1, dout n f i j * base n f i j)
      + (∑ f ∈ Finset.range F, ∑ i ∈ Finset.range H1, ∑ j ∈ Finset.range W1,
          dout n0 f i j * U f i j) * ε := by
  have key : ∀ n f i j, dout n f i j
        * (base n f i j + ε * (if n = n0 then U f i j else 0))
      = dout n f i j * base n f i j
        + (if n = n0 then dout n f i j * U f i j * ε else 0) := by
    intro n f i j
    by_cases hn : n = n0
    · simp only [hn, eq_self_iff_true, if_true]
      ring
    · simp [hn]
  calc ∑ n ∈ Finset.range N, ∑ f ∈ Finset.range F, ∑ i ∈ Finset.range H1,
      ∑ j ∈ Finset.range W1,
        dout n f i j * (base n f i j + ε * (if n = n0 then U f i j else 0))
      = ∑ n ∈ Finset.range N, ∑ f ∈ Finset.range F, ∑ i ∈ Finset.range H1,
        ∑ j ∈ Finset.range W1,
          (dout n f i j * base n f i j
            + (if n = n0 then dout n f i j * U f i j * ε else 0)) := by
        refine Finset.sum_congr rfl fun n _ => Finset.sum_congr rfl fun f _ =>
          Finset.sum_congr rfl fun i _ => Finset.sum_congr rfl fun j _ => key n f i j
    _ = (∑ n ∈ Finset.range N, ∑ f ∈ Finset.range F, ∑ i ∈ Finset.range H1,
          ∑ j ∈ Finset.range W1, dout n f i j * base n f i j)
        + ∑ n ∈ Finset.range N, ∑ f ∈ Finset.range F, ∑ i ∈ Finset.range H1,
          ∑ j ∈ Finset.range W1,
            (if n = n0 then dout n f i j * U f i j * ε else 0) := by
        simp only [Finset.sum_add_distrib]
    _ = (∑ n ∈ Finset.range N, ∑ f ∈ Finset.range F, ∑ i ∈ Finset.range H1,
          ∑ j ∈ Finset.range W1, dout n f i j * base n f i j)
        + (∑ f ∈ Finset.range F, ∑ i ∈ Finset.range H1, ∑ j ∈ Finset.range W1,
            dout n0 f i j * U f i j) * ε := by
        congr 1
        rw [Finset.sum_congr rfl fun n _ => sum3_ite_const F H1 W1 (n = n0)
          (fun f i j => dout n f i j * U f i j * ε)]
        rw [sum_ite_single hn0 _]
        simp only [← Finset.sum_mul]

/-- Perturbing one input pixel perturbs exactly one entry of the padded input. -/
theorem xpad_upd4 (H W P : ℕ) (x : ℕ → ℕ → ℕ → ℕ → ℝ) {n0 c0 a bb : ℕ}
    (ha : a < H) (hb : bb < W) (ε : ℝ) :
    xpad H W P (upd4 x n0 c0 a bb ε)
      = fun n c r s => xpad H W P x n c r s
        + ε * (if n = n0 ∧ c = c0 ∧ r = a + P ∧ s = bb + P then 1 else 0) := by
  funext n c r s
  simp only [xpad, upd4]
  by_cases hbound : P ≤ r ∧ r < H + P ∧ P ≤ s ∧ s < W + P
  · rw [if_pos hbound, if_pos hbound]
    by_cases hind : n = n0 ∧ c = c0 ∧ r = a + P ∧ s = bb + P
    · obtain ⟨h1, h2, h3, h4⟩ := hind
      subst h1; subst h2; subst h3; subst h4
      rw [if_pos ⟨rfl, rfl, by omega, by omega⟩, if_pos ⟨rfl, rfl, rfl, rfl⟩]
      ring
    · rw [if_neg, if_neg hind]
      · ring
      · rintro ⟨h1, h2, h3, h4⟩
        exact hind ⟨h1, h2, by omega, by omega⟩
  · rw [if_neg hbound, if_neg hbound]
    have hind : ¬(n = n0 ∧ c = c0 ∧ r = a + P ∧ s = bb + P) := by
      rintro ⟨_, _, h3, h4⟩
      subst h3; subst h4
      exact hbound ⟨by omega, by omega, by omega, by omega⟩
    rw [if_neg hind]
    ring

/-- Collapsing a shifted-index indicator sum to a window test. -/
theorem sum_ite_shift (HH base t : ℕ) (f : ℕ → ℝ) :
    ∑ p ∈ Finset.range HH, (if base + p = t then f p else 0)
      = if base ≤ t ∧ t < base + HH then f (t - base) else 0 := by
  by_cases h : base ≤ t ∧ t < base + HH
  · rw [if_pos h]
    calc ∑ p ∈ Finset.range HH, (if base + p = t then f p else 0)
        = ∑ p ∈ Finset.range HH, (if p = t - base then f p else 0) := by
          refine Finset.sum_congr rfl fun p _ => ?_
          exact if_congr (by omega) rfl rfl
      _ = f (t - base) := sum_ite_single (by omega) f
  · rw [if_neg h]
    refine Finset.sum_eq_zero fun p hp => ?_
    have hp' := Finset.mem_range.mp hp
    rw [if_neg (by omega)]

/-- Window contribution of one input pixel to the convolution output at
`(f, i, j)`: the kernel weight at the matching offset, when the window covers
the pixel. -/
noncomputable def convWindowTerm (HH WW S P : ℕ) (w : ℕ → ℕ → ℕ → ℕ → ℝ)
    (c0 a bb : ℕ) : ℕ → ℕ → ℕ → ℝ :=
  fun f i j =>
    if i * S ≤ a + P ∧ a + P < i * S + HH then
      (if j * S ≤ bb + P ∧ bb + P < j * S + WW then
        w f c0 (a + P - i * S) (bb + P - j * S) else 0)
    else 0

theorem conv_forward_upd_x (C HH WW S P H W : ℕ) (x w : ℕ → ℕ → ℕ → ℕ → ℝ)
    (b : ℕ → ℝ) {n0 c0 a bb : ℕ} (hc0 : c0 < C) (ha : a < H) (hb : bb < W)
    (ε : ℝ) :
    conv_forward_naive C HH WW S P H W (upd4 x n0 c0 a bb ε) w b
      = fun n f i j => conv_forward_naive C HH WW S P H W x w b n f i j
        + ε * (if n = n0 then convWindowTerm HH WW S P w c0 a bb f i j else 0) := by
  funext n f i j
  simp only [conv_forward_naive]
  rw [xpad_upd4 H W P x ha hb ε]
  have step1 : ∀ c p q,
      ((fun n c r s => xpad H W P x n c r s
          + ε * (if n = n0 ∧ c = c0 ∧ r = a + P ∧ s = bb + P then 1 else 0))
        n c (i * S + p) (j * S + q)) * w f c p q
      = xpad H W P x n c (i * S + p) (j * S + q) * w f c p q
        + ε * (if n = n0 ∧ c = c0 ∧ i * S + p = a + P ∧ j * S + q = bb + P
            then w f c p q else 0) := by
    intro c p q
    simp only []
    by_cases hcond : n = n0 ∧ c = c0 ∧ i * S + p = a + P ∧ j * S + q = bb + P
    · rw [if_pos hcond, if_pos hcond]
      ring
    · rw [if_neg hcond, if_neg hcond]
      ring
  rw [Finset.sum_congr rfl fun c _ => Finset.sum_congr rfl fun p _ =>
    Finset.sum_congr rfl fun q _ => step1 c p q]
  simp only [Finset.sum_add_distrib, ← Finset.mul_sum]
  have step2 : ∑ c ∈ Finset.range C, ∑ p ∈ Finset.range HH, ∑ q ∈ Finset.range WW,
      (if n = n0 ∧ c = c0 ∧ i * S + p = a + P ∧ j * S + q = bb + P
        then w f c p q else 0)
      = if n = n0 then convWindowTerm HH WW S P w c0 a bb f i j else 0 := by
    by_cases hn : n = n0
    · rw [if_pos hn]
      have hc : ∀ c p q, (if n = n0 ∧ c = c0 ∧ i * S + p = a + P ∧ j * S + q = bb + P
            then w f c p q else 0)
          = if c = c0 then (if i * S + p = a + P then
              (if j * S + q = bb + P then w f c p q else 0) else 0) else 0 := by
        intro c p q
        by_cases h1 : c = c0
        · by_cases h2 : i * S + p = a + P
          · by_cases h3 : j * S + q = bb + P
            · simp [hn, h1, h2, h3]
            · simp [hn, h1, h2, h3]
          · simp [hn, h1, h2]
        · simp [h1]
      rw [Finset.sum_congr rfl fun c _ => Finset.sum_congr rfl fun p _ =>
        Finset.sum_congr rfl fun q _ => hc c p q]
      rw [Finset.sum_congr rfl fun c _ => sum2_ite_const HH WW (c = c0)
        (fun p q => if i * S + p = a + P then
          (if j * S + q = bb + P then w f c p q else 0) else 0)]
      rw [sum_ite_single hc0 _]
      have hq : ∀ p, ∑ q ∈ Finset.range WW,
          (if i * S + p = a + P then
            (if j * S + q = bb + P then w f c0 p q else 0) else 0)
          = if i * S + p = a + P then
            (if j * S ≤ bb + P ∧ bb + P < j * S + WW
              then w f c0 p (bb + P - j * S) else 0) else 0 := by
        intro p
        rw [sum_ite_const (Finset.range WW) (i * S + p = a + P) _]
        by_cases h2 : i * S + p = a + P
        · rw [if_pos h2, if_pos h2]
          exact sum_ite_shift WW (j * S) (bb + P) (fun q => w f c0 p q)
        · rw [if_neg h2, if_neg h2]
      rw [Finset.sum_congr rfl fun p _ => hq p]
      rw [sum_ite_shift HH (i * S) (a + P) (fun p =>
        if j * S ≤ bb + P ∧ bb + P < j * S + WW
          then w f c0 p (bb + P - j * S) else 0)]
      rfl
    · rw [if_neg hn]
      refine Finset.sum_eq_zero fun c _ => Finset.sum_eq_zero fun p _ =>
        Finset.sum_eq_zero fun q _ => ?_
      rw [if_neg (by tauto)]
  rw [step2]
  ring

/-- The clipped floor-division bounds of the source enumerate exactly the
output positions whose window covers the pixel. -/
theorem conv_sum_Ico_eq {S : ℕ} (hS : 0 < S) (a P HH H1 : ℕ) (G : ℕ → ℝ) :
    ∑ k ∈ Finset.Ico (max 0 (((a : ℤ) + P - HH).fdiv S + 1)).toNat
        (min (H1 : ℤ) (((a : ℤ) + P).fdiv S + 1)).toNat, G k
      = ∑ k ∈ Finset.range H1,
          (if k * S ≤ a + P ∧ a + P < k * S + HH then G k else 0) := by
  have hS' : (0 : ℤ) < (S : ℤ) := by exact_mod_cast hS
  have hmem : ∀ k : ℕ,
      (k ∈ Finset.Ico (max 0 (((a : ℤ) + P - HH).fdiv S + 1)).toNat
        (min (H1 : ℤ) (((a : ℤ) + P).fdiv S + 1)).toNat)
      ↔ (k < H1 ∧ (k * S ≤ a + P ∧ a + P < k * S + HH)) := by
    intro k
    rw [Finset.mem_Ico]
    have hcast : ((k * S : ℕ) : ℤ) = (k : ℤ) * (S : ℤ) := by push_cast; ring
    have h1 : (max 0 (((a : ℤ) + P - HH).fdiv S + 1)).toNat ≤ k
        ↔ (a : ℤ) + P - HH < ((k * S : ℕ) : ℤ) := by
      rw [Int.toNat_le, max_le_iff, Int.fdiv_eq_ediv _ (le_of_lt hS'), hcast]
      constructor
      · rintro ⟨_, h⟩
        have h' : ((a : ℤ) + P - HH) / S < (k : ℤ) := by omega
        exact (Int.ediv_lt_iff_lt_mul hS').mp h'
      · intro h
        refine ⟨by positivity, ?_⟩
        have h' : ((a : ℤ) + P - HH) / S < (k : ℤ) :=
          (Int.ediv_lt_iff_lt_mul hS').mpr h
        omega
    have h2 : k < (min (H1 : ℤ) (((a : ℤ) + P).fdiv S + 1)).toNat
        ↔ ((k : ℤ) < H1 ∧ ((k * S : ℕ) : ℤ) ≤ (a : ℤ) + P) := by
      rw [Int.lt_toNat, lt_min_iff, Int.fdiv_eq_ediv _ (le_of_lt hS'), hcast]
      constructor
      · rintro ⟨hH, h⟩
        have h' : (k : ℤ) ≤ ((a : ℤ) + P) / S := by omega
        exact ⟨hH, (Int.le_ediv_iff_mul_le hS').mp h'⟩
      · rintro ⟨hH, h⟩
        have h' : (k : ℤ) ≤ ((a : ℤ) + P) / S :=
          (Int.le_ediv_iff_mul_le hS').mpr h
        exact ⟨hH, by omega⟩
    rw [h1, h2]
    constructor
    · rintro ⟨hlow, hH, hup⟩
      refine ⟨by exact_mod_cast hH, by exact_mod_cast hup, by omega⟩
    · rintro ⟨hH, hup, hlow⟩
      refine ⟨by omega, by exact_mod_cast hH, by exact_mod_cast hup⟩
  calc ∑ k ∈ Finset.Ico (max 0 (((a : ℤ) + P - HH).fdiv S + 1)).toNat
        (min (H1 : ℤ) (((a : ℤ) + P).fdiv S + 1)).toNat, G k
      = ∑ k ∈ (Finset.range H1).filter
          (fun k => k * S ≤ a + P ∧ a + P < k * S + HH), G k := by
        refine Finset.sum_congr (Finset.ext fun k => ?_) fun _ _ => rfl
        rw [hmem k, Finset.mem_filter, Finset.mem_range]
    _ = ∑ k ∈ Finset.range H1,
          (if k * S ≤ a + P ∧ a + P < k * S + HH then G k else 0) :=
        Finset.sum_filter _ _

/-- The windowed gradient sum equals the floor-division form computed by
`conv_backward_naive`. -/
theorem gradSpecX_eq_conv_dx (F HH WW S P H1 W1 : ℕ) (hS : 0 < S)
    (w dout : ℕ → ℕ → ℕ → ℕ → ℝ) (n0 c0 a bb : ℕ) :
    ∑ f ∈ Finset.range F, ∑ i ∈ Finset.range H1, ∑ j ∈ Finset.range W1,
      dout n0 f i j * convWindowTerm HH WW S P w c0 a bb f i j
    = conv_dx F HH WW S P H1 W1 w dout n0 c0 a bb := by
  unfold conv_dx
  simp only [conv_sum_Ico_eq hS]
  refine Finset.sum_congr rfl fun f _ => Finset.sum_congr rfl fun i _ => ?_
  by_cases hci : i * S ≤ a + P ∧ a + P < i * S + HH
  · rw [if_pos hci]
    refine Finset.sum_congr rfl fun j _ => ?_
    simp only [convWindowTerm, if_pos hci]
    by_cases hcj : j * S ≤ bb + P ∧ bb + P < j * S + WW
    · rw [if_pos hcj, if_pos hcj]
      have e1 : ((a : ℤ) + P - S * i).toNat = a + P - i * S := by
        have h : (a : ℤ) + P - S * i = ((a + P : ℕ) : ℤ) - ((i * S : ℕ) : ℤ) := by
          push_cast
          ring
        rw [h, Int.toNat_sub]
      have e2 : ((bb : ℤ) + P - S * j).toNat = bb + P - j * S := by
        have h : (bb : ℤ) + P - S * j = ((bb + P : ℕ) : ℤ) - ((j * S : ℕ) : ℤ) := by
          push_cast
          ring
        rw [h, Int.toNat_sub]
      rw [e1, e2]
      ring
    · rw [if_neg hcj, if_neg hcj, mul_zero]
  · rw [if_neg hci]
    refine Finset.sum_eq_zero fun j _ => ?_
    simp [convWindowTerm, if_neg hci]

/-- Claim C1: under a positive stride, `conv_forward_naive` produces an output
of spatial extent `H' = 1 + (H + 2P - HH) / S` and `W' = 1 + (W + 2P - WW) / S`
(exact when the differences are multiples of the stride) with
`out[n,f,i,j] = b[f] + sum over c,p,q of x_pad[n,c,i*S+p,j*S+q] * w[f,c,p,q]`,
and `conv_backward_naive` returns `(dx, dw, db)` equal to the exact gradients
of `∑ dout * out` with respect to `x`, `w` and `b`. -/
theorem conv_forward_backward_correct (N F C H W HH WW S P : ℕ)
    (x w dout : ℕ → ℕ → ℕ → ℕ → ℝ) (b : ℕ → ℝ) (hS : 0 < S) :
    (S ∣ (H + 2 * P - HH) → S * (convH1 H HH P S - 1) = H + 2 * P - HH)
    ∧ (S ∣ (W + 2 * P - WW) → S * (convH1 W WW P S - 1) = W + 2 * P - WW)
    ∧ (∀ n f i j, conv_forward_naive C HH WW S P H W x w b n f i j
        = b f + ∑ c ∈ Finset.range C, ∑ p ∈ Finset.range HH,
            ∑ q ∈ Finset.range WW,
              xpad H W P x n c (i * S + p) (j * S + q) * w f c p q)
    ∧ (∀ n0 c0 a bb, n0 < N → c0 < C → a < H → bb < W →
        HasDerivAt
          (fun ε => convLoss N F (convH1 H HH P S) (convH1 W WW P S) C HH WW S P
            H W dout (upd4 x n0 c0 a bb ε) w b)
          (conv_dx F HH WW S P (convH1 H HH P S) (convH1 W WW P S) w dout
            n0 c0 a bb) 0)
    ∧ (∀ f0 c0 p0 q0, f0 < F → c0 < C → p0 < HH → q0 < WW →
        HasDerivAt
          (fun ε => convLoss N F (convH1 H HH P S) (convH1 W WW P S) C HH WW S P
            H W dout x (upd4 w f0 c0 p0 q0 ε) b)
          (conv_dw N (convH1 H HH P S) (convH1 W WW P S) H W S P x dout
            f0 c0 p0 q0) 0)
    ∧ (∀ f0, f0 < F →
        HasDerivAt
          (fun ε => convLoss N F (convH1 H HH P S) (convH1 W WW P S) C HH WW S P
            H W dout x w (upd1 b f0 ε))
          (conv_db N (convH1 H HH P S) (convH1 W WW P S) dout f0) 0) := by
  refine ⟨?_, ?_, ?_, ?_, ?_, ?_⟩
  · intro hdvd
    simp only [convH1, Nat.add_sub_cancel]
    exact Nat.mul_div_cancel' hdvd
  · intro hdvd
    simp only [convH1, Nat.add_sub_cancel]
    exact Nat.mul_div_cancel' hdvd
  · intro n f i j
    exact add_comm _ _
  · intro n0 c0 a bb hn0 hc0 ha hb
    refine @hasDerivAt_of_affine _
      (convLoss N F (convH1 H HH P S) (convH1 W WW P S) C HH WW S P H W dout
        x w b) _ (fun ε => ?_)
    unfold convLoss
    rw [conv_forward_upd_x C HH WW S P H W x w b hc0 ha hb ε]
    rw [convLoss_split_n N F (convH1 H HH P S) (convH1 W WW P S) hn0 ε]
    congr 1
    congr 1
    exact gradSpecX_eq_conv_dx F HH WW S P (convH1 H HH P S) (convH1 W WW P S)
      hS w dout n0 c0 a bb
  · intro f0 c0 p0 q0 hf0 hc0 hp0 hq0
    refine @hasDerivAt_of_affine _
      (convLoss N F (convH1 H HH P S) (convH1 W WW P S) C HH WW S P H W dout
        x w b) _ (fun ε => ?_)
    unfold convLoss
    rw [conv_forward_upd_w C HH WW S P H W x w b hc0 hp0 hq0 f0 ε]
    rw [convLoss_split_f N F (convH1 H HH P S) (convH1 W WW P S) hf0 ε]
    congr 1
    congr 1
    simp only [conv_dw]
    exact Finset.sum_congr rfl fun n _ => Finset.sum_congr rfl fun i _ =>
      Finset.sum_congr rfl fun j _ => mul_comm _ _
  · intro f0 hf0
    refine @hasDerivAt_of_affine _
      (convLoss N F (convH1 H HH P S) (convH1 W WW P S) C HH WW S P H W dout
        x w b) _ (fun ε => ?_)
    unfold convLoss
    rw [conv_forward_upd_b C HH WW S P H W x w b f0 ε]
    rw [convLoss_split_f N F (convH1 H HH P S) (convH1 W WW P S) hf0 ε]
    congr 1
    congr 1
    simp [conv_db]

/-- Witness for C1 with `1 x 1 x 1 x 1` data, a `1 x 1` kernel, stride `1` and
no padding: the derivative of the loss in `x[0,0,0,0]` is the returned
`dx[0,0,0,0]`. -/
theorem conv_forward_backward_correct_witness :
    HasDerivAt
      (fun ε => convLoss 1 1 (convH1 1 1 0 1) (convH1 1 1 0 1) 1 1 1 1 0 1 1
        (fun _ _ _ _ => 2) (upd4 (fun _ _ _ _ => 3) 0 0 0 0 ε)
        (fun _ _ _ _ => 5) (fun _ => 7))
      (conv_dx 1 1 1 1 0 (convH1 1 1 0 1) (convH1 1 1 0 1) (fun _ _ _ _ => 5)
        (fun _ _ _ _ => 2) 0 0 0 0) 0 :=
  (conv_forward_backward_correct 1 1 1 1 1 1 1 1 0 (fun _ _ _ _ => 3)
    (fun _ _ _ _ => 5) (fun _ _ _ _ => 2) (fun _ => 7)
    (by decide)).2.2.2.1 0 0 0 0 (by decide) (by decide) (by decide) (by decide)

/-! ## Vanilla RNN over a sequence (`rnn_layers.py`, `rnn_forward` / `rnn_backward`)

`rnn_forward` fills `h[:,0,:] = tanh(x[:,0,:].Wx + h0.Wh + b)` and then
`h[:,t+1,:] = tanh(x[:,t+1,:].Wx + h[:,t,:].Wh + b)`; this is `rnnh` below.
`rnn_backward` walks the timesteps from `T-1` down to `0`, feeding each step
`dh[:,t,:]` plus the `dprev_h` carried from the step above (the carry starts at
zero, which the source expresses by omitting the addition at `t = T-1`), and
accumulates `dWx`, `dWh`, `db` across steps; `rnn_bwd t carry` below processes
timesteps `t` down to `0` with that carry. -/

noncomputable def rnn_step_forward (D Hh : ℕ) (x prevh Wx Wh : ℕ → ℕ → ℝ)
    (b : ℕ → ℝ) : ℕ → ℕ → ℝ :=
  fun n k => Real.tanh ((∑ d ∈ Finset.range D, x n d * Wx d k)
    + (∑ j ∈ Finset.range Hh, prevh n j * Wh j k) + b k)

noncomputable def rnnh (D Hh : ℕ) (x : ℕ → ℕ → ℕ → ℝ) (h0 Wx Wh : ℕ → ℕ → ℝ)
    (b : ℕ → ℝ) : ℕ → ℕ → ℕ → ℝ
  | 0 => rnn_step_forward D Hh (x 0) h0 Wx Wh b
  | t + 1 => rnn_step_forward D Hh (x (t + 1)) (rnnh D Hh x h0 Wx Wh b t) Wx Wh b

structure RnnGrads where
  dx : ℕ → ℕ → ℕ → ℝ
  dh0 : ℕ → ℕ → ℝ
  dWx : ℕ → ℕ → ℝ
  dWh : ℕ → ℕ → ℝ
  db : ℕ → ℝ

/-- Total upstream gradient into `h[t]` during the backward sweep:
`(dh t + carry) * (1 - h[t]^2)`. -/
noncomputable def rnn_dHm (D Hh : ℕ) (x : ℕ → ℕ → ℕ → ℝ)
    (h0 Wx Wh : ℕ → ℕ → ℝ) (b : ℕ → ℝ) (dh : ℕ → ℕ → ℕ → ℝ) (t : ℕ)
    (carry : ℕ → ℕ → ℝ) : ℕ → ℕ → ℝ :=
  fun n k => (dh t n k + carry n k) * (1 - rnnh D Hh x h0 Wx Wh b t n k ^ 2)

/-- Carry emitted by processing timestep `t`: `dH.dot(Wh.T)`. -/
noncomputable def rnn_prev (D Hh : ℕ) (x : ℕ → ℕ → ℕ → ℝ)
    (h0 Wx Wh : ℕ → ℕ → ℝ) (b : ℕ → ℝ) (dh : ℕ → ℕ → ℕ → ℝ) (t : ℕ)
    (carry : ℕ → ℕ → ℝ) : ℕ → ℕ → ℝ :=
  fun n j => ∑ k ∈ Finset.range Hh,
    rnn_dHm D Hh x h0 Wx Wh b dh t carry n k * Wh j k

/-- Backward sweep of `rnn_backward`: process timestep `t` with upstream
`dh t + carry`, emit the step gradients, and recurse on `t - 1` with the new
carry `dH.dot(Wh.T)`. -/
noncomputable def rnn_bwd (N D Hh : ℕ) (x : ℕ → ℕ → ℕ → ℝ)
    (h0 Wx Wh : ℕ → ℕ → ℝ) (b : ℕ → ℝ) (dh : ℕ → ℕ → ℕ → ℝ) :
    ℕ → (ℕ → ℕ → ℝ) → RnnGrads
  | 0, carry =>
    ⟨fun t' n d => if t' = 0 then ∑ k ∈ Finset.range Hh,
        rnn_dHm D Hh x h0 Wx Wh b dh 0 carry n k * Wx d k else 0,
     rnn_prev D Hh x h0 Wx Wh b dh 0 carry,
     fun d k => ∑ n ∈ Finset.range N,
       x 0 n d * rnn_dHm D Hh x h0 Wx Wh b dh 0 carry n k,
     fun j k => ∑ n ∈ Finset.range N,
       h0 n j * rnn_dHm D Hh x h0 Wx Wh b dh 0 carry n k,
     fun k => ∑ n ∈ Finset.range N, rnn_dHm D Hh x h0 Wx Wh b dh 0 carry n k⟩
  | t + 1, carry =>
    let r := rnn_bwd N D Hh x h0 Wx Wh b dh t
      (rnn_prev D Hh x h0 Wx Wh b dh (t + 1) carry)
    ⟨fun t' n d => if t' = t + 1 then ∑ k ∈ Finset.range Hh,
        rnn_dHm D Hh x h0 Wx Wh b dh (t + 1) carry n k * Wx d k
      else r.dx t' n d,
     r.dh0,
     fun d k => r.dWx d k + ∑ n ∈ Finset.range N,
       x (t + 1) n d * rnn_dHm D Hh x h0 Wx Wh b dh (t + 1) carry n k,
     fun j k => r.dWh j k + ∑ n ∈ Finset.range N,
       rnnh D Hh x h0 Wx Wh b t n j * rnn_dHm D Hh x h0 Wx Wh b dh (t + 1) carry n k,
     fun k => r.db k + ∑ n ∈ Finset.range N,
       rnn_dHm D Hh x h0 Wx Wh b dh (t + 1) carry n k⟩

/-- `rnn_backward` for a `T`-step problem starts the sweep at timestep `T - 1`
with a zero carry. -/
noncomputable def rnn_backward (N D Hh : ℕ) (x : ℕ → ℕ → ℕ → ℝ)
    (h0 Wx Wh : ℕ → ℕ → ℝ) (b : ℕ → ℝ) (dh : ℕ → ℕ → ℕ → ℝ) (T : ℕ) :
    RnnGrads :=
  rnn_bwd N D Hh x h0 Wx Wh b dh (T - 1) (fun _ _ => 0)

/-- Scalar loss `∑ over t of dh[:,t,:] * h[:,t,:]` for the RNN sequence. -/
noncomputable def rnnLoss (N D Hh T : ℕ) (dh x : ℕ → ℕ → ℕ → ℝ)
    (h0 Wx Wh : ℕ → ℕ → ℝ) (b : ℕ → ℝ) : ℝ :=
  ∑ t ∈ Finset.range T, ∑ n ∈ Finset.range N, ∑ k ∈ Finset.range Hh,
    dh t n k * rnnh D Hh x h0 Wx Wh b t n k

/-- Sensitivity of one RNN step: derivative of each entry of
`tanh(x.Wx + prev_h.Wh + b)` along curves of all five inputs. -/
theorem rnn_step_hasDeriv (D Hh : ℕ) (Xc Hc WXc WHc : ℝ → ℕ → ℕ → ℝ)
    (Bc : ℝ → ℕ → ℝ) (X' H' WX' WH' : ℕ → ℕ → ℝ) (B' : ℕ → ℝ)
    (hX : ∀ n d, HasDerivAt (fun ε => Xc ε n d) (X' n d) 0)
    (hH : ∀ n j, HasDerivAt (fun ε => Hc ε n j) (H' n j) 0)
    (hWX : ∀ d k, HasDerivAt (fun ε => WXc ε d k) (WX' d k) 0)
    (hWH : ∀ j k, HasDerivAt (fun ε => WHc ε j k) (WH' j k) 0)
    (hB : ∀ k, HasDerivAt (fun ε => Bc ε k) (B' k) 0) (n k : ℕ) :
    HasDerivAt
      (fun ε => rnn_step_forward D Hh (Xc ε) (Hc ε) (WXc ε) (WHc ε) (Bc ε) n k)
      ((1 - rnn_step_forward D Hh (Xc 0) (Hc 0) (WXc 0) (WHc 0) (Bc 0) n k ^ 2)
        * ((∑ d ∈ Finset.range D, (X' n d * WXc 0 d k + Xc 0 n d * WX' d k))
          + (∑ j ∈ Finset.range Hh, (H' n j * WHc 0 j k + Hc 0 n j * WH' j k))
          + B' k)) 0 := by
  have h1 : HasDerivAt (fun ε => ∑ d ∈ Finset.range D, Xc ε n d * WXc ε d k)
      (∑ d ∈ Finset.range D, (X' n d * WXc 0 d k + Xc 0 n d * WX' d k)) 0 := by
    refine HasDerivAt.sum fun d _ => ?_
    simpa using (hX n d).mul (hWX d k)
  have h2 : HasDerivAt (fun ε => ∑ j ∈ Finset.range Hh, Hc ε n j * WHc ε j k)
      (∑ j ∈ Finset.range Hh, (H' n j * WHc 0 j k + Hc 0 n j * WH' j k)) 0 := by
    refine HasDerivAt.sum fun j _ => ?_
    simpa using (hH n j).mul (hWH j k)
  have hu : HasDerivAt (fun ε => (∑ d ∈ Finset.range D, Xc ε n d * WXc ε d k)
      + (∑ j ∈ Finset.range Hh, Hc ε n j * WHc ε j k) + Bc ε k)
      ((∑ d ∈ Finset.range D, (X' n d * WXc 0 d k + Xc 0 n d * WX' d k))
        + (∑ j ∈ Finset.range Hh, (H' n j * WHc 0 j k + Hc 0 n j * WH' j k))
        + B' k) 0 := (h1.add h2).add (hB k)
  have ht : HasDerivAt Real.tanh
      (1 - Real.tanh ((∑ d ∈ Finset.range D, Xc 0 n d * WXc 0 d k)
        + (∑ j ∈ Finset.range Hh, Hc 0 n j * WHc 0 j k) + Bc 0 k) ^ 2)
      ((fun ε => (∑ d ∈ Finset.range D, Xc ε n d * WXc ε d k)
        + (∑ j ∈ Finset.range Hh, Hc ε n j * WHc ε j k) + Bc ε k) 0) :=
    hasDerivAt_tanh _
  have hcomp := ht.comp 0 hu
  simpa [rnn_step_forward, Function.comp] using hcomp

/-- Dropping the first timestep: the hidden sequence of the shifted problem
(inputs advanced by one, initial hidden state `h[0]`) is the original sequence
advanced by one. -/
theorem rnnh_shift (D Hh : ℕ) (x : ℕ → ℕ → ℕ → ℝ) (h0 Wx Wh : ℕ → ℕ → ℝ)
    (b : ℕ → ℝ) (t : ℕ) :
    rnnh D Hh (fun s => x (s + 1)) (rnn_step_forward D Hh (x 0) h0 Wx Wh b)
        Wx Wh b t
      = rnnh D Hh x h0 Wx Wh b (t + 1) := by
  induction t with
  | zero => rfl
  | succ t ih =>
    show rnn_step_forward D Hh (x (t + 1 + 1))
        (rnnh D Hh (fun s => x (s + 1))
          (rnn_step_forward D Hh (x 0) h0 Wx Wh b) Wx Wh b t) Wx Wh b
      = rnn_step_forward D Hh (x (t + 1 + 1)) (rnnh D Hh x h0 Wx Wh b (t + 1))
          Wx Wh b
    rw [ih]


theorem rnn_bwd_zero_dx (N D Hh : ℕ) (x : ℕ → ℕ → ℕ → ℝ)
    (h0 Wx Wh : ℕ → ℕ → ℝ) (b : ℕ → ℝ) (dh : ℕ → ℕ → ℕ → ℝ)
    (carry : ℕ → ℕ → ℝ) (t' n d : ℕ) :
    (rnn_bwd N D Hh x h0 Wx Wh b dh 0 carry).dx t' n d
      = if t' = 0 then ∑ k ∈ Finset.range Hh,
          rnn_dHm D Hh x h0 Wx Wh b dh 0 carry n k * Wx d k else 0 := rfl

theorem rnn_bwd_zero_dh0 (N D Hh : ℕ) (x : ℕ → ℕ → ℕ → ℝ)
    (h0 Wx Wh : ℕ → ℕ → ℝ) (b : ℕ → ℝ) (dh : ℕ → ℕ → ℕ → ℝ)
    (carry : ℕ → ℕ → ℝ) :
    (rnn_bwd N D Hh x h0 Wx Wh b dh 0 carry).dh0
      = rnn_prev D Hh x h0 Wx Wh b dh 0 carry := rfl

theorem rnn_bwd_zero_dWx (N D Hh : ℕ) (x : ℕ → ℕ → ℕ → ℝ)
    (h0 Wx Wh : ℕ → ℕ → ℝ) (b : ℕ → ℝ) (dh : ℕ → ℕ → ℕ → ℝ)
    (carry : ℕ → ℕ → ℝ) (d k : ℕ) :
    (rnn_bwd N D Hh x h0 Wx Wh b dh 0 carry).dWx d k
      = ∑ n ∈ Finset.range N,
          x 0 n d * rnn_dHm D Hh x h0 Wx Wh b dh 0 carry n k := rfl

theorem rnn_bwd_zero_dWh (N D Hh : ℕ) (x : ℕ → ℕ → ℕ → ℝ)
    (h0 Wx Wh : ℕ → ℕ → ℝ) (b : ℕ → ℝ) (dh : ℕ → ℕ → ℕ → ℝ)
    (carry : ℕ → ℕ → ℝ) (j k : ℕ) :
    (rnn_bwd N D Hh x h0 Wx Wh b dh 0 carry).dWh j k
      = ∑ n ∈ Finset.range N,
          h0 n j * rnn_dHm D Hh x h0 Wx Wh b dh 0 carry n k := rfl

theorem rnn_bwd_zero_db (N D Hh : ℕ) (x : ℕ → ℕ → ℕ → ℝ)
    (h0 Wx Wh : ℕ → ℕ → ℝ) (b : ℕ → ℝ) (dh : ℕ → ℕ → ℕ → ℝ)
    (carry : ℕ → ℕ → ℝ) (k : ℕ) :
    (rnn_bwd N D Hh x h0 Wx Wh b dh 0 carry).db k
      = ∑ n ∈ Finset.range N, rnn_dHm D Hh x h0 Wx Wh b dh 0 carry n k := rfl

theorem rnn_bwd_succ_dx (N D Hh : ℕ) (x : ℕ → ℕ → ℕ → ℝ)
    (h0 Wx Wh : ℕ → ℕ → ℝ) (b : ℕ → ℝ) (dh : ℕ → ℕ → ℕ → ℝ) (t : ℕ)
    (carry : ℕ → ℕ → ℝ) (t' n d : ℕ) :
    (rnn_bwd N D Hh x h0 Wx Wh b dh (t + 1) carry).dx t' n d
      = if t' = t + 1 then ∑ k ∈ Finset.range Hh,
          rnn_dHm D Hh x h0 Wx Wh b dh (t + 1) carry n k * Wx d k
        else (rnn_bwd N D Hh x h0 Wx Wh b dh t
          (rnn_prev D Hh x h0 Wx Wh b dh (t + 1) carry)).dx t' n d := rfl

theorem rnn_bwd_succ_dh0 (N D Hh : ℕ) (x : ℕ → ℕ → ℕ → ℝ)
    (h0 Wx Wh : ℕ → ℕ → ℝ) (b : ℕ → ℝ) (dh : ℕ → ℕ → ℕ → ℝ) (t : ℕ)
    (carry : ℕ → ℕ → ℝ) :
    (rnn_bwd N D Hh x h0 Wx Wh b dh (t + 1) carry).dh0
      = (rnn_bwd N D Hh x h0 Wx Wh b dh t
          (rnn_prev D Hh x h0 Wx Wh b dh (t + 1) carry)).dh0 := rfl

theorem rnn_bwd_succ_dWx (N D Hh : ℕ) (x : ℕ → ℕ → ℕ → ℝ)
    (h0 Wx Wh : ℕ → ℕ → ℝ) (b : ℕ → ℝ) (dh : ℕ → ℕ → ℕ → ℝ) (t : ℕ)
    (carry : ℕ → ℕ → ℝ) (d k : ℕ) :
    (rnn_bwd N D Hh x h0 Wx Wh b dh (t + 1) carry).dWx d k
      = (rnn_bwd N D Hh x h0 Wx Wh b dh t
          (rnn_prev D Hh x h0 Wx Wh b dh (t + 1) carry)).dWx d k
        + ∑ n ∈ Finset.range N,
            x (t + 1) n d * rnn_dHm D Hh x h0 Wx Wh b dh (t + 1) carry n k := rfl

theorem rnn_bwd_succ_dWh (N D Hh : ℕ) (x : ℕ → ℕ → ℕ → ℝ)
    (h0 Wx Wh : ℕ → ℕ → ℝ) (b : ℕ → ℝ) (dh : ℕ → ℕ → ℕ → ℝ) (t : ℕ)
    (carry : ℕ → ℕ → ℝ) (j k : ℕ) :
    (rnn_bwd N D Hh x h0 Wx Wh b dh (t + 1) carry).dWh j k
      = (rnn_bwd N D Hh x h0 Wx Wh b dh t
          (rnn_prev D Hh x h0 Wx Wh b dh (t + 1) carry)).dWh j k
        + ∑ n ∈ Finset.range N, rnnh D Hh x h0 Wx Wh b t n j
            * rnn_dHm D Hh x h0 Wx Wh b dh (t + 1) carry n k := rfl

theorem rnn_bwd_succ_db (N D Hh : ℕ) (x : ℕ → ℕ → ℕ → ℝ)
    (h0 Wx Wh : ℕ → ℕ → ℝ) (b : ℕ → ℝ) (dh : ℕ → ℕ → ℕ → ℝ) (t : ℕ)
    (carry : ℕ → ℕ → ℝ) (k : ℕ) :
    (rnn_bwd N D Hh x h0 Wx Wh b dh (t + 1) carry).db k
      = (rnn_bwd N D Hh x h0 Wx Wh b dh t
          (rnn_prev D Hh x h0 Wx Wh b dh (t + 1) carry)).db k
        + ∑ n ∈ Finset.range N,
            rnn_dHm D Hh x h0 Wx Wh b dh (t + 1) carry n k := rfl

theorem rnn_dHm_shift (D Hh : ℕ) (x : ℕ → ℕ → ℕ → ℝ) (h0 Wx Wh : ℕ → ℕ → ℝ)
    (b : ℕ → ℝ) (dh : ℕ → ℕ → ℕ → ℝ) (t : ℕ) (carry : ℕ → ℕ → ℝ) :
    rnn_dHm D Hh (fun s => x (s + 1)) (rnn_step_forward D Hh (x 0) h0 Wx Wh b)
        Wx Wh b (fun s => dh (s + 1)) t carry
      = rnn_dHm D Hh x h0 Wx Wh b dh (t + 1) carry := by
  funext n k
  simp [rnn_dHm, rnnh_shift]

theorem rnn_prev_shift (D Hh : ℕ) (x : ℕ → ℕ → ℕ → ℝ) (h0 Wx Wh : ℕ → ℕ → ℝ)
    (b : ℕ → ℝ) (dh : ℕ → ℕ → ℕ → ℝ) (t : ℕ) (carry : ℕ → ℕ → ℝ) :
    rnn_prev D Hh (fun s => x (s + 1)) (rnn_step_forward D Hh (x 0) h0 Wx Wh b)
        Wx Wh b (fun s => dh (s + 1)) t carry
      = rnn_prev D Hh x h0 Wx Wh b dh (t + 1) carry := by
  funext n j
  simp [rnn_prev, rnn_dHm_shift]

/-- Dropping the first timestep in the backward sweep: running the sweep from
timestep `t + 1` equals running the shifted sweep from `t` and then processing
the original timestep `0` with the shifted sweep final carry. -/
theorem rnn_bwd_shift (N D Hh : ℕ) (x : ℕ → ℕ → ℕ → ℝ)
    (h0 Wx Wh : ℕ → ℕ → ℝ) (b : ℕ → ℝ) (dh : ℕ → ℕ → ℕ → ℝ) :
    ∀ (t : ℕ) (carry : ℕ → ℕ → ℝ),
    (∀ s n d, (rnn_bwd N D Hh x h0 Wx Wh b dh (t + 1) carry).dx (s + 1) n d
      = (rnn_bwd N D Hh (fun s => x (s + 1))
          (rnn_step_forward D Hh (x 0) h0 Wx Wh b) Wx Wh b
          (fun s => dh (s + 1)) t carry).dx s n d)
    ∧ (∀ n d, (rnn_bwd N D Hh x h0 Wx Wh b dh (t + 1) carry).dx 0 n d
      = ∑ k ∈ Finset.range Hh,
          rnn_dHm D Hh x h0 Wx Wh b dh 0
            ((rnn_bwd N D Hh (fun s => x (s + 1))
              (rnn_step_forward D Hh (x 0) h0 Wx Wh b) Wx Wh b
              (fun s => dh (s + 1)) t carry).dh0) n k * Wx d k)
    ∧ ((rnn_bwd N D Hh x h0 Wx Wh b dh (t + 1) carry).dh0
      = rnn_prev D Hh x h0 Wx Wh b dh 0
          ((rnn_bwd N D Hh (fun s => x (s + 1))
            (rnn_step_forward D Hh (x 0) h0 Wx Wh b) Wx Wh b
            (fun s => dh (s + 1)) t carry).dh0))
    ∧ (∀ d k, (rnn_bwd N D Hh x h0 Wx Wh b dh (t + 1) carry).dWx d k
      = (rnn_bwd N D Hh (fun s => x (s + 1))
          (rnn_step_forward D Hh (x 0) h0 Wx Wh b) Wx Wh b
          (fun s => dh (s + 1)) t carry).dWx d k
        + ∑ n ∈ Finset.range N, x 0 n d
          * rnn_dHm D Hh x h0 Wx Wh b dh 0
            ((rnn_bwd N D Hh (fun s => x (s + 1))
              (rnn_step_forward D Hh (x 0) h0 Wx Wh b) Wx Wh b
              (fun s => dh (s + 1)) t carry).dh0) n k)
    ∧ (∀ j k, (rnn_bwd N D Hh x h0 Wx Wh b dh (t + 1) carry).dWh j k
      = (rnn_bwd N D Hh (fun s => x (s + 1))
          (rnn_step_forward D Hh (x 0) h0 Wx Wh b) Wx Wh b
          (fun s => dh (s + 1)) t carry).dWh j k
        + ∑ n ∈ Finset.range N, h0 n j
          * rnn_dHm D Hh x h0 Wx Wh b dh 0
            ((rnn_bwd N D Hh (fun s => x (s + 1))
              (rnn_step_forward D Hh (x 0) h0 Wx Wh b) Wx Wh b
              (fun s => dh (s + 1)) t carry).dh0) n k)
    ∧ (∀ k, (rnn_bwd N D Hh x h0 Wx Wh b dh (t + 1) carry).db k
      = (rnn_bwd N D Hh (fun s => x (s + 1))
          (rnn_step_forward D Hh (x 0) h0 Wx Wh b) Wx Wh b
          (fun s => dh (s + 1)) t carry).db k
        + ∑ n ∈ Finset.range N,
          rnn_dHm D Hh x h0 Wx Wh b dh 0
            ((rnn_bwd N D Hh (fun s => x (s + 1))
              (rnn_step_forward D Hh (x 0) h0 Wx Wh b) Wx Wh b
              (fun s => dh (s + 1)) t carry).dh0) n k) := by
  intro t
  induction t with
  | zero =>
    intro carry
    refine ⟨?_, ?_, ?_, ?_, ?_, ?_⟩
    · intro s n d
      by_cases hs : s = 0
      · subst hs
        rw [rnn_bwd_succ_dx, if_pos rfl, rnn_bwd_zero_dx, if_pos rfl,
          rnn_dHm_shift]
      · rw [rnn_bwd_succ_dx, if_neg (by omega), rnn_bwd_zero_dx,
          if_neg (by omega), rnn_bwd_zero_dx, if_neg hs]
    · intro n d
      rw [rnn_bwd_succ_dx, if_neg (by omega), rnn_bwd_zero_dx, if_pos rfl,
        rnn_bwd_zero_dh0, rnn_prev_shift]
    · rw [rnn_bwd_succ_dh0, rnn_bwd_zero_dh0, rnn_bwd_zero_dh0, rnn_prev_shift]
    · intro d k
      rw [rnn_bwd_succ_dWx, rnn_bwd_zero_dWx, rnn_bwd_zero_dWx,
        rnn_bwd_zero_dh0, rnn_prev_shift, rnn_dHm_shift]
      ring
    · intro j k
      rw [rnn_bwd_succ_dWh, rnn_bwd_zero_dWh, rnn_bwd_zero_dWh,
        rnn_bwd_zero_dh0, rnn_prev_shift, rnn_dHm_shift]
      have h0eq : rnn_step_forward D Hh (x 0) h0 Wx Wh b
          = rnnh D Hh x h0 Wx Wh b 0 := rfl
      rw [h0eq]
      ring
    · intro k
      rw [rnn_bwd_succ_db, rnn_bwd_zero_db, rnn_bwd_zero_db,
        rnn_bwd_zero_dh0, rnn_prev_shift, rnn_dHm_shift]
      ring
  | succ t ih =>
    intro carry
    have hprev := rnn_prev_shift D Hh x h0 Wx Wh b dh (t + 1) carry
    have hdHm := rnn_dHm_shift D Hh x h0 Wx Wh b dh (t + 1) carry
    refine ⟨?_, ?_, ?_, ?_, ?_, ?_⟩
    · intro s n d
      by_cases hs : s = t + 1
      · subst hs
        rw [rnn_bwd_succ_dx, if_pos rfl, rnn_bwd_succ_dx, if_pos rfl, hdHm]
      · conv_lhs => rw [rnn_bwd_succ_dx]
        rw [if_neg (show ¬ (s + 1 = t + 1 + 1) by omega)]
        conv_rhs => rw [rnn_bwd_succ_dx]
        rw [if_neg hs, hprev]
        exact (ih _).1 s n d
    · intro n d
      rw [rnn_bwd_succ_dx, if_neg (by omega), (ih _).2.1 n d,
        rnn_bwd_succ_dh0, hprev]
    · rw [rnn_bwd_succ_dh0, (ih _).2.2.1, rnn_bwd_succ_dh0, hprev]
    · intro d k
      rw [rnn_bwd_succ_dWx, (ih _).2.2.2.1 d k, rnn_bwd_succ_dWx, hprev, hdHm,
        rnn_bwd_succ_dh0, hprev]
      ring
    · intro j k
      rw [rnn_bwd_succ_dWh, (ih _).2.2.2.2.1 j k, rnn_bwd_succ_dWh, hprev, hdHm,
        rnn_bwd_succ_dh0, hprev, rnnh_shift]
      ring
    · intro k
      rw [rnn_bwd_succ_db, (ih _).2.2.2.2.2 k, rnn_bwd_succ_db, hprev, hdHm,
        rnn_bwd_succ_dh0, hprev]
      ring

/-- Reassembly of one timestep of backpropagated signal: pairing the
per-entry signal `C` with the step sensitivity splits into the five
per-input gradient groups produced by `rnn_step_backward`. -/
theorem rnn_bottom_algebra (N D Hh : ℕ) (C : ℕ → ℕ → ℝ)
    (x0 h0 Wx Wh X0' H0' WX' WH' : ℕ → ℕ → ℝ) (B' : ℕ → ℝ) :
    ∑ n ∈ Finset.range N, ∑ k ∈ Finset.range Hh, C n k *
      ((∑ d ∈ Finset.range D, (X0' n d * Wx d k + x0 n d * WX' d k))
        + (∑ j ∈ Finset.range Hh, (H0' n j * Wh j k + h0 n j * WH' j k))
        + B' k)
    = (∑ n ∈ Finset.range N, ∑ d ∈ Finset.range D,
        (∑ k ∈ Finset.range Hh, C n k * Wx d k) * X0' n d)
      + (∑ n ∈ Finset.range N, ∑ j ∈ Finset.range Hh,
          (∑ k ∈ Finset.range Hh, C n k * Wh j k) * H0' n j)
      + (∑ d ∈ Finset.range D, ∑ k ∈ Finset.range Hh,
          (∑ n ∈ Finset.range N, x0 n d * C n k) * WX' d k)
      + (∑ j ∈ Finset.range Hh, ∑ k ∈ Finset.range Hh,
          (∑ n ∈ Finset.range N, h0 n j * C n k) * WH' j k)
      + (∑ k ∈ Finset.range Hh, (∑ n ∈ Finset.range N, C n k) * B' k) := by
  have hL : (∑ n ∈ Finset.range N, ∑ k ∈ Finset.range Hh, C n k *
      ((∑ d ∈ Finset.range D, (X0' n d * Wx d k + x0 n d * WX' d k))
        + (∑ j ∈ Finset.range Hh, (H0' n j * Wh j k + h0 n j * WH' j k))
        + B' k))
    = (∑ n ∈ Finset.range N, ∑ k ∈ Finset.range Hh, ∑ d ∈ Finset.range D,
        C n k * (X0' n d * Wx d k))
      + (∑ n ∈ Finset.range N, ∑ k ∈ Finset.range Hh, ∑ j ∈ Finset.range Hh,
          C n k * (H0' n j * Wh j k))
      + (∑ n ∈ Finset.range N, ∑ k ∈ Finset.range Hh, ∑ d ∈ Finset.range D,
          C n k * (x0 n d * WX' d k))
      + (∑ n ∈ Finset.range N, ∑ k ∈ Finset.range Hh, ∑ j ∈ Finset.range Hh,
          C n k * (h0 n j * WH' j k))
      + (∑ n ∈ Finset.range N, ∑ k ∈ Finset.range Hh, C n k * B' k) := by
    simp only [mul_add, Finset.mul_sum, Finset.sum_add_distrib]
    ring
  have e1 : (∑ n ∈ Finset.range N, ∑ k ∈ Finset.range Hh, ∑ d ∈ Finset.range D,
      C n k * (X0' n d * Wx d k))
    = ∑ n ∈ Finset.range N, ∑ d ∈ Finset.range D,
        (∑ k ∈ Finset.range Hh, C n k * Wx d k) * X0' n d := by
    refine Finset.sum_congr rfl fun n _ => ?_
    rw [Finset.sum_comm]
    refine Finset.sum_congr rfl fun d _ => ?_
    rw [Finset.sum_mul]
    exact Finset.sum_congr rfl fun k _ => by ring
  have e2 : (∑ n ∈ Finset.range N, ∑ k ∈ Finset.range Hh, ∑ j ∈ Finset.range Hh,
      C n k * (H0' n j * Wh j k))
    = ∑ n ∈ Finset.range N, ∑ j ∈ Finset.range Hh,
        (∑ k ∈ Finset.range Hh, C n k * Wh j k) * H0' n j := by
    refine Finset.sum_congr rfl fun n _ => ?_
    rw [Finset.sum_comm]
    refine Finset.sum_congr rfl fun j _ => ?_
    rw [Finset.sum_mul]
    exact Finset.sum_congr rfl fun k _ => by ring
  have e3 : (∑ n ∈ Finset.range N, ∑ k ∈ Finset.range Hh, ∑ d ∈ Finset.range D,
      C n k * (x0 n d * WX' d k))
    = ∑ d ∈ Finset.range D, ∑ k ∈ Finset.range Hh,
        (∑ n ∈ Finset.range N, x0 n d * C n k) * WX' d k := by
    rw [show (∑ n ∈ Finset.range N, ∑ k ∈ Finset.range Hh,
        ∑ d ∈ Finset.range D, C n k * (x0 n d * WX' d k))
      = ∑ n ∈ Finset.range N, ∑ d ∈ Finset.range D,
          ∑ k ∈ Finset.range Hh, C n k * (x0 n d * WX' d k)
      from Finset.sum_congr rfl fun n _ => Finset.sum_comm]
    rw [Finset.sum_comm]
    refine Finset.sum_congr rfl fun d _ => ?_
    rw [Finset.sum_comm]
    refine Finset.sum_congr rfl fun k _ => ?_
    rw [Finset.sum_mul]
    exact Finset.sum_congr rfl fun n _ => by ring
  have e4 : (∑ n ∈ Finset.range N, ∑ k ∈ Finset.range Hh, ∑ j ∈ Finset.range Hh,
      C n k * (h0 n j * WH' j k))
    = ∑ j ∈ Finset.range Hh, ∑ k ∈ Finset.range Hh,
        (∑ n ∈ Finset.range N, h0 n j * C n k) * WH' j k := by
    rw [show (∑ n ∈ Finset.range N, ∑ k ∈ Finset.range Hh,
        ∑ j ∈ Finset.range Hh, C n k * (h0 n j * WH' j k))
      = ∑ n ∈ Finset.range N, ∑ j ∈ Finset.range Hh,
          ∑ k ∈ Finset.range Hh, C n k * (h0 n j * WH' j k)
      from Finset.sum_congr rfl fun n _ => Finset.sum_comm]
    rw [Finset.sum_comm]
    refine Finset.sum_congr rfl fun j _ => ?_
    rw [Finset.sum_comm]
    refine Finset.sum_congr rfl fun k _ => ?_
    rw [Finset.sum_mul]
    exact Finset.sum_congr rfl fun n _ => by ring
  have e5 : (∑ n ∈ Finset.range N, ∑ k ∈ Finset.range Hh, C n k * B' k)
    = ∑ k ∈ Finset.range Hh, (∑ n ∈ Finset.range N, C n k) * B' k := by
    rw [Finset.sum_comm]
    exact Finset.sum_congr rfl fun k _ => by rw [Finset.sum_mul]
  rw [hL, e1, e2, e3, e4, e5]

/-- Derivative of a weighted sum of one RNN step output along curves of all
five inputs. -/
theorem rnn_bottom_hasDeriv (N D Hh : ℕ) (Xc Hc WXc WHc : ℝ → ℕ → ℕ → ℝ)
    (Bc : ℝ → ℕ → ℝ) (X' H' WX' WH' : ℕ → ℕ → ℝ) (B' : ℕ → ℝ) (c : ℕ → ℕ → ℝ)
    (hX : ∀ n d, HasDerivAt (fun ε => Xc ε n d) (X' n d) 0)
    (hH : ∀ n j, HasDerivAt (fun ε => Hc ε n j) (H' n j) 0)
    (hWX : ∀ d k, HasDerivAt (fun ε => WXc ε d k) (WX' d k) 0)
    (hWH : ∀ j k, HasDerivAt (fun ε => WHc ε j k) (WH' j k) 0)
    (hB : ∀ k, HasDerivAt (fun ε => Bc ε k) (B' k) 0) :
    HasDerivAt
      (fun ε => ∑ n ∈ Finset.range N, ∑ k ∈ Finset.range Hh, c n k
        * rnn_step_forward D Hh (Xc ε) (Hc ε) (WXc ε) (WHc ε) (Bc ε) n k)
      (∑ n ∈ Finset.range N, ∑ k ∈ Finset.range Hh, c n k
        * ((1 - rnn_step_forward D Hh (Xc 0) (Hc 0) (WXc 0) (WHc 0) (Bc 0) n k
              ^ 2)
          * ((∑ d ∈ Finset.range D, (X' n d * WXc 0 d k + Xc 0 n d * WX' d k))
            + (∑ j ∈ Finset.range Hh,
                (H' n j * WHc 0 j k + Hc 0 n j * WH' j k))
            + B' k))) 0 := by
  refine HasDerivAt.sum fun n _ => ?_
  refine HasDerivAt.sum fun k _ => ?_
  exact (rnn_step_hasDeriv D Hh Xc Hc WXc WHc Bc X' H' WX' WH' B'
    hX hH hWX hWH hB n k).const_mul (c n k)

set_option maxHeartbeats 1600000 in
/-- Master sensitivity theorem for the RNN: along coordinatewise
differentiable curves of all inputs, the derivative of the upstream-weighted
loss over `T0 + 1` timesteps is assembled from the five outputs of the
backward sweep `rnn_bwd` started at timestep `T0` with a zero carry. -/
theorem rnn_master (N D Hh : ℕ) (WXc WHc : ℝ → ℕ → ℕ → ℝ) (Bc : ℝ → ℕ → ℝ)
    (WX' WH' : ℕ → ℕ → ℝ) (B' : ℕ → ℝ)
    (hWX : ∀ d k, HasDerivAt (fun ε => WXc ε d k) (WX' d k) 0)
    (hWH : ∀ j k, HasDerivAt (fun ε => WHc ε j k) (WH' j k) 0)
    (hB : ∀ k, HasDerivAt (fun ε => Bc ε k) (B' k) 0) :
    ∀ (T0 : ℕ) (X : ℕ → ℝ → ℕ → ℕ → ℝ) (H0c : ℝ → ℕ → ℕ → ℝ)
      (X' : ℕ → ℕ → ℕ → ℝ) (H0' : ℕ → ℕ → ℝ) (dh : ℕ → ℕ → ℕ → ℝ),
      (∀ t n d, HasDerivAt (fun ε => X t ε n d) (X' t n d) 0) →
      (∀ n j, HasDerivAt (fun ε => H0c ε n j) (H0' n j) 0) →
      HasDerivAt
        (fun ε => ∑ t ∈ Finset.range (T0 + 1), ∑ n ∈ Finset.range N,
          ∑ k ∈ Finset.range Hh, dh t n k
            * rnnh D Hh (fun s => X s ε) (H0c ε) (WXc ε) (WHc ε) (Bc ε) t n k)
        ((∑ t ∈ Finset.range (T0 + 1), ∑ n ∈ Finset.range N,
            ∑ d ∈ Finset.range D,
            (rnn_bwd N D Hh (fun s => X s 0) (H0c 0) (WXc 0) (WHc 0) (Bc 0) dh
              T0 (fun _ _ => 0)).dx t n d * X' t n d)
          + (∑ n ∈ Finset.range N, ∑ j ∈ Finset.range Hh,
              (rnn_bwd N D Hh (fun s => X s 0) (H0c 0) (WXc 0) (WHc 0) (Bc 0)
                dh T0 (fun _ _ => 0)).dh0 n j * H0' n j)
          + (∑ d ∈ Finset.range D, ∑ k ∈ Finset.range Hh,
              (rnn_bwd N D Hh (fun s => X s 0) (H0c 0) (WXc 0) (WHc 0) (Bc 0)
                dh T0 (fun _ _ => 0)).dWx d k * WX' d k)
          + (∑ j ∈ Finset.range Hh, ∑ k ∈ Finset.range Hh,
              (rnn_bwd N D Hh (fun s => X s 0) (H0c 0) (WXc 0) (WHc 0) (Bc 0)
                dh T0 (fun _ _ => 0)).dWh j k * WH' j k)
          + (∑ k ∈ Finset.range Hh,
              (rnn_bwd N D Hh (fun s => X s 0) (H0c 0) (WXc 0) (WHc 0) (Bc 0)
                dh T0 (fun _ _ => 0)).db k * B' k)) 0 := by
  intro T0
  induction T0 with
  | zero =>
    intro X H0c X' H0' dh hX hH
    have hb : HasDerivAt
        (fun ε => ∑ n ∈ Finset.range N, ∑ k ∈ Finset.range Hh, dh 0 n k
          * rnn_step_forward D Hh (X 0 ε) (H0c ε) (WXc ε) (WHc ε) (Bc ε) n k)
        (∑ n ∈ Finset.range N, ∑ k ∈ Finset.range Hh, dh 0 n k
          * ((1 - rnn_step_forward D Hh (X 0 0) (H0c 0) (WXc 0) (WHc 0) (Bc 0)
                n k ^ 2)
            * ((∑ d ∈ Finset.range D,
                  (X' 0 n d * WXc 0 d k + X 0 0 n d * WX' d k))
              + (∑ j ∈ Finset.range Hh,
                  (H0' n j * WHc 0 j k + H0c 0 n j * WH' j k))
              + B' k))) 0 :=
      rnn_bottom_hasDeriv N D Hh (fun ε => X 0 ε) H0c WXc WHc Bc (X' 0) H0'
        WX' WH' B' (dh 0) (fun n d => hX 0 n d) hH hWX hWH hB
    have hfun : (fun ε => ∑ t ∈ Finset.range (0 + 1), ∑ n ∈ Finset.range N,
        ∑ k ∈ Finset.range Hh, dh t n k
          * rnnh D Hh (fun s => X s ε) (H0c ε) (WXc ε) (WHc ε) (Bc ε) t n k)
      = (fun ε => ∑ n ∈ Finset.range N, ∑ k ∈ Finset.range Hh, dh 0 n k
          * rnn_step_forward D Hh (X 0 ε) (H0c ε) (WXc ε) (WHc ε) (Bc ε)
              n k) := by
      funext ε
      rw [Finset.sum_range_succ, Finset.sum_range_zero, zero_add]
      rfl
    rw [hfun]
    refine HasDerivAt.congr_deriv hb ?_
    have h1 : (∑ n ∈ Finset.range N, ∑ k ∈ Finset.range Hh, dh 0 n k
        * ((1 - rnn_step_forward D Hh (X 0 0) (H0c 0) (WXc 0) (WHc 0) (Bc 0)
              n k ^ 2)
          * ((∑ d ∈ Finset.range D,
                (X' 0 n d * WXc 0 d k + X 0 0 n d * WX' d k))
            + (∑ j ∈ Finset.range Hh,
                (H0' n j * WHc 0 j k + H0c 0 n j * WH' j k))
            + B' k)))
      = ∑ n ∈ Finset.range N, ∑ k ∈ Finset.range Hh,
          rnn_dHm D Hh (fun s => X s 0) (H0c 0) (WXc 0) (WHc 0) (Bc 0) dh 0
            (fun _ _ => 0) n k
          * ((∑ d ∈ Finset.range D,
                (X' 0 n d * WXc 0 d k + X 0 0 n d * WX' d k))
            + (∑ j ∈ Finset.range Hh,
                (H0' n j * WHc 0 j k + H0c 0 n j * WH' j k))
            + B' k) := by
      refine Finset.sum_congr rfl fun n _ => Finset.sum_congr rfl fun k _ => ?_
      simp only [rnn_dHm, rnnh]
      ring
    have halg := rnn_bottom_algebra N D Hh
      (rnn_dHm D Hh (fun s => X s 0) (H0c 0) (WXc 0) (WHc 0) (Bc 0) dh 0
        (fun _ _ => 0))
      (X 0 0) (H0c 0) (WXc 0) (WHc 0) (X' 0) H0' WX' WH' B'
    rw [Finset.sum_range_succ, Finset.sum_range_zero, zero_add]
    simp only [rnn_bwd_zero_dx, rnn_bwd_zero_dh0, rnn_bwd_zero_dWx,
      rnn_bwd_zero_dWh, rnn_bwd_zero_db, rnn_prev, eq_self_iff_true, if_true]
    linear_combination h1.trans halg
  | succ T0 ih =>
    intro X H0c X' H0' dh hX hH
    have hH0s : ∀ n j, HasDerivAt
        (fun ε => rnn_step_forward D Hh (X 0 ε) (H0c ε) (WXc ε) (WHc ε) (Bc ε)
          n j)
        ((1 - rnn_step_forward D Hh (X 0 0) (H0c 0) (WXc 0) (WHc 0) (Bc 0)
            n j ^ 2)
          * ((∑ d ∈ Finset.range D,
                (X' 0 n d * WXc 0 d j + X 0 0 n d * WX' d j))
            + (∑ i ∈ Finset.range Hh,
                (H0' n i * WHc 0 i j + H0c 0 n i * WH' i j))
            + B' j)) 0 :=
      fun n j => rnn_step_hasDeriv D Hh (fun ε => X 0 ε) H0c WXc WHc Bc (X' 0)
        H0' WX' WH' B' (fun n d => hX 0 n d) hH hWX hWH hB n j
    have hIH : HasDerivAt
        (fun ε => ∑ t ∈ Finset.range (T0 + 1), ∑ n ∈ Finset.range N,
          ∑ k ∈ Finset.range Hh, dh (t + 1) n k
            * rnnh D Hh (fun s => X (s + 1) ε)
                (rnn_step_forward D Hh (X 0 ε) (H0c ε) (WXc ε) (WHc ε) (Bc ε))
                (WXc ε) (WHc ε) (Bc ε) t n k)
        ((∑ t ∈ Finset.range (T0 + 1), ∑ n ∈ Finset.range N,
            ∑ d ∈ Finset.range D,
            (rnn_bwd N D Hh (fun s => X (s + 1) 0)
              (rnn_step_forward D Hh (X 0 0) (H0c 0) (WXc 0) (WHc 0) (Bc 0))
              (WXc 0) (WHc 0) (Bc 0) (fun s => dh (s + 1)) T0
              (fun _ _ => 0)).dx t n d * X' (t + 1) n d)
          + (∑ n ∈ Finset.range N, ∑ j ∈ Finset.range Hh,
              (rnn_bwd N D Hh (fun s => X (s + 1) 0)
                (rnn_step_forward D Hh (X 0 0) (H0c 0) (WXc 0) (WHc 0) (Bc 0))
                (WXc 0) (WHc 0) (Bc 0) (fun s => dh (s + 1)) T0
                (fun _ _ => 0)).dh0 n j
              * ((1 - rnn_step_forward D Hh (X 0 0) (H0c 0) (WXc 0) (WHc 0)
                    (Bc 0) n j ^ 2)
                * ((∑ d ∈ Finset.range D,
                      (X' 0 n d * WXc 0 d j + X 0 0 n d * WX' d j))
                  + (∑ i ∈ Finset.range Hh,
                      (H0' n i * WHc 0 i j + H0c 0 n i * WH' i j))
                  + B' j)))
          + (∑ d ∈ Finset.range D, ∑ k ∈ Finset.range Hh,
              (rnn_bwd N D Hh (fun s => X (s + 1) 0)
                (rnn_step_forward D Hh (X 0 0) (H0c 0) (WXc 0) (WHc 0) (Bc 0))
                (WXc 0) (WHc 0) (Bc 0) (fun s => dh (s + 1)) T0
                (fun _ _ => 0)).dWx d k * WX' d k)
          + (∑ j ∈ Finset.range Hh, ∑ k ∈ Finset.range Hh,
              (rnn_bwd N D Hh (fun s => X (s + 1) 0)
                (rnn_step_forward D Hh (X 0 0) (H0c 0) (WXc 0) (WHc 0) (Bc 0))
                (WXc 0) (WHc 0) (Bc 0) (fun s => dh (s + 1)) T0
                (fun _ _ => 0)).dWh j k * WH' j k)
          + (∑ k ∈ Finset.range Hh,
              (rnn_bwd N D Hh (fun s => X (s + 1) 0)
                (rnn_step_forward D Hh (X 0 0) (H0c 0) (WXc 0) (WHc 0) (Bc 0))
                (WXc 0) (WHc 0) (Bc 0) (fun s => dh (s + 1)) T0
                (fun _ _ => 0)).db k * B' k)) 0 :=
      ih (fun s => X (s + 1))
        (fun ε => rnn_step_forward D Hh (X 0 ε) (H0c ε) (WXc ε) (WHc ε) (Bc ε))
        (fun t => X' (t + 1))
        (fun n j => (1 - rnn_step_forward D Hh (X 0 0) (H0c 0) (WXc 0) (WHc 0)
            (Bc 0) n j ^ 2)
          * ((∑ d ∈ Finset.range D,
                (X' 0 n d * WXc 0 d j + X 0 0 n d * WX' d j))
            + (∑ i ∈ Finset.range Hh,
                (H0' n i * WHc 0 i j + H0c 0 n i * WH' i j))
            + B' j))
        (fun s => dh (s + 1)) (fun t n d => hX (t + 1) n d) hH0s
    have hb : HasDerivAt
        (fun ε => ∑ n ∈ Finset.range N, ∑ k ∈ Finset.range Hh, dh 0 n k
          * rnn_step_forward D Hh (X 0 ε) (H0c ε) (WXc ε) (WHc ε) (Bc ε) n k)
        (∑ n ∈ Finset.range N, ∑ k ∈ Finset.range Hh, dh 0 n k
          * ((1 - rnn_step_forward D Hh (X 0 0) (H0c 0) (WXc 0) (WHc 0) (Bc 0)
                n k ^ 2)
            * ((∑ d ∈ Finset.range D,
                  (X' 0 n d * WXc 0 d k + X 0 0 n d * WX' d k))
              + (∑ j ∈ Finset.range Hh,
                  (H0' n j * WHc 0 j k + H0c 0 n j * WH' j k))
              + B' k))) 0 :=
      rnn_bottom_hasDeriv N D Hh (fun ε => X 0 ε) H0c WXc WHc Bc (X' 0) H0'
        WX' WH' B' (dh 0) (fun n d => hX 0 n d) hH hWX hWH hB
    have hsplit : (fun ε => ∑ t ∈ Finset.range (T0 + 1 + 1),
        ∑ n ∈ Finset.range N, ∑ k ∈ Finset.range Hh, dh t n k
          * rnnh D Hh (fun s => X s ε) (H0c ε) (WXc ε) (WHc ε) (Bc ε) t n k)
      = (fun ε => (∑ t ∈ Finset.range (T0 + 1), ∑ n ∈ Finset.range N,
          ∑ k ∈ Finset.range Hh, dh (t + 1) n k
            * rnnh D Hh (fun s => X (s + 1) ε)
                (rnn_step_forward D Hh (X 0 ε) (H0c ε) (WXc ε) (WHc ε) (Bc ε))
                (WXc ε) (WHc ε) (Bc ε) t n k)
        + ∑ n ∈ Finset.range N, ∑ k ∈ Finset.range Hh, dh 0 n k
            * rnn_step_forward D Hh (X 0 ε) (H0c ε) (WXc ε) (WHc ε) (Bc ε)
                n k) := by
      funext ε
      rw [Finset.sum_range_succ']
      congr 1
      · refine Finset.sum_congr rfl fun t _ => Finset.sum_congr rfl
          fun n _ => Finset.sum_congr rfl fun k _ => ?_
        rw [← rnnh_shift D Hh (fun s => X s ε) (H0c ε) (WXc ε) (WHc ε) (Bc ε)
          t]
    have hshift : (∀ s n d,
        (rnn_bwd N D Hh (fun s => X s 0) (H0c 0) (WXc 0) (WHc 0) (Bc 0) dh
          (T0 + 1) (fun _ _ => 0)).dx (s + 1) n d
        = (rnn_bwd N D Hh (fun s => X (s + 1) 0)
            (rnn_step_forward D Hh (X 0 0) (H0c 0) (WXc 0) (WHc 0) (Bc 0))
            (WXc 0) (WHc 0) (Bc 0) (fun s => dh (s + 1)) T0
            (fun _ _ => 0)).dx s n d)
      ∧ (∀ n d,
        (rnn_bwd N D Hh (fun s => X s 0) (H0c 0) (WXc 0) (WHc 0) (Bc 0) dh
          (T0 + 1) (fun _ _ => 0)).dx 0 n d
        = ∑ k ∈ Finset.range Hh,
            rnn_dHm D Hh (fun s => X s 0) (H0c 0) (WXc 0) (WHc 0) (Bc 0) dh 0
              ((rnn_bwd N D Hh (fun s => X (s + 1) 0)
                (rnn_step_forward D Hh (X 0 0) (H0c 0) (WXc 0) (WHc 0) (Bc 0))
                (WXc 0) (WHc 0) (Bc 0) (fun s => dh (s + 1)) T0
                (fun _ _ => 0)).dh0) n k * WXc 0 d k)
      ∧ ((rnn_bwd N D Hh (fun s => X s 0) (H0c 0) (WXc 0) (WHc 0) (Bc 0) dh
          (T0 + 1) (fun _ _ => 0)).dh0
        = rnn_prev D Hh (fun s => X s 0) (H0c 0) (WXc 0) (WHc 0) (Bc 0) dh 0
            ((rnn_bwd N D Hh (fun s => X (s + 1) 0)
              (rnn_step_forward D Hh (X 0 0) (H0c 0) (WXc 0) (WHc 0) (Bc 0))
              (WXc 0) (WHc 0) (Bc 0) (fun s => dh (s + 1)) T0
              (fun _ _ => 0)).dh0))
      ∧ (∀ d k,
        (rnn_bwd N D Hh (fun s => X s 0) (H0c 0) (WXc 0) (WHc 0) (Bc 0) dh
          (T0 + 1) (fun _ _ => 0)).dWx d k
        = (rnn_bwd N D Hh (fun s => X (s + 1) 0)
            (rnn_step_forward D Hh (X 0 0) (H0c 0) (WXc 0) (WHc 0) (Bc 0))
            (WXc 0) (WHc 0) (Bc 0) (fun s => dh (s + 1)) T0
            (fun _ _ => 0)).dWx d k
          + ∑ n ∈ Finset.range N, X 0 0 n d
            * rnn_dHm D Hh (fun s => X s 0) (H0c 0) (WXc 0) (WHc 0) (Bc 0) dh
              0 ((rnn_bwd N D Hh (fun s => X (s + 1) 0)
                (rnn_step_forward D Hh (X 0 0) (H0c 0) (WXc 0) (WHc 0) (Bc 0))
                (WXc 0) (WHc 0) (Bc 0) (fun s => dh (s + 1)) T0
                (fun _ _ => 0)).dh0) n k)
      ∧ (∀ j k,
        (rnn_bwd N D Hh (fun s => X s 0) (H0c 0) (WXc 0) (WHc 0) (Bc 0) dh
          (T0 + 1) (fun _ _ => 0)).dWh j k
        = (rnn_bwd N D Hh (fun s => X (s + 1) 0)
            (rnn_step_forward D Hh (X 0 0) (H0c 0) (WXc 0) (WHc 0) (Bc 0))
            (WXc 0) (WHc 0) (Bc 0) (fun s => dh (s + 1)) T0
            (fun _ _ => 0)).dWh j k
          + ∑ n ∈ Finset.range N, H0c 0 n j
            * rnn_dHm D Hh (fun s => X s 0) (H0c 0) (WXc 0) (WHc 0) (Bc 0) dh
              0 ((rnn_bwd N D Hh (fun s => X (s + 1) 0)
                (rnn_step_forward D Hh (X 0 0) (H0c 0) (WXc 0) (WHc 0) (Bc 0))
                (WXc 0) (WHc 0) (Bc 0) (fun s => dh (s + 1)) T0
                (fun _ _ => 0)).dh0) n k)
      ∧ (∀ k,
        (rnn_bwd N D Hh (fun s => X s 0) (H0c 0) (WXc 0) (WHc 0) (Bc 0) dh
          (T0 + 1) (fun _ _ => 0)).db k
        = (rnn_bwd N D Hh (fun s => X (s + 1) 0)
            (rnn_step_forward D Hh (X 0 0) (H0c 0) (WXc 0) (WHc 0) (Bc 0))
            (WXc 0) (WHc 0) (Bc 0) (fun s => dh (s + 1)) T0
            (fun _ _ => 0)).db k
          + ∑ n ∈ Finset.range N,
            rnn_dHm D Hh (fun s => X s 0) (H0c 0) (WXc 0) (WHc 0) (Bc 0) dh 0
              ((rnn_bwd N D Hh (fun s => X (s + 1) 0)
                (rnn_step_forward D Hh (X 0 0) (H0c 0) (WXc 0) (WHc 0) (Bc 0))
                (WXc 0) (WHc 0) (Bc 0) (fun s => dh (s + 1)) T0
                (fun _ _ => 0)).dh0) n k) :=
      rnn_bwd_shift N D Hh (fun s => X s 0) (H0c 0) (WXc 0) (WHc 0) (Bc 0) dh
        T0 (fun _ _ => 0)
    have hdx : (∑ t ∈ Finset.range (T0 + 1 + 1), ∑ n ∈ Finset.range N,
        ∑ d ∈ Finset.range D,
        (rnn_bwd N D Hh (fun s => X s 0) (H0c 0) (WXc 0) (WHc 0) (Bc 0) dh
          (T0 + 1) (fun _ _ => 0)).dx t n d * X' t n d)
      = (∑ t ∈ Finset.range (T0 + 1), ∑ n ∈ Finset.range N,
          ∑ d ∈ Finset.range D,
          (rnn_bwd N D Hh (fun s => X (s + 1) 0)
            (rnn_step_forward D Hh (X 0 0) (H0c 0) (WXc 0) (WHc 0) (Bc 0))
            (WXc 0) (WHc 0) (Bc 0) (fun s => dh (s + 1)) T0
            (fun _ _ => 0)).dx t n d * X' (t + 1) n d)
        + ∑ n ∈ Finset.range N, ∑ d ∈ Finset.range D,
            (∑ k ∈ Finset.range Hh,
              rnn_dHm D Hh (fun s => X s 0) (H0c 0) (WXc 0) (WHc 0) (Bc 0) dh
                0 ((rnn_bwd N D Hh (fun s => X (s + 1) 0)
                  (rnn_step_forward D Hh (X 0 0) (H0c 0) (WXc 0) (WHc 0)
                    (Bc 0)) (WXc 0) (WHc 0) (Bc 0) (fun s => dh (s + 1)) T0
                  (fun _ _ => 0)).dh0) n k * WXc 0 d k) * X' 0 n d := by
      rw [Finset.sum_range_succ']
      congr 1
      · exact Finset.sum_congr rfl fun t _ => Finset.sum_congr rfl fun n _ =>
          Finset.sum_congr rfl fun d _ => by rw [hshift.1 t n d]
      · exact Finset.sum_congr rfl fun n _ => Finset.sum_congr rfl fun d _ =>
          by rw [hshift.2.1 n d]
    have hdh0 : (∑ n ∈ Finset.range N, ∑ j ∈ Finset.range Hh,
        (rnn_bwd N D Hh (fun s => X s 0) (H0c 0) (WXc 0) (WHc 0) (Bc 0) dh
          (T0 + 1) (fun _ _ => 0)).dh0 n j * H0' n j)
      = ∑ n ∈ Finset.range N, ∑ j ∈ Finset.range Hh,
          (∑ k ∈ Finset.range Hh,
            rnn_dHm D Hh (fun s => X s 0) (H0c 0) (WXc 0) (WHc 0) (Bc 0) dh 0
              ((rnn_bwd N D Hh (fun s => X (s + 1) 0)
                (rnn_step_forward D Hh (X 0 0) (H0c 0) (WXc 0) (WHc 0) (Bc 0))
                (WXc 0) (WHc 0) (Bc 0) (fun s => dh (s + 1)) T0
                (fun _ _ => 0)).dh0) n k * WHc 0 j k) * H0' n j := by
      refine Finset.sum_congr rfl fun n _ => Finset.sum_congr rfl fun j _ => ?_
      rw [hshift.2.2.1]
      simp only [rnn_prev]
    have hdWx : (∑ d ∈ Finset.range D, ∑ k ∈ Finset.range Hh,
        (rnn_bwd N D Hh (fun s => X s 0) (H0c 0) (WXc 0) (WHc 0) (Bc 0) dh
          (T0 + 1) (fun _ _ => 0)).dWx d k * WX' d k)
      = (∑ d ∈ Finset.range D, ∑ k ∈ Finset.range Hh,
          (rnn_bwd N D Hh (fun s => X (s + 1) 0)
            (rnn_step_forward D Hh (X 0 0) (H0c 0) (WXc 0) (WHc 0) (Bc 0))
            (WXc 0) (WHc 0) (Bc 0) (fun s => dh (s + 1)) T0
            (fun _ _ => 0)).dWx d k * WX' d k)
        + ∑ d ∈ Finset.range D, ∑ k ∈ Finset.range Hh,
            (∑ n ∈ Finset.range N, X 0 0 n d
              * rnn_dHm D Hh (fun s => X s 0) (H0c 0) (WXc 0) (WHc 0) (Bc 0)
                dh 0 ((rnn_bwd N D Hh (fun s => X (s + 1) 0)
                  (rnn_step_forward D Hh (X 0 0) (H0c 0) (WXc 0) (WHc 0)
                    (Bc 0)) (WXc 0) (WHc 0) (Bc 0) (fun s => dh (s + 1)) T0
                  (fun _ _ => 0)).dh0) n k) * WX' d k := by
      rw [← Finset.sum_add_distrib]
      refine Finset.sum_congr rfl fun d _ => ?_
      rw [← Finset.sum_add_distrib]
      refine Finset.sum_congr rfl fun k _ => ?_
      rw [hshift.2.2.2.1 d k]
      ring
    have hdWh : (∑ j ∈ Finset.range Hh, ∑ k ∈ Finset.range Hh,
        (rnn_bwd N D Hh (fun s => X s 0) (H0c 0) (WXc 0) (WHc 0) (Bc 0) dh
          (T0 + 1) (fun _ _ => 0)).dWh j k * WH' j k)
      = (∑ j ∈ Finset.range Hh, ∑ k ∈ Finset.range Hh,
          (rnn_bwd N D Hh (fun s => X (s + 1) 0)
            (rnn_step_forward D Hh (X 0 0) (H0c 0) (WXc 0) (WHc 0) (Bc 0))
            (WXc 0) (WHc 0) (Bc 0) (fun s => dh (s + 1)) T0
            (fun _ _ => 0)).dWh j k * WH' j k)
        + ∑ j ∈ Finset.range Hh, ∑ k ∈ Finset.range Hh,
            (∑ n ∈ Finset.range N, H0c 0 n j
              * rnn_dHm D Hh (fun s => X s 0) (H0c 0) (WXc 0) (WHc 0) (Bc 0)
                dh 0 ((rnn_bwd N D Hh (fun s => X (s + 1) 0)
                  (rnn_step_forward D Hh (X 0 0) (H0c 0) (WXc 0) (WHc 0)
                    (Bc 0)) (WXc 0) (WHc 0) (Bc 0) (fun s => dh (s + 1)) T0
                  (fun _ _ => 0)).dh0) n k) * WH' j k := by
      rw [← Finset.sum_add_distrib]
      refine Finset.sum_congr rfl fun j _ => ?_
      rw [← Finset.sum_add_distrib]
      refine Finset.sum_congr rfl fun k _ => ?_
      rw [hshift.2.2.2.2.1 j k]
      ring
    have hdb : (∑ k ∈ Finset.range Hh,
        (rnn_bwd N D Hh (fun s => X s 0) (H0c 0) (WXc 0) (WHc 0) (Bc 0) dh
          (T0 + 1) (fun _ _ => 0)).db k * B' k)
      = (∑ k ∈ Finset.range Hh,
          (rnn_bwd N D Hh (fun s => X (s + 1) 0)
            (rnn_step_forward D Hh (X 0 0) (H0c 0) (WXc 0) (WHc 0) (Bc 0))
            (WXc 0) (WHc 0) (Bc 0) (fun s => dh (s + 1)) T0
            (fun _ _ => 0)).db k * B' k)
        + ∑ k ∈ Finset.range Hh,
            (∑ n ∈ Finset.range N,
              rnn_dHm D Hh (fun s => X s 0) (H0c 0) (WXc 0) (WHc 0) (Bc 0) dh
                0 ((rnn_bwd N D Hh (fun s => X (s + 1) 0)
                  (rnn_step_forward D Hh (X 0 0) (H0c 0) (WXc 0) (WHc 0)
                    (Bc 0)) (WXc 0) (WHc 0) (Bc 0) (fun s => dh (s + 1)) T0
                  (fun _ _ => 0)).dh0) n k) * B' k := by
      rw [← Finset.sum_add_distrib]
      refine Finset.sum_congr rfl fun k _ => ?_
      rw [hshift.2.2.2.2.2 k]
      ring
    have hbot : (∑ n ∈ Finset.range N, ∑ j ∈ Finset.range Hh,
        (rnn_bwd N D Hh (fun s => X (s + 1) 0)
          (rnn_step_forward D Hh (X 0 0) (H0c 0) (WXc 0) (WHc 0) (Bc 0))
          (WXc 0) (WHc 0) (Bc 0) (fun s => dh (s + 1)) T0
          (fun _ _ => 0)).dh0 n j
        * ((1 - rnn_step_forward D Hh (X 0 0) (H0c 0) (WXc 0) (WHc 0) (Bc 0)
              n j ^ 2)
          * ((∑ d ∈ Finset.range D,
                (X' 0 n d * WXc 0 d j + X 0 0 n d * WX' d j))
            + (∑ i ∈ Finset.range Hh,
                (H0' n i * WHc 0 i j + H0c 0 n i * WH' i j))
            + B' j)))
      + (∑ n ∈ Finset.range N, ∑ k ∈ Finset.range Hh, dh 0 n k
          * ((1 - rnn_step_forward D Hh (X 0 0) (H0c 0) (WXc 0) (WHc 0) (Bc 0)
                n k ^ 2)
            * ((∑ d ∈ Finset.range D,
                  (X' 0 n d * WXc 0 d k + X 0 0 n d * WX' d k))
              + (∑ j ∈ Finset.range Hh,
                  (H0' n j * WHc 0 j k + H0c 0 n j * WH' j k))
              + B' k)))
      = ∑ n ∈ Finset.range N, ∑ k ∈ Finset.range Hh,
          rnn_dHm D Hh (fun s => X s 0) (H0c 0) (WXc 0) (WHc 0) (Bc 0) dh 0
            ((rnn_bwd N D Hh (fun s => X (s + 1) 0)
              (rnn_step_forward D Hh (X 0 0) (H0c 0) (WXc 0) (WHc 0) (Bc 0))
              (WXc 0) (WHc 0) (Bc 0) (fun s => dh (s + 1)) T0
              (fun _ _ => 0)).dh0) n k
          * ((∑ d ∈ Finset.range D,
                (X' 0 n d * WXc 0 d k + X 0 0 n d * WX' d k))
            + (∑ j ∈ Finset.range Hh,
                (H0' n j * WHc 0 j k + H0c 0 n j * WH' j k))
            + B' k) := by
      rw [← Finset.sum_add_distrib]
      refine Finset.sum_congr rfl fun n _ => ?_
      rw [← Finset.sum_add_distrib]
      refine Finset.sum_congr rfl fun k _ => ?_
      simp only [rnn_dHm, rnnh]
      ring
    have halg := rnn_bottom_algebra N D Hh
      (rnn_dHm D Hh (fun s => X s 0) (H0c 0) (WXc 0) (WHc 0) (Bc 0) dh 0
        ((rnn_bwd N D Hh (fun s => X (s + 1) 0)
          (rnn_step_forward D Hh (X 0 0) (H0c 0) (WXc 0) (WHc 0) (Bc 0))
          (WXc 0) (WHc 0) (Bc 0) (fun s => dh (s + 1)) T0
          (fun _ _ => 0)).dh0))
      (X 0 0) (H0c 0) (WXc 0) (WHc 0) (X' 0) H0' WX' WH' B'
    rw [hsplit]
    refine HasDerivAt.congr_deriv (hIH.add hb) ?_
    rw [hdx, hdh0, hdWx, hdWh, hdb]
    linear_combination hbot.trans halg

/-- Add `ε` to the single entry `(t0, n0, d0)` of a rank-3 array. -/
def upd3 (v : ℕ → ℕ → ℕ → ℝ) (t0 n0 d0 : ℕ) (ε : ℝ) : ℕ → ℕ → ℕ → ℝ :=
  fun t n d => if t = t0 ∧ n = n0 ∧ d = d0 then v t n d + ε else v t n d

theorem upd3_zero (v : ℕ → ℕ → ℕ → ℝ) (t0 n0 d0 : ℕ) :
    upd3 v t0 n0 d0 0 = v := by
  funext t n d; unfold upd3; split <;> simp

/-- Entry-wise derivative of a rank-1 single-entry update. -/
theorem hasDerivAt_upd1 (v : ℕ → ℝ) (i0 i : ℕ) :
    HasDerivAt (fun ε => upd1 v i0 ε i) (if i = i0 then (1 : ℝ) else 0) 0 := by
  by_cases hc : i = i0
  · have hf : (fun ε => upd1 v i0 ε i) = fun ε => v i + ε := by
      funext ε; simp only [upd1]; rw [if_pos hc]
    rw [hf, if_pos hc]
    simpa using (hasDerivAt_id (0 : ℝ)).const_add (v i)
  · have hf : (fun ε => upd1 v i0 ε i) = fun _ => v i := by
      funext ε; simp only [upd1]; rw [if_neg hc]
    rw [hf, if_neg hc]
    exact hasDerivAt_const 0 (v i)

/-- Entry-wise derivative of a rank-2 single-entry update. -/
theorem hasDerivAt_upd2 (v : ℕ → ℕ → ℝ) (i0 j0 i j : ℕ) :
    HasDerivAt (fun ε => upd2 v i0 j0 ε i j)
      (if i = i0 ∧ j = j0 then (1 : ℝ) else 0) 0 := by
  by_cases hc : i = i0 ∧ j = j0
  · have hf : (fun ε => upd2 v i0 j0 ε i j) = fun ε => v i j + ε := by
      funext ε; simp only [upd2]; rw [if_pos hc]
    rw [hf, if_pos hc]
    simpa using (hasDerivAt_id (0 : ℝ)).const_add (v i j)
  · have hf : (fun ε => upd2 v i0 j0 ε i j) = fun _ => v i j := by
      funext ε; simp only [upd2]; rw [if_neg hc]
    rw [hf, if_neg hc]
    exact hasDerivAt_const 0 (v i j)

/-- Entry-wise derivative of a rank-3 single-entry update. -/
theorem hasDerivAt_upd3 (v : ℕ → ℕ → ℕ → ℝ) (t0 n0 d0 t n d : ℕ) :
    HasDerivAt (fun ε => upd3 v t0 n0 d0 ε t n d)
      (if t = t0 ∧ n = n0 ∧ d = d0 then (1 : ℝ) else 0) 0 := by
  by_cases hc : t = t0 ∧ n = n0 ∧ d = d0
  · have hf : (fun ε => upd3 v t0 n0 d0 ε t n d) = fun ε => v t n d + ε := by
      funext ε; simp only [upd3]; rw [if_pos hc]
    rw [hf, if_pos hc]
    simpa using (hasDerivAt_id (0 : ℝ)).const_add (v t n d)
  · have hf : (fun ε => upd3 v t0 n0 d0 ε t n d) = fun _ => v t n d := by
      funext ε; simp only [upd3]; rw [if_neg hc]
    rw [hf, if_neg hc]
    exact hasDerivAt_const 0 (v t n d)

/-- Collapsing a sum against a single-index unit indicator. -/
theorem sum1_mul_ind (K : ℕ) {k0 : ℕ} (hk0 : k0 < K) (f : ℕ → ℝ) :
    ∑ k ∈ Finset.range K, f k * (if k = k0 then (1 : ℝ) else 0) = f k0 := by
  have h : ∀ k, f k * (if k = k0 then (1 : ℝ) else 0)
      = if k = k0 then f k else 0 := by
    intro k
    by_cases hc : k = k0
    · simp [hc]
    · simp [hc]
  rw [Finset.sum_congr rfl fun k _ => h k]
  exact sum_ite_single hk0 f

/-- Collapsing a double sum against a two-index unit indicator. -/
theorem sum2_mul_ind (N H : ℕ) {n0 h0 : ℕ} (hn0 : n0 < N) (hh0 : h0 < H)
    (f : ℕ → ℕ → ℝ) :
    ∑ n ∈ Finset.range N, ∑ h ∈ Finset.range H,
      f n h * (if n = n0 ∧ h = h0 then (1 : ℝ) else 0) = f n0 h0 := by
  have hconv : ∀ n h, f n h * (if n = n0 ∧ h = h0 then (1 : ℝ) else 0)
      = if n = n0 ∧ h = h0 then f n0 h0 else 0 := by
    intro n h
    by_cases hc : n = n0 ∧ h = h0
    · obtain ⟨h1, h2⟩ := hc
      subst h1; subst h2
      simp
    · simp [hc]
  rw [Finset.sum_congr rfl fun n _ => Finset.sum_congr rfl fun h _ =>
    hconv n h]
  exact sum_ite_pair N H hn0 hh0 (f n0 h0)

/-- Collapsing a triple sum against a three-index unit indicator. -/
theorem sum3_mul_ind (T N D : ℕ) {t0 n0 d0 : ℕ} (ht0 : t0 < T) (hn0 : n0 < N)
    (hd0 : d0 < D) (f : ℕ → ℕ → ℕ → ℝ) :
    ∑ t ∈ Finset.range T, ∑ n ∈ Finset.range N, ∑ d ∈ Finset.range D,
      f t n d * (if t = t0 ∧ n = n0 ∧ d = d0 then (1 : ℝ) else 0)
      = f t0 n0 d0 := by
  have h : ∀ t n d, f t n d * (if t = t0 ∧ n = n0 ∧ d = d0 then (1 : ℝ) else 0)
      = if t = t0 ∧ n = n0 ∧ d = d0 then f t0 n0 d0 else 0 := by
    intro t n d
    by_cases hc : t = t0 ∧ n = n0 ∧ d = d0
    · obtain ⟨h1, h2, h3⟩ := hc
      subst h1; subst h2; subst h3
      simp
    · simp [hc]
  rw [Finset.sum_congr rfl fun t _ => Finset.sum_congr rfl fun n _ =>
    Finset.sum_congr rfl fun d _ => h t n d]
  exact sum_ite_triple T N D ht0 hn0 hd0 (f t0 n0 d0)

/-- Hidden-state sequence returned by `rnn_forward`. -/
noncomputable def rnn_forward (D Hh : ℕ) (x : ℕ → ℕ → ℕ → ℝ)
    (h0 Wx Wh : ℕ → ℕ → ℝ) (b : ℕ → ℝ) : ℕ → ℕ → ℕ → ℝ :=
  rnnh D Hh x h0 Wx Wh b

set_option maxHeartbeats 1600000 in
/-- C3: for every input sequence, `rnn_forward` produces the hidden states
satisfying `h[0] = tanh(x[0].Wx + h0.Wh + b)` and
`h[t] = tanh(x[t].Wx + h[t-1].Wh + b)`, and for `T ≥ 1` the sweep
`rnn_backward` returns `dx`, `dh0`, `dWx`, `dWh`, `db` equal to the exact
partial derivatives of the scalar loss `∑ t, dh[t] * h[t]` with respect to
`x`, `h0`, `Wx`, `Wh` and `b` at every in-range coordinate. -/
theorem rnn_forward_backward_correct (N D Hh T : ℕ) (x : ℕ → ℕ → ℕ → ℝ)
    (h0 Wx Wh : ℕ → ℕ → ℝ) (b : ℕ → ℝ) (dh : ℕ → ℕ → ℕ → ℝ) (hT : 1 ≤ T) :
    (∀ n k, rnn_forward D Hh x h0 Wx Wh b 0 n k
      = Real.tanh ((∑ d ∈ Finset.range D, x 0 n d * Wx d k)
        + (∑ j ∈ Finset.range Hh, h0 n j * Wh j k) + b k))
    ∧ (∀ t n k, rnn_forward D Hh x h0 Wx Wh b (t + 1) n k
      = Real.tanh ((∑ d ∈ Finset.range D, x (t + 1) n d * Wx d k)
        + (∑ j ∈ Finset.range Hh,
            rnn_forward D Hh x h0 Wx Wh b t n j * Wh j k) + b k))
    ∧ (∀ t0 n0 d0, t0 < T → n0 < N → d0 < D →
      HasDerivAt
        (fun ε => rnnLoss N D Hh T dh (upd3 x t0 n0 d0 ε) h0 Wx Wh b)
        ((rnn_backward N D Hh x h0 Wx Wh b dh T).dx t0 n0 d0) 0)
    ∧ (∀ n0 j0, n0 < N → j0 < Hh →
      HasDerivAt
        (fun ε => rnnLoss N D Hh T dh x (upd2 h0 n0 j0 ε) Wx Wh b)
        ((rnn_backward N D Hh x h0 Wx Wh b dh T).dh0 n0 j0) 0)
    ∧ (∀ d0 k0, d0 < D → k0 < Hh →
      HasDerivAt
        (fun ε => rnnLoss N D Hh T dh x h0 (upd2 Wx d0 k0 ε) Wh b)
        ((rnn_backward N D Hh x h0 Wx Wh b dh T).dWx d0 k0) 0)
    ∧ (∀ j0 k0, j0 < Hh → k0 < Hh →
      HasDerivAt
        (fun ε => rnnLoss N D Hh T dh x h0 Wx (upd2 Wh j0 k0 ε) b)
        ((rnn_backward N D Hh x h0 Wx Wh b dh T).dWh j0 k0) 0)
    ∧ (∀ k0, k0 < Hh →
      HasDerivAt
        (fun ε => rnnLoss N D Hh T dh x h0 Wx Wh (upd1 b k0 ε))
        ((rnn_backward N D Hh x h0 Wx Wh b dh T).db k0) 0) := by
  obtain ⟨T0, rfl⟩ : ∃ T0, T = T0 + 1 := ⟨T - 1, by omega⟩
  refine ⟨fun n k => rfl, fun t n k => rfl, ?_, ?_, ?_, ?_, ?_⟩
  · intro t0 n0 d0 ht0 hn0 hd0
    have hm : HasDerivAt
        (fun ε => rnnLoss N D Hh (T0 + 1) dh (upd3 x t0 n0 d0 ε) h0 Wx Wh b)
        ((∑ t ∈ Finset.range (T0 + 1), ∑ n ∈ Finset.range N,
            ∑ d ∈ Finset.range D,
            (rnn_bwd N D Hh (upd3 x t0 n0 d0 0) h0 Wx Wh b dh T0
              (fun _ _ => 0)).dx t n d
            * (if t = t0 ∧ n = n0 ∧ d = d0 then (1 : ℝ) else 0))
          + (∑ n ∈ Finset.range N, ∑ j ∈ Finset.range Hh,
              (rnn_bwd N D Hh (upd3 x t0 n0 d0 0) h0 Wx Wh b dh T0
                (fun _ _ => 0)).dh0 n j * 0)
          + (∑ d ∈ Finset.range D, ∑ k ∈ Finset.range Hh,
              (rnn_bwd N D Hh (upd3 x t0 n0 d0 0) h0 Wx Wh b dh T0
                (fun _ _ => 0)).dWx d k * 0)
          + (∑ j ∈ Finset.range Hh, ∑ k ∈ Finset.range Hh,
              (rnn_bwd N D Hh (upd3 x t0 n0 d0 0) h0 Wx Wh b dh T0
                (fun _ _ => 0)).dWh j k * 0)
          + (∑ k ∈ Finset.range Hh,
              (rnn_bwd N D Hh (upd3 x t0 n0 d0 0) h0 Wx Wh b dh T0
                (fun _ _ => 0)).db k * 0)) 0 :=
      rnn_master N D Hh (fun _ => Wx) (fun _ => Wh) (fun _ => b)
        (fun _ _ => 0) (fun _ _ => 0) (fun _ => 0)
        (fun d k => hasDerivAt_const 0 (Wx d k))
        (fun j k => hasDerivAt_const 0 (Wh j k))
        (fun k => hasDerivAt_const 0 (b k)) T0
        (fun s ε => upd3 x t0 n0 d0 ε s) (fun _ => h0)
        (fun t n d => if t = t0 ∧ n = n0 ∧ d = d0 then (1 : ℝ) else 0)
        (fun _ _ => 0) dh (fun t n d => hasDerivAt_upd3 x t0 n0 d0 t n d)
        (fun n j => hasDerivAt_const 0 (h0 n j))
    simp only [upd3_zero, mul_zero, Finset.sum_const_zero, add_zero,
      zero_add] at hm
    exact hm.congr_deriv (sum3_mul_ind (T0 + 1) N D ht0 hn0 hd0 _)
  · intro n0 j0 hn0 hj0
    have hm : HasDerivAt
        (fun ε => rnnLoss N D Hh (T0 + 1) dh x (upd2 h0 n0 j0 ε) Wx Wh b)
        ((∑ t ∈ Finset.range (T0 + 1), ∑ n ∈ Finset.range N,
            ∑ d ∈ Finset.range D,
            (rnn_bwd N D Hh x (upd2 h0 n0 j0 0) Wx Wh b dh T0
              (fun _ _ => 0)).dx t n d * 0)
          + (∑ n ∈ Finset.range N, ∑ j ∈ Finset.range Hh,
              (rnn_bwd N D Hh x (upd2 h0 n0 j0 0) Wx Wh b dh T0
                (fun _ _ => 0)).dh0 n j
              * (if n = n0 ∧ j = j0 then (1 : ℝ) else 0))
          + (∑ d ∈ Finset.range D, ∑ k ∈ Finset.range Hh,
              (rnn_bwd N D Hh x (upd2 h0 n0 j0 0) Wx Wh b dh T0
                (fun _ _ => 0)).dWx d k * 0)
          + (∑ j ∈ Finset.range Hh, ∑ k ∈ Finset.range Hh,
              (rnn_bwd N D Hh x (upd2 h0 n0 j0 0) Wx Wh b dh T0
                (fun _ _ => 0)).dWh j k * 0)
          + (∑ k ∈ Finset.range Hh,
              (rnn_bwd N D Hh x (upd2 h0 n0 j0 0) Wx Wh b dh T0
                (fun _ _ => 0)).db k * 0)) 0 :=
      rnn_master N D Hh (fun _ => Wx) (fun _ => Wh) (fun _ => b)
        (fun _ _ => 0) (fun _ _ => 0) (fun _ => 0)
        (fun d k => hasDerivAt_const 0 (Wx d k))
        (fun j k => hasDerivAt_const 0 (Wh j k))
        (fun k => hasDerivAt_const 0 (b k)) T0
        (fun s _ => x s) (fun ε => upd2 h0 n0 j0 ε)
        (fun _ _ _ => 0)
        (fun n j => if n = n0 ∧ j = j0 then (1 : ℝ) else 0)
        dh (fun t n d => hasDerivAt_const 0 (x t n d))
        (fun n j => hasDerivAt_upd2 h0 n0 j0 n j)
    simp only [upd2_zero, mul_zero, Finset.sum_const_zero, add_zero,
      zero_add] at hm
    exact hm.congr_deriv (sum2_mul_ind N Hh hn0 hj0 _)
  · intro d0 k0 hd0 hk0
    have hm : HasDerivAt
        (fun ε => rnnLoss N D Hh (T0 + 1) dh x h0 (upd2 Wx d0 k0 ε) Wh b)
        ((∑ t ∈ Finset.range (T0 + 1), ∑ n ∈ Finset.range N,
            ∑ d ∈ Finset.range D,
            (rnn_bwd N D Hh x h0 (upd2 Wx d0 k0 0) Wh b dh T0
              (fun _ _ => 0)).dx t n d * 0)
          + (∑ n ∈ Finset.range N, ∑ j ∈ Finset.range Hh,
              (rnn_bwd N D Hh x h0 (upd2 Wx d0 k0 0) Wh b dh T0
                (fun _ _ => 0)).dh0 n j * 0)
          + (∑ d ∈ Finset.range D, ∑ k ∈ Finset.range Hh,
              (rnn_bwd N D Hh x h0 (upd2 Wx d0 k0 0) Wh b dh T0
                (fun _ _ => 0)).dWx d k
              * (if d = d0 ∧ k = k0 then (1 : ℝ) else 0))
          + (∑ j ∈ Finset.range Hh, ∑ k ∈ Finset.range Hh,
              (rnn_bwd N D Hh x h0 (upd2 Wx d0 k0 0) Wh b dh T0
                (fun _ _ => 0)).dWh j k * 0)
          + (∑ k ∈ Finset.range Hh,
              (rnn_bwd N D Hh x h0 (upd2 Wx d0 k0 0) Wh b dh T0
                (fun _ _ => 0)).db k * 0)) 0 :=
      rnn_master N D Hh (fun ε => upd2 Wx d0 k0 ε) (fun _ => Wh) (fun _ => b)
        (fun d k => if d = d0 ∧ k = k0 then (1 : ℝ) else 0)
        (fun _ _ => 0) (fun _ => 0)
        (fun d k => hasDerivAt_upd2 Wx d0 k0 d k)
        (fun j k => hasDerivAt_const 0 (Wh j k))
        (fun k => hasDerivAt_const 0 (b k)) T0
        (fun s _ => x s) (fun _ => h0) (fun _ _ _ => 0) (fun _ _ => 0)
        dh (fun t n d => hasDerivAt_const 0 (x t n d))
        (fun n j => hasDerivAt_const 0 (h0 n j))
    simp only [upd2_zero, mul_zero, Finset.sum_const_zero, add_zero,
      zero_add] at hm
    exact hm.congr_deriv (sum2_mul_ind D Hh hd0 hk0 _)
  · intro j0 k0 hj0 hk0
    have hm : HasDerivAt
        (fun ε => rnnLoss N D Hh (T0 + 1) dh x h0 Wx (upd2 Wh j0 k0 ε) b)
        ((∑ t ∈ Finset.range (T0 + 1), ∑ n ∈ Finset.range N,
            ∑ d ∈ Finset.range D,
            (rnn_bwd N D Hh x h0 Wx (upd2 Wh j0 k0 0) b dh T0
              (fun _ _ => 0)).dx t n d * 0)
          + (∑ n ∈ Finset.range N, ∑ j ∈ Finset.range Hh,
              (rnn_bwd N D Hh x h0 Wx (upd2 Wh j0 k0 0) b dh T0
                (fun _ _ => 0)).dh0 n j * 0)
          + (∑ d ∈ Finset.range D, ∑ k ∈ Finset.range Hh,
              (rnn_bwd N D Hh x h0 Wx (upd2 Wh j0 k0 0) b dh T0
                (fun _ _ => 0)).dWx d k * 0)
          + (∑ j ∈ Finset.range Hh, ∑ k ∈ Finset.range Hh,
              (rnn_bwd N D Hh x h0 Wx (upd2 Wh j0 k0 0) b dh T0
                (fun _ _ => 0)).dWh j k
              * (if j = j0 ∧ k = k0 then (1 : ℝ) else 0))
          + (∑ k ∈ Finset.range Hh,
              (rnn_bwd N D Hh x h0 Wx (upd2 Wh j0 k0 0) b dh T0
                (fun _ _ => 0)).db k * 0)) 0 :=
      rnn_master N D Hh (fun _ => Wx) (fun ε => upd2 Wh j0 k0 ε) (fun _ => b)
        (fun _ _ => 0)
        (fun j k => if j = j0 ∧ k = k0 then (1 : ℝ) else 0) (fun _ => 0)
        (fun d k => hasDerivAt_const 0 (Wx d k))
        (fun j k => hasDerivAt_upd2 Wh j0 k0 j k)
        (fun k => hasDerivAt_const 0 (b k)) T0
        (fun s _ => x s) (fun _ => h0) (fun _ _ _ => 0) (fun _ _ => 0)
        dh (fun t n d => hasDerivAt_const 0 (x t n d))
        (fun n j => hasDerivAt_const 0 (h0 n j))
    simp only [upd2_zero, mul_zero, Finset.sum_const_zero, add_zero,
      zero_add] at hm
    exact hm.congr_deriv (sum2_mul_ind Hh Hh hj0 hk0 _)
  · intro k0 hk0
    have hm : HasDerivAt
        (fun ε => rnnLoss N D Hh (T0 + 1) dh x h0 Wx Wh (upd1 b k0 ε))
        ((∑ t ∈ Finset.range (T0 + 1), ∑ n ∈ Finset.range N,
            ∑ d ∈ Finset.range D,
            (rnn_bwd N D Hh x h0 Wx Wh (upd1 b k0 0) dh T0
              (fun _ _ => 0)).dx t n d * 0)
          + (∑ n ∈ Finset.range N, ∑ j ∈ Finset.range Hh,
              (rnn_bwd N D Hh x h0 Wx Wh (upd1 b k0 0) dh T0
                (fun _ _ => 0)).dh0 n j * 0)
          + (∑ d ∈ Finset.range D, ∑ k ∈ Finset.range Hh,
              (rnn_bwd N D Hh x h0 Wx Wh (upd1 b k0 0) dh T0
                (fun _ _ => 0)).dWx d k * 0)
          + (∑ j ∈ Finset.range Hh, ∑ k ∈ Finset.range Hh,
              (rnn_bwd N D Hh x h0 Wx Wh (upd1 b k0 0) dh T0
                (fun _ _ => 0)).dWh j k * 0)
          + (∑ k ∈ Finset.range Hh,
              (rnn_bwd N D Hh x h0 Wx Wh (upd1 b k0 0) dh T0
                (fun _ _ => 0)).db k
              * (if k = k0 then (1 : ℝ) else 0))) 0 :=
      rnn_master N D Hh (fun _ => Wx) (fun _ => Wh) (fun ε => upd1 b k0 ε)
        (fun _ _ => 0) (fun _ _ => 0)
        (fun k => if k = k0 then (1 : ℝ) else 0)
        (fun d k => hasDerivAt_const 0 (Wx d k))
        (fun j k => hasDerivAt_const 0 (Wh j k))
        (fun k => hasDerivAt_upd1 b k0 k) T0
        (fun s _ => x s) (fun _ => h0) (fun _ _ _ => 0) (fun _ _ => 0)
        dh (fun t n d => hasDerivAt_const 0 (x t n d))
        (fun n j => hasDerivAt_const 0 (h0 n j))
    simp only [upd1_zero, mul_zero, Finset.sum_const_zero, add_zero,
      zero_add] at hm
    exact hm.congr_deriv (sum1_mul_ind Hh hk0 _)

/-- Concrete instantiation of the RNN forward/backward theorem at
`N = D = H = T = 1` with all-ones inputs. -/
theorem rnn_forward_backward_correct_witness :
    (1 ≤ 1) ∧ HasDerivAt
      (fun ε => rnnLoss 1 1 1 1 (fun _ _ _ => 1)
        (upd3 (fun _ _ _ => 1) 0 0 0 ε) (fun _ _ => 1) (fun _ _ => 1)
        (fun _ _ => 1) (fun _ => 1))
      ((rnn_backward 1 1 1 (fun _ _ _ => 1) (fun _ _ => 1) (fun _ _ => 1)
        (fun _ _ => 1) (fun _ => 1) (fun _ _ _ => 1) 1).dx 0 0 0) 0 :=
  ⟨by decide,
   (rnn_forward_backward_correct 1 1 1 1 (fun _ _ _ => 1) (fun _ _ => 1)
      (fun _ _ => 1) (fun _ _ => 1) (fun _ => 1) (fun _ _ _ => 1)
      (by decide)).2.2.1 0 0 0 (by decide) (by decide) (by decide)⟩
